import Mathlib

/-!
# lpms: reservation records, artifact cleanup, bulk deletion and analytics

A shallow embedding of `app/service/reserve_pro_svc.go`.

The service methods call three collaborators whose code is not part of the
sources at hand (`repositories.ReserveRepo`, `repositories.ObjectRepo`, the
`vo` request types).  They are modelled from the specification's interface
section as operations on an explicit `World`: the reservation table, the set
of stored objects, a script of injected collaborator failures and a log of
every collaborator call with its outcome.  The service methods themselves are
transcribed statement by statement from the Go source.
-/

namespace Lpms

/-! ## Data model -/

/-- Workflow status of a record (`constant.EnteredDB`, `constant.EarlyPlan`,
`constant.OutStorageInspect`; `Draft` is the initial state). -/
inductive Status where
  | Draft
  | EnteredDB
  | EarlyPlan
  | OutStorageInspect
deriving DecidableEq, Repr

/-- The reservation record (`models.Reserve`), restricted to the columns the
service reads or writes. -/
structure Reserve where
  ID : Int
  Name : String
  Level : String
  ProjectType : String
  ConstructSubject : String
  CreateAt : Int
  Status : Status
  SitePhoto : String
  UploadCadID : String
  IsCaseFinish : Bool
  IsResearch : Bool
  CreateBy : String
  UpdateBy : String
deriving DecidableEq, Repr

/-- Errors reported by `strconv.ParseUint`. -/
inductive NumError where
  | syntaxErr
  | rangeErr
deriving DecidableEq, Repr

/-- The service's error values (`exception.Exception`).  The first two are
built by the service itself; the others come back from collaborators. -/
inductive Exception where
  | InvalidRequestParameters
  | ParseStringToInt64Error (err : NumError)
  | RecordNotFound (id : Int)
  | Collaborator (msg : String)
  | InvalidTransition (id : Int)
  | WindowClosed
  | UserNotFound (user : String)
deriving DecidableEq, Repr

/-- Equality of Go result values (`Except`) is decidable. -/
instance decEqExcept {ε α : Type} [DecidableEq ε] [DecidableEq α] : DecidableEq (Except ε α)
  | .ok a, .ok b =>
    if h : a = b then isTrue (by rw [h]) else isFalse (fun e => h (Except.ok.inj e))
  | .error a, .error b =>
    if h : a = b then isTrue (by rw [h]) else isFalse (fun e => h (Except.error.inj e))
  | .ok _, .error _ => isFalse (fun e => Except.noConfusion e)
  | .error _, .ok _ => isFalse (fun e => Except.noConfusion e)

/-- Error kinds of the specification's error-handling section. -/
inductive ErrorKind where
  | InvalidArgument
  | NotFound
  | External
  | InvalidTransition
  | WindowClosed
deriving DecidableEq, Repr

/-- The error kind a service error is reported under: both request-parameter
codes are rejections of the caller's argument. -/
def Exception.kind : Exception → ErrorKind
  | .InvalidRequestParameters => .InvalidArgument
  | .ParseStringToInt64Error _ => .InvalidArgument
  | .RecordNotFound _ => .NotFound
  | .Collaborator _ => .External
  | .InvalidTransition _ => .InvalidTransition
  | .WindowClosed => .WindowClosed
  | .UserNotFound _ => .NotFound

/-- A dynamically typed column value (`interface{}`). -/
inductive Value where
  | str (s : String)
  | bool (b : Bool)
  | status (s : Status)
deriving DecidableEq, Repr

/-- A column-name keyed update (`map[string]interface{}`). -/
abbrev FieldMap := List (String × Value)

/-- The update request (`vo.ReserveUpdateReq`). -/
structure ReserveUpdateReq where
  Name : String
  Level : String
  ProjectType : String
  ConstructSubject : String
  SitePhoto : String
  UploadCadID : String
deriving DecidableEq, Repr

/-- Modelled from the spec: `vo.ReserveUpdateReq.ToMap` is absent from the
sources.  Update "mutates descriptive attributes and/or artifact references
without changing Status" and records the caller as updater, so the map
carries the request's descriptive attributes, both artifact references and
`update_by`. -/
def ReserveUpdateReq.ToMap (param : ReserveUpdateReq) (openID : String) : FieldMap :=
  [("name", .str param.Name),
   ("level", .str param.Level),
   ("project_type", .str param.ProjectType),
   ("construct_subject", .str param.ConstructSubject),
   ("site_photo", .str param.SitePhoto),
   ("upload_cad_id", .str param.UploadCadID),
   ("update_by", .str openID)]

/-- Writing one column of a row; an unknown column or a value of the wrong
type leaves the row as it is. -/
def Reserve.setColumn (r : Reserve) (kv : String × Value) : Reserve :=
  match kv.2 with
  | .str s =>
    if kv.1 = "name" then { r with Name := s }
    else if kv.1 = "level" then { r with Level := s }
    else if kv.1 = "project_type" then { r with ProjectType := s }
    else if kv.1 = "construct_subject" then { r with ConstructSubject := s }
    else if kv.1 = "site_photo" then { r with SitePhoto := s }
    else if kv.1 = "upload_cad_id" then { r with UploadCadID := s }
    else if kv.1 = "update_by" then { r with UpdateBy := s }
    else r
  | .bool b =>
    if kv.1 = "is_case_finish" then { r with IsCaseFinish := b }
    else if kv.1 = "is_research" then { r with IsResearch := b }
    else r
  | .status s =>
    if kv.1 = "status" then { r with Status := s }
    else r

/-- Writing all columns of a field map to a row. -/
def Reserve.applyFields (r : Reserve) (m : FieldMap) : Reserve :=
  m.foldl Reserve.setColumn r

/-! ## Collaborators -/

/-- A call made to a collaborator. -/
inductive Call where
  | repoGet (id : Int)
  | repoUpdate (id : Int) (fields : FieldMap)
  | repoDelete (id : Int)
  | repoMultiDelete (ids : List Int)
  | objDelete (ref : String)
  | repoRefer (id : Int) (fields : FieldMap)
  | repoSubmission (id : Int) (fields : FieldMap)
  | repoOutStorage (id : Int) (fields : FieldMap)
  | repoMultiSubmission (ids : List Int) (fields : FieldMap)
  | userGet (user : String)
  | repoList (isAdmin : Bool) (user : String)
deriving DecidableEq, Repr

/-- A logged collaborator call with its outcome (`none` is success). -/
structure Event where
  call : Call
  err : Option Exception
deriving DecidableEq, Repr

/-- The state the service runs against: the reservation table, the ids of the
objects present in the object store, the outcomes injected into the coming
collaborator calls (one entry per call; `some ex` makes that call fail with
`ex`, `none` or an exhausted script lets it run), and the log of calls. -/
structure World where
  rows : List Reserve
  objects : List String
  faults : List (Option Exception)
  log : List Event
deriving DecidableEq, Repr

/-- The failure injected into the next collaborator call, if any. -/
def World.injected (w : World) : Option Exception :=
  w.faults.head?.join

/-- Logging a call and consuming its entry of the failure script. -/
def World.record (w : World) (c : Call) (err : Option Exception) : World :=
  { w with faults := w.faults.tail, log := w.log ++ [⟨c, err⟩] }

/-- The world with its reservation table replaced. -/
def World.withRows (w : World) (rows : List Reserve) : World :=
  { w with rows := rows }

/-- The world with its object store replaced. -/
def World.withObjects (w : World) (objects : List String) : World :=
  { w with objects := objects }

/-- The events logged between an earlier world and a later one. -/
def World.since (w w' : World) : List Event :=
  w'.log.drop w.log.length

/-- Modelled from the spec: `ReserveRepo.Get` is absent from the sources.
It returns the row with the given id and fails with not-found when there is
none; like every collaborator call it can also fail for an external reason. -/
def repoGet (w : World) (id : Int) : Except Exception Reserve × World :=
  match w.injected with
  | some ex => (.error ex, w.record (.repoGet id) (some ex))
  | none =>
    match w.rows.find? (fun r => r.ID = id) with
    | none => (.error (.RecordNotFound id), w.record (.repoGet id) (some (.RecordNotFound id)))
    | some r => (.ok r, w.record (.repoGet id) none)

/-- Modelled from the spec: `ReserveRepo.Update` is absent from the sources.
On success the columns of the map are written to the row(s) with the given
id; a failed call changes nothing. -/
def repoUpdate (w : World) (id : Int) (fields : FieldMap) : Option Exception × World :=
  match w.injected with
  | some ex => (some ex, w.record (.repoUpdate id fields) (some ex))
  | none =>
    (none, (w.record (.repoUpdate id fields) none).withRows
             (w.rows.map (fun r => if r.ID = id then r.applyFields fields else r)))

/-- Modelled from the spec: `ReserveRepo.Delete` is absent from the sources.
On success the row(s) with the given id are removed; a failed call changes
nothing. -/
def repoDelete (w : World) (id : Int) : Option Exception × World :=
  match w.injected with
  | some ex => (some ex, w.record (.repoDelete id) (some ex))
  | none =>
    (none, (w.record (.repoDelete id) none).withRows (w.rows.filter (fun r => r.ID ≠ id)))

/-- Modelled from the spec: `ReserveRepo.MultiDelete` is absent from the
sources.  On success every row whose id is listed is removed; a failed call
changes nothing. -/
def repoMultiDelete (w : World) (ids : List Int) : Option Exception × World :=
  match w.injected with
  | some ex => (some ex, w.record (.repoMultiDelete ids) (some ex))
  | none =>
    (none, (w.record (.repoMultiDelete ids) none).withRows (w.rows.filter (fun r => r.ID ∉ ids)))

/-- Modelled from the spec: `ObjectRepo.Delete` is absent from the sources.
On success the object is no longer in the store (deleting an absent id is
not an error of its own); a failed call changes nothing. -/
def objRepoDelete (w : World) (ref : String) : Option Exception × World :=
  match w.injected with
  | some ex => (some ex, w.record (.objDelete ref) (some ex))
  | none =>
    (none, (w.record (.objDelete ref) none).withObjects (w.objects.filter (fun o => o ≠ ref)))

/-! ## Service methods -/

/-- The method `reserveServiceImpl.Update`: look the record up, delete the CAD upload
and the site photo it no longer references, then persist the request. -/
def Update (w : World) (openID : String) (id : Int) (param : ReserveUpdateReq) :
    Option Exception × World :=
  match repoGet w id with
  | (.error ex, w1) => (some ex, w1)
  | (.ok pro, w1) =>
    match (if pro.UploadCadID ≠ "" ∧ pro.UploadCadID ≠ param.UploadCadID
           then objRepoDelete w1 pro.UploadCadID else (none, w1)) with
    | (some ex, w2) => (some ex, w2)
    | (none, w2) =>
      match (if pro.SitePhoto ≠ "" ∧ pro.SitePhoto ≠ param.SitePhoto
             then objRepoDelete w2 pro.SitePhoto else (none, w2)) with
      | (some ex, w3) => (some ex, w3)
      | (none, w3) => repoUpdate w3 id (param.ToMap openID)

/-- The method `reserveServiceImpl.Delete`: look the record up, delete its site photo
and its CAD upload, then remove the row. -/
def Delete (w : World) (id : Int) : Option Exception × World :=
  match repoGet w id with
  | (.error ex, w1) => (some ex, w1)
  | (.ok pro, w1) =>
    match (if pro.SitePhoto ≠ "" then objRepoDelete w1 pro.SitePhoto else (none, w1)) with
    | (some exx, w2) => (some exx, w2)
    | (none, w2) =>
      match (if pro.UploadCadID ≠ "" then objRepoDelete w2 pro.UploadCadID else (none, w2)) with
      | (some exx, w3) => (some exx, w3)
      | (none, w3) => repoDelete w3 id

/-! ## Bulk operations -/

/-- Go's `strings.Split(s, ",")` on the characters of `s`: the pieces between
the commas, one more than there are commas.  (Go splits the bytes of the
string; a comma is a single byte that occurs in no multi-byte character, so
the pieces are the same.) -/
def splitComma : List Char → List (List Char)
  | [] => [[]]
  | c :: cs =>
    if c = ',' then [] :: splitComma cs
    else
      match splitComma cs with
      | [] => [[c]]
      | piece :: pieces => (c :: piece) :: pieces

/-- The call `strings.Split(ids, ",")`. -/
def Split (ids : String) : List String :=
  (splitComma ids.toList).map String.mk

/-- The bit size `strconv.ParseUint` uses when called with `bitSize` 0
(`strconv.IntSize` of a 64-bit build). -/
def IntSize : Nat := 64

/-- The digit loop of `strconv.ParseUint(s, 10, 0)` (Go's standard library):
a byte that is not a decimal digit is a syntax error (for base 10 a letter is
a digit out of range, any other byte is no digit at all); `n >= cutoff`, with
`cutoff = maxUint64/10 + 1`, and a sum above `maxVal = 1<<bitSize - 1` are
range errors. -/
def ParseUint.loop : List Char → Nat → Except NumError Nat
  | [], n => .ok n
  | c :: cs, n =>
    if '0' ≤ c ∧ c ≤ '9' then
      if n ≥ (2 ^ 64 - 1) / 10 + 1 then .error .rangeErr
      else if n * 10 + (c.toNat - '0'.toNat) > 2 ^ IntSize - 1 then .error .rangeErr
      else ParseUint.loop cs (n * 10 + (c.toNat - '0'.toNat))
    else .error .syntaxErr

/-- The call `strconv.ParseUint(s, 10, 0)`. -/
def ParseUint (s : String) : Except NumError Nat :=
  if s = "" then .error .syntaxErr else ParseUint.loop s.toList 0

/-- The conversion `int64(id)` of a `uint64`. -/
def toInt64 (n : Nat) : Int :=
  if n % 2 ^ 64 < 2 ^ 63 then ((n % 2 ^ 64 : Nat) : Int) else ((n % 2 ^ 64 : Nat) : Int) - 2 ^ 64

/-- The parsing loop shared by `MultiDelete` and `MultiSubmission`: every
piece is parsed in order, the first piece that does not parse ends the call
with `ExceptionParseStringToInt64Error`. -/
def parseIDs : List String → Except Exception (List Int)
  | [] => .ok []
  | s :: rest =>
    match ParseUint s with
    | .error err => .error (.ParseStringToInt64Error err)
    | .ok id =>
      match parseIDs rest with
      | .error ex => .error ex
      | .ok did => .ok (toInt64 id :: did)

/-- The second loop of `MultiDelete`: for each id in order, look the record
up and delete its site photo and its CAD upload; the first failing call ends
the loop. -/
def MultiDelete.release (w : World) : List Int → Option Exception × World
  | [] => (none, w)
  | id :: rest =>
    match repoGet w id with
    | (.error ex, w1) => (some ex, w1)
    | (.ok pro, w1) =>
      match (if pro.SitePhoto ≠ "" then objRepoDelete w1 pro.SitePhoto else (none, w1)) with
      | (some exx, w2) => (some exx, w2)
      | (none, w2) =>
        match (if pro.UploadCadID ≠ "" then objRepoDelete w2 pro.UploadCadID
               else (none, w2)) with
        | (some exx, w3) => (some exx, w3)
        | (none, w3) => MultiDelete.release w3 rest

/-- The method `reserveServiceImpl.MultiDelete`: split and parse the ids,
release the artifacts of every listed record, then remove the rows in one
persistence call. -/
def MultiDelete (w : World) (ids : String) : Option Exception × World :=
  let idslice := Split ids
  if idslice.length = 0 then (some .InvalidRequestParameters, w)
  else
    match parseIDs idslice with
    | .error ex => (some ex, w)
    | .ok did =>
      match MultiDelete.release w did with
      | (some ex, w1) => (some ex, w1)
      | (none, w1) => repoMultiDelete w1 did

/-- The method `reserveServiceImpl.MultiSubmission`.  The collaborator call
`rsi.repo.MultiSubmission` is a parameter. -/
def MultiSubmission (repoMultiSubmission : World → List Int → FieldMap → Option Exception × World)
    (w : World) (openID : String) (ids : String) : Option Exception × World :=
  let idslice := Split ids
  if idslice.length = 0 then (some .InvalidRequestParameters, w)
  else
    match parseIDs idslice with
    | .error ex => (some ex, w)
    | .ok did =>
      repoMultiSubmission w did [("update_by", .str openID), ("status", .status .EarlyPlan)]

/-! ## Analytics -/

/-- A raw row of the grouped query (`models.ReserveAnalysis`). -/
structure ReserveAnalysis where
  Bucket : String
  Status : String
  Count : Int
deriving DecidableEq, Repr

/-- One status count of a bucket (`vo.AnalysisData`). -/
structure AnalysisData where
  Status : String
  Count : Int
deriving DecidableEq, Repr

/-- One bucket of the analytics response (`vo.ReserveAnalysisResp`). -/
structure ReserveAnalysisResp where
  Bucket : String
  Total : Int
  Data : List AnalysisData
deriving DecidableEq, Repr

/-- The Go map `map[string][]vo.AnalysisData`, as its entries in the order
the keys were first inserted. -/
abbrev DataMap := List (String × List AnalysisData)

/-- The statement `dataMap[key] = append(dataMap[key], item)`. -/
def DataMap.appendAt : DataMap → String → AnalysisData → DataMap
  | [], key, item => [(key, [item])]
  | (k, v) :: rest, key, item =>
    if k = key then (k, v ++ [item]) :: rest
    else (k, v) :: DataMap.appendAt rest key item

/-- The order in which a `range` over a Go map visits the entries: the
language leaves it unspecified, so it is any rearrangement of the entries. -/
structure MapRange where
  order : DataMap → DataMap
  perm : ∀ m : DataMap, (order m).Perm m

/-- Arithmetic of `int64`: the value reduced to the two's-complement range. -/
def wrapInt64 (x : Int) : Int :=
  (x + 2 ^ 63) % 2 ^ 64 - 2 ^ 63

/-- The first loop of `DataAnalysis`: the rows grouped by bucket. -/
def DataAnalysis.group (res : List ReserveAnalysis) : DataMap :=
  res.foldl (fun dataMap r => dataMap.appendAt r.Bucket ⟨r.Status, r.Count⟩) []

/-- The inner loop of `DataAnalysis`: `total += value[i].Count` in `int64`. -/
def DataAnalysis.total (value : List AnalysisData) : Int :=
  value.foldl (fun total d => wrapInt64 (total + d.Count)) 0

/-- The method `reserveServiceImpl.DataAnalysis`, given what `rsi.repo.DataAnalysis`
returned and the order in which the map is ranged over. -/
def DataAnalysis (rng : MapRange) (query : Except Exception (List ReserveAnalysis)) :
    Except Exception (List ReserveAnalysisResp) :=
  match query with
  | .error ex => .error ex
  | .ok res =>
    .ok ((rng.order (DataAnalysis.group res)).map
      (fun kv => { Bucket := kv.1, Total := DataAnalysis.total kv.2, Data := kv.2 }))

end Lpms

namespace Lpms

/-! ## Auxiliary descriptions used by the statements -/

/-- Deleting a list of objects in order, stopping at the first failure. -/
def releaseRefs (w : World) : List String → Option Exception × World
  | [] => (none, w)
  | ref :: rest =>
    match objRepoDelete w ref with
    | (some ex, w1) => (some ex, w1)
    | (none, w1) => releaseRefs w1 rest

/-- The references `Update` has to release: the old CAD upload and the old
site photo, each when it is non-empty and differs from the requested value. -/
def Update.released (pro : Reserve) (param : ReserveUpdateReq) : List String :=
  (if pro.UploadCadID ≠ "" ∧ pro.UploadCadID ≠ param.UploadCadID then [pro.UploadCadID] else [])
    ++ (if pro.SitePhoto ≠ "" ∧ pro.SitePhoto ≠ param.SitePhoto then [pro.SitePhoto] else [])

/-- The non-empty artifact references of a record, site photo first. -/
def Reserve.artifacts (pro : Reserve) : List String :=
  (if pro.SitePhoto ≠ "" then [pro.SitePhoto] else [])
    ++ (if pro.UploadCadID ≠ "" then [pro.UploadCadID] else [])

/-- Looking a record up and deleting its artifacts: what `Delete` does before
it removes the row, and what `MultiDelete` does for each id. -/
def releaseRecord (w : World) (id : Int) : Option Exception × World :=
  match repoGet w id with
  | (.error ex, w1) => (some ex, w1)
  | (.ok pro, w1) => releaseRefs w1 pro.artifacts

/-- The log entry of a successful object deletion. -/
def deleted (ref : String) : Event :=
  ⟨.objDelete ref, none⟩

end Lpms

namespace Lpms

/-! ## Sample data -/

/-- A record holding a site photo `P` and a CAD upload `A`. -/
def sampleRecord : Reserve :=
  ⟨1, "n", "l", "t", "c", 0, .Draft, "P", "A", false, false, "u", "u"⟩

/-- A second record, holding only a CAD upload `C`. -/
def otherRecord : Reserve :=
  ⟨3, "n", "l", "t", "c", 0, .Draft, "", "C", false, false, "u", "u"⟩

/-- A world with both sample records, every referenced object stored, two
spare objects `B` and `Q`, and no injected failure. -/
def sampleWorld : World :=
  ⟨[sampleRecord, otherRecord], ["P", "A", "C", "B", "Q"], [], []⟩

/-- A request that replaces the CAD upload by `B` and the site photo by `Q`. -/
def sampleReq : ReserveUpdateReq :=
  ⟨"n", "l", "t", "c", "Q", "B"⟩

end Lpms

namespace Lpms

/-! ## Referential integrity -/

/-- A reference is in order when it is empty or names a stored object. -/
def World.refOK (w : World) (ref : String) : Prop :=
  ref = "" ∨ ref ∈ w.objects

instance (w : World) (ref : String) : Decidable (w.refOK ref) := by
  unfold World.refOK; infer_instance

/-- Referential integrity: every non-empty SitePhoto and UploadCadID of every
stored record names an object present in the object store. -/
def World.integrity (w : World) : Prop :=
  ∀ r ∈ w.rows, w.refOK r.SitePhoto ∧ w.refOK r.UploadCadID

instance (w : World) : Decidable w.integrity := by
  unfold World.integrity; infer_instance

/-- No object is shared between records: records with different ids have no
artifact reference in common. -/
def World.exclusive (w : World) : Prop :=
  ∀ r ∈ w.rows, ∀ r' ∈ w.rows, r.ID ≠ r'.ID → ∀ ref ∈ r.artifacts, ref ∉ r'.artifacts

instance (w : World) : Decidable w.exclusive := by
  unfold World.exclusive; infer_instance

/-- The sample world with a failure injected into the third collaborator
call. -/
def faultyWorld : World :=
  { sampleWorld with faults := [none, none, some (.Collaborator "down")] }

/-- A world in which two records reference the same site photo `P`. -/
def sharedWorld : World :=
  ⟨[sampleRecord, ⟨2, "n", "l", "t", "c", 0, .Draft, "P", "", false, false, "u", "u"⟩],
   ["P", "A"], [], []⟩

/-- A request that moves the site photo `P` into the CAD slot and names `Q`
as the new site photo. -/
def swapReq : ReserveUpdateReq :=
  ⟨"n", "l", "t", "c", "Q", "P"⟩

end Lpms

namespace Lpms

/-! ## Bulk deletion, record by record -/

/-- Following the spec's words for the bulk deletion: "for each id in list
order, invoke the corresponding single-record operation", stopping at the
first failure. -/
def deleteEach (w : World) : List Int → Option Exception × World
  | [] => (none, w)
  | id :: rest =>
    match Delete w id with
    | (some ex, w1) => (some ex, w1)
    | (none, w1) => deleteEach w1 rest

/-- No failure is injected into any coming collaborator call. -/
def World.noFaults (w : World) : Prop :=
  ∀ f ∈ w.faults, f = none

instance (w : World) : Decidable w.noFaults := by
  unfold World.noFaults; infer_instance

end Lpms

namespace Lpms

/-! ## Well-formed identifiers -/

/-- A decimal digit. -/
def isDecimalDigit (c : Char) : Prop :=
  '0' ≤ c ∧ c ≤ '9'

instance (c : Char) : Decidable (isDecimalDigit c) := by
  unfold isDecimalDigit; infer_instance

/-- A base-10 unsigned integer: a non-empty string of decimal digits. -/
def isUnsignedDecimal (s : String) : Prop :=
  s ≠ "" ∧ ∀ c ∈ s.toList, isDecimalDigit c

instance (s : String) : Decidable (isUnsignedDecimal s) := by
  unfold isUnsignedDecimal; infer_instance

end Lpms

namespace Lpms

/-! ## Analytics, described from the raw rows -/

/-- The (Status, Count) pairs of the raw rows of one bucket, in input order. -/
def bucketData (res : List ReserveAnalysis) (bucket : String) : List AnalysisData :=
  (res.filter (fun r => r.Bucket = bucket)).map (fun r => ⟨r.Status, r.Count⟩)

/-- The sum of Count over the raw rows of one bucket. -/
def bucketSum (res : List ReserveAnalysis) (bucket : String) : Int :=
  ((res.filter (fun r => r.Bucket = bucket)).map (fun r => r.Count)).sum

/-- The distinct buckets of the raw rows in the order of first encounter. -/
def firstSeen (res : List ReserveAnalysis) : List String :=
  res.foldl (fun seen r => if r.Bucket ∈ seen then seen else seen ++ [r.Bucket]) []

/-- Following the spec's words for the aggregation: one entry per bucket, in
the order of first encounter, with the bucket's total and breakdown. -/
def inFirstSeenOrder (res : List ReserveAnalysis) : List ReserveAnalysisResp :=
  (firstSeen res).map
    (fun b => { Bucket := b, Total := wrapInt64 (bucketSum res b), Data := bucketData res b })

/-- The keys of the map. -/
def DataMap.keys (m : DataMap) : List String :=
  m.map Prod.fst

/-- The value stored under a key, empty when the key is absent. -/
def DataMap.get : DataMap → String → List AnalysisData
  | [], _ => []
  | (k, v) :: rest, key => if k = key then v else DataMap.get rest key

/-- A map iteration that visits the entries in insertion order. -/
def insertionOrder : MapRange :=
  ⟨id, fun m => List.Perm.refl m⟩

/-- A map iteration that visits the entries in reverse insertion order. -/
def reversedOrder : MapRange :=
  ⟨List.reverse, fun m => List.reverse_perm m⟩

/-- The raw rows of the specification's aggregation example. -/
def exampleRows : List ReserveAnalysis :=
  [⟨"Q1", "EnteredDB", 3⟩, ⟨"Q1", "EarlyPlan", 2⟩, ⟨"Q2", "EnteredDB", 1⟩]

/-- Modelled from the spec: the grouped query `ReserveRepo.DataAnalysis` is
absent from the sources.  Its rows count the stored records group by group:
no count is negative, and the counts add up to no more than the number of
stored records, which is below 2^63. -/
def countsStoredRecords (res : List ReserveAnalysis) : Prop :=
  (∀ r ∈ res, 0 ≤ r.Count) ∧ (res.map (fun r => r.Count)).sum < 2 ^ 63

instance (res : List ReserveAnalysis) : Decidable (countsStoredRecords res) := by
  unfold countsStoredRecords; infer_instance

end Lpms

namespace Lpms

/-! ## Status transitions -/

/-- The flags of a submission or out-storage request
(`vo.SubmissionOutStorage`). -/
structure SubmissionOutStorage where
  IsCaseFinish : Bool
  IsResearch : Bool
deriving DecidableEq, Repr

/-- The shape of the persistence calls `rsi.repo.Refer`, `rsi.repo.Submission`
and `rsi.repo.OutStorage`: a record id and a field update. -/
abbrev RepoTransition := World → Int → FieldMap → Option Exception × World

/-- The method `reserveServiceImpl.Refer`; the collaborator call
`rsi.repo.Refer` is a parameter. -/
def Refer (repoRefer : RepoTransition) (w : World) (openID : String) (id : Int) :
    Option Exception × World :=
  repoRefer w id [("update_by", .str openID), ("status", .status .EnteredDB)]

/-- The method `reserveServiceImpl.Submission`; the collaborator call
`rsi.repo.Submission` is a parameter. -/
def Submission (repoSubmission : RepoTransition) (w : World) (openID : String) (id : Int)
    (req : SubmissionOutStorage) : Option Exception × World :=
  repoSubmission w id
    [("update_by", .str openID), ("status", .status .EarlyPlan),
     ("is_case_finish", .bool req.IsCaseFinish), ("is_research", .bool req.IsResearch)]

/-- The method `reserveServiceImpl.OutStorage`; the collaborator call
`rsi.repo.OutStorage` is a parameter. -/
def OutStorage (repoOutStorage : RepoTransition) (w : World) (openID : String) (id : Int)
    (req : SubmissionOutStorage) : Option Exception × World :=
  repoOutStorage w id
    [("update_by", .str openID), ("status", .status .OutStorageInspect),
     ("is_case_finish", .bool req.IsCaseFinish), ("is_research", .bool req.IsResearch)]

/-- One permitted time window of the window setting. -/
structure Window where
  start : Int
  stop : Int
deriving DecidableEq, Repr

/-- The window gate at the time of a call: the configured windows and the
current time. -/
structure Gate where
  windows : List Window
  now : Int
deriving DecidableEq, Repr

/-- Modelled from the spec: the window service is absent from the sources.
`IsOpen(now)` is "true iff now falls within at least one configured window". -/
def Gate.IsOpen (gate : Gate) : Bool :=
  gate.windows.any (fun win => decide (win.start ≤ gate.now ∧ gate.now ≤ win.stop))

/-- Modelled from the spec: the status check of a transition is absent from
the sources.  A transition "fails with NotFound if id unknown", is rejected
"with InvalidTransition" when the record is not in the status the transition
starts from, and otherwise writes the field update to the record. -/
def transitionRow (src : Status) (rows : List Reserve) (id : Int) (fields : FieldMap) :
    Except Exception (List Reserve) :=
  match rows.find? (fun r => r.ID = id) with
  | none => .error (.RecordNotFound id)
  | some r =>
    if r.Status = src then
      .ok (rows.map (fun r => if r.ID = id then r.applyFields fields else r))
    else .error (.InvalidTransition id)

/-- Modelled from the spec: the bulk transition is absent from the sources.
"For each id in list order" the single-record transition is applied;
"processing stops at the first per-record failure" and "records already
mutated before the failure remain mutated". -/
def transitionRows (src : Status) : List Reserve → List Int → FieldMap →
    Option Exception × List Reserve
  | rows, [], _ => (none, rows)
  | rows, id :: rest, fields =>
    match transitionRow src rows id fields with
    | .error ex => (some ex, rows)
    | .ok rows' => transitionRows src rows' rest fields

/-- Modelled from the spec: `ReserveRepo.Refer` is absent from the sources.
Refer "transitions Draft → EnteredDB" and is "not window-gated"; like every
collaborator call it can also fail for an external reason. -/
def repoRefer : RepoTransition := fun w id fields =>
  match w.injected with
  | some ex => (some ex, w.record (.repoRefer id fields) (some ex))
  | none =>
    match transitionRow .Draft w.rows id fields with
    | .error ex => (some ex, w.record (.repoRefer id fields) (some ex))
    | .ok rows => (none, (w.record (.repoRefer id fields) none).withRows rows)

/-- Modelled from the spec: `ReserveRepo.Submission` is absent from the
sources.  Submission "transitions EnteredDB → EarlyPlan" and is
"window-gated: must consult WindowGate.IsOpen(now); fails with WindowClosed
otherwise". -/
def repoSubmission (gate : Gate) : RepoTransition := fun w id fields =>
  if gate.IsOpen = false then
    (some .WindowClosed, w.record (.repoSubmission id fields) (some .WindowClosed))
  else
    match w.injected with
    | some ex => (some ex, w.record (.repoSubmission id fields) (some ex))
    | none =>
      match transitionRow .EnteredDB w.rows id fields with
      | .error ex => (some ex, w.record (.repoSubmission id fields) (some ex))
      | .ok rows => (none, (w.record (.repoSubmission id fields) none).withRows rows)

/-- Modelled from the spec: `ReserveRepo.OutStorage` is absent from the
sources.  OutStorage "transitions EarlyPlan → OutStorageInspect" and is
"window-gated identically". -/
def repoOutStorage (gate : Gate) : RepoTransition := fun w id fields =>
  if gate.IsOpen = false then
    (some .WindowClosed, w.record (.repoOutStorage id fields) (some .WindowClosed))
  else
    match w.injected with
    | some ex => (some ex, w.record (.repoOutStorage id fields) (some ex))
    | none =>
      match transitionRow .EarlyPlan w.rows id fields with
      | .error ex => (some ex, w.record (.repoOutStorage id fields) (some ex))
      | .ok rows => (none, (w.record (.repoOutStorage id fields) none).withRows rows)

/-- Modelled from the spec: `ReserveRepo.MultiSubmission` is absent from the
sources.  It is the window-gated bulk form of the transition
EnteredDB → EarlyPlan, fail-fast and without rollback. -/
def repoMultiSubmission (gate : Gate) :
    World → List Int → FieldMap → Option Exception × World := fun w ids fields =>
  if gate.IsOpen = false then
    (some .WindowClosed, w.record (.repoMultiSubmission ids fields) (some .WindowClosed))
  else
    match w.injected with
    | some ex => (some ex, w.record (.repoMultiSubmission ids fields) (some ex))
    | none =>
      ((transitionRows .EnteredDB w.rows ids fields).1,
       (w.record (.repoMultiSubmission ids fields)
          (transitionRows .EnteredDB w.rows ids fields).1).withRows
         (transitionRows .EnteredDB w.rows ids fields).2)

/-- The status that follows a status in the lifecycle
`Draft → EnteredDB → EarlyPlan → OutStorageInspect`. -/
def Status.next : Status → Option Status
  | .Draft => some .EnteredDB
  | .EnteredDB => some .EarlyPlan
  | .EarlyPlan => some .OutStorageInspect
  | .OutStorageInspect => none

/-- Following the spec's words for the bulk submission: "for each id in list
order, invoke the corresponding single-record operation", here `Submission`
with the given flags, stopping at the first failure. -/
def submitEach (gate : Gate) (w : World) (openID : String) (req : SubmissionOutStorage) :
    List Int → Option Exception × World
  | [] => (none, w)
  | id :: rest =>
    match Submission (repoSubmission gate) w openID id req with
    | (some ex, w1) => (some ex, w1)
    | (none, w1) => submitEach gate w1 openID req rest

/-- A record with its two flags cleared, to compare records up to
`IsCaseFinish` and `IsResearch`. -/
def Reserve.withoutFlags (r : Reserve) : Reserve :=
  { r with IsCaseFinish := false, IsResearch := false }

/-! ## Listing -/

/-- The user record of the directory (`models.User`), restricted to the flag
the service reads. -/
structure UserInfo where
  IsAdmin : Bool
deriving DecidableEq, Repr

/-- Modelled from the spec: `vo.PageInfo` is absent from the sources; a page
is a limit and an offset. -/
structure PageInfo where
  Limit : Nat
  Offset : Nat
deriving DecidableEq, Repr

/-- Modelled from the spec: `vo.ReserveFilterParam` is absent from the
sources; a filter decides for each record whether it is listed. -/
abbrev ReserveFilterParam := Reserve → Bool

/-- One row of the listing (`vo.ListReserveProResp`). -/
structure ListReserveProResp where
  ID : Int
  Name : String
  Level : String
  ProjectType : String
  ConstructSubject : String
  CreateAt : Int
  Status : Status
deriving DecidableEq, Repr

/-- Modelled from the spec: `vo.DataPagination` and `vo.NewDataPagination`
are absent from the sources; the page holds the total count, the rows and
the page request. -/
structure DataPagination where
  Count : Int
  Data : List ListReserveProResp
  Page : PageInfo
deriving DecidableEq, Repr

/-- The constructor call `vo.NewDataPagination(count, resp, pageInfo)`. -/
def NewDataPagination (count : Int) (resp : List ListReserveProResp) (pageInfo : PageInfo) :
    DataPagination :=
  ⟨count, resp, pageInfo⟩

/-- The listing row built from a record in the loop of `List`. -/
def ListReserveProResp.ofReserve (p : Reserve) : ListReserveProResp :=
  { ID := p.ID, Name := p.Name, Level := p.Level, ProjectType := p.ProjectType,
    ConstructSubject := p.ConstructSubject, CreateAt := p.CreateAt, Status := p.Status }

/-- The method `reserveServiceImpl.List` (named `ListRecords`, as in the
caller-facing surface, because `List` is Lean's list type); the collaborator
calls `rsi.userRepo.Get` and `rsi.repo.List` are parameters. -/
def ListRecords (userRepoGet : World → String → Except Exception UserInfo × World)
    (repoList : World → PageInfo → ReserveFilterParam → Bool → String →
      Except Exception (Int × List Reserve) × World)
    (w : World) (user : String) (params : ReserveFilterParam) (pageInfo : PageInfo) :
    Except Exception DataPagination × World :=
  match userRepoGet w user with
  | (.error ex, w1) => (.error ex, w1)
  | (.ok userInfo, w1) =>
    match repoList w1 pageInfo params userInfo.IsAdmin user with
    | (.error ex, w2) => (.error ex, w2)
    | (.ok (count, projects), w2) =>
      (.ok (NewDataPagination count (projects.map ListReserveProResp.ofReserve) pageInfo), w2)

/-- Modelled from the spec: `UserRepo.Get` is absent from the sources.  The
user directory maps an identity to its admin flag; the lookup of an unknown
identity fails, and like every collaborator call it can also fail for an
external reason. -/
def userRepoGet (directory : List (String × UserInfo)) (w : World) (user : String) :
    Except Exception UserInfo × World :=
  match w.injected with
  | some ex => (.error ex, w.record (.userGet user) (some ex))
  | none =>
    match directory.find? (fun entry => entry.1 = user) with
    | none => (.error (.UserNotFound user), w.record (.userGet user) (some (.UserNotFound user)))
    | some entry => (.ok entry.2, w.record (.userGet user) none)

/-- The listing order of the spec: "stable ordering by creation time then id
as tie-break". -/
def createdBefore (a b : Reserve) : Prop :=
  a.CreateAt < b.CreateAt ∨ (a.CreateAt = b.CreateAt ∧ a.ID ≤ b.ID)

instance : DecidableRel createdBefore := fun a b => by
  unfold createdBefore; infer_instance

/-- The records a caller may see: "admins see all records, non-admins see
only their own", the owner of a record being its creator, "both subject to
filter". -/
def inScope (params : ReserveFilterParam) (isAdmin : Bool) (user : String) (r : Reserve) :
    Bool :=
  params r && (isAdmin || decide (r.CreateBy = user))

/-- Modelled from the spec: `ReserveRepo.List` is absent from the sources.
It returns the number of records in the caller's scope and the requested
page of them in listing order. -/
def repoList (w : World) (pageInfo : PageInfo) (params : ReserveFilterParam) (isAdmin : Bool)
    (user : String) : Except Exception (Int × List Reserve) × World :=
  match w.injected with
  | some ex => (.error ex, w.record (.repoList isAdmin user) (some ex))
  | none =>
    (.ok ((((w.rows.insertionSort createdBefore).filter (inScope params isAdmin user)).length :
            Nat),
          (((w.rows.insertionSort createdBefore).filter (inScope params isAdmin user)).drop
            pageInfo.Offset).take pageInfo.Limit),
     w.record (.repoList isAdmin user) none)

/-- A user directory with a regular user `u`, another regular user `v` and
an administrator `root`. -/
def sampleDirectory : List (String × UserInfo) :=
  [("u", ⟨false⟩), ("v", ⟨false⟩), ("root", ⟨true⟩)]

/-- A record owned by another user `v`, entered in the register. -/
def enteredRecord : Reserve :=
  ⟨5, "n", "l", "t", "c", 1, .EnteredDB, "", "", false, true, "v", "v"⟩

/-- A world with the two sample records of user `u` and the record of user
`v`. -/
def listWorld : World :=
  ⟨[sampleRecord, otherRecord, enteredRecord], ["P", "A", "C"], [], []⟩

/-- A gate with one window that is open at the current time. -/
def openGate : Gate :=
  ⟨[⟨10, 20⟩], 15⟩

/-- A gate with one window that is over at the current time. -/
def closedGate : Gate :=
  ⟨[⟨10, 20⟩], 25⟩

end Lpms

namespace Lpms

/-- The sample world after the objects `P` and `A` of record 1 were deleted
from the object store: the record still references them. -/
def goneWorld : World :=
  ⟨[sampleRecord, otherRecord], ["C", "B", "Q"], [], []⟩

end Lpms

namespace Lpms

/-- Whether a collaborator call is a lookup in the user directory. -/
def Call.isUserGet : Call → Bool
  | .userGet _ => true
  | _ => false

/-- The records of the caller's scope in listing order, before paging. -/
def scopedRows (w : World) (params : ReserveFilterParam) (isAdmin : Bool) (user : String) :
    List Reserve :=
  (w.rows.insertionSort createdBefore).filter (inScope params isAdmin user)

end Lpms

/-!
# go-toml v2: the encoder (`marshaler.go`)

A shallow embedding of the vendored TOML encoder.  Go strings and byte
slices are lists of byte values.  `reflect.Value` is modelled by `Val`, for
the kinds string, bool, signed and unsigned integer, interface, pointer,
slice, map and struct, for `time.Time` and for the values that the encoder
hands to `encoding.TextMarshaler`; floats and the kinds the encoder rejects
are outside the model, and so are interface types that declare `MarshalText`
themselves.  A nil pointer is given by the type it points to (`Ty`), from
which `Ty.zero` computes what `reflect.Zero` returns.  A struct is given by
its exported fields that are not tagged `-`, each with the key and the
options that `parseTag` and `isValidName` resolve from its tags.  The
recursion of `encode` through the container encoders is bounded by a fuel
argument, which stands for the finite depth of the value.
-/

namespace Toml

/-- A Go string or byte slice. -/
abbrev Bytes := List Nat

/-- The bytes of an ASCII text. -/
def ascii (s : String) : Bytes :=
  s.toList.map Char.toNat

/-- The errors of the encoder: the messages of its `fmt.Errorf` calls, its
panics, a failed write, and the exhaustion of the model's fuel. -/
inductive Err where
  | cannotEncodeNilInterface
  | nilInterfaceNotSupported
  | newLineInKey
  | mapKeyNotSupported
  | cannotEncodeKind
  | textMarshalerAtRoot
  | marshalTextFailed
  | cannotWrite
  | panicked (msg : String)
  | outOfFuel
deriving DecidableEq, Repr

/-- The settings of an `Encoder` (its output stream aside). -/
structure Encoder where
  tablesInline : Bool
  arraysMultiline : Bool
  indentSymbol : Bytes
  indentTables : Bool
deriving DecidableEq, Repr

/-- The constructor `NewEncoder`: the indentation symbol is two spaces. -/
def NewEncoder : Encoder :=
  { tablesInline := false, arraysMultiline := false, indentSymbol := [0x20, 0x20],
    indentTables := false }

/-- Options coming from struct tags (`valueOptions`). -/
structure valueOptions where
  multiline : Bool
  omitempty : Bool
  comment : Bytes
deriving DecidableEq, Repr

/-- The zero `valueOptions`. -/
def valueOptions.zero : valueOptions :=
  { multiline := false, omitempty := false, comment := [] }

/-- The encoder context (`encoderCtx`). -/
structure encoderCtx where
  parentKey : List Bytes
  key : Bytes
  hasKey : Bool
  insideKv : Bool
  skipTableHeader : Bool
  inline : Bool
  indent : Nat
  options : valueOptions
deriving DecidableEq, Repr

/-- The zero `encoderCtx`. -/
def encoderCtx.zero : encoderCtx :=
  { parentKey := [], key := [], hasKey := false, insideKv := false, skipTableHeader := false,
    inline := false, indent := 0, options := valueOptions.zero }

/-- The method `clearKey`. -/
def encoderCtx.clearKey (ctx : encoderCtx) : encoderCtx :=
  { ctx with key := [], hasKey := false }

/-- The method `shiftKey`. -/
def encoderCtx.shiftKey (ctx : encoderCtx) : encoderCtx :=
  if ctx.hasKey then
    ({ ctx with parentKey := ctx.parentKey ++ [ctx.key] } : encoderCtx).clearKey
  else ctx

/-- The method `setKey`. -/
def encoderCtx.setKey (ctx : encoderCtx) (k : Bytes) : encoderCtx :=
  { ctx with key := k, hasKey := true }

/-- The method `isRoot`. -/
def encoderCtx.isRoot (ctx : encoderCtx) : Bool :=
  ctx.parentKey.length == 0 && !ctx.hasKey

/-- What the tags of a struct field resolve to: its key, the `inline` option
and the value options. -/
structure StructField where
  Key : Bytes
  inline : Bool
  options : valueOptions
deriving DecidableEq, Repr

/-- A Go type, as far as the zero value of it is needed: the kinds of the
model and `time.Time`.  (A named type with a `MarshalText` method of its own
is not among them.) -/
inductive Ty where
  | string
  | bool
  | int
  | uint
  | interface
  | ptr (elem : Ty)
  | slice (elem : Ty)
  | map (stringKey : Bool)
  | struct (fields : List (StructField × Ty))
  | time

/-- A Go value as the encoder sees it through `reflect`.  A nil pointer
carries the type it points to, a map whether its key type is a string kind.
A `time.Time` carries whether it is the zero value (`v.IsZero()`), its
RFC 3339 form and what its `MarshalText` returns.  `marshaler under text` is
a value `under` that the encoder hands to `encoding.TextMarshaler`: its type
implements the interface, or the value is addressable and the pointer to its
type does; `text` is what its `MarshalText` returns, an error for a method
that fails or panics (as a value method does on a nil pointer). -/
inductive Val where
  | string (s : Bytes)
  | bool (b : Bool)
  | int (n : Int)
  | uint (n : Nat)
  | nilInterface
  | interface (elem : Val)
  | nilPtr (elem : Ty)
  | ptr (elem : Val)
  | slice (items : List Val)
  | nilMap (stringKey : Bool)
  | map (stringKey : Bool) (entries : List (Bytes × Val))
  | struct (fields : List (StructField × Val))
  | time (isZero : Bool) (rfc3339 : Bytes) (text : Except Err Bytes)
  | marshaler (under : Val) (text : Except Err Bytes)

/-- The text of the zero `time.Time`, January 1 of year 1 at 00:00:00 UTC. -/
def zeroTimeText : Bytes :=
  ascii "0001-01-01T00:00:00Z"

mutual
/-- The call `reflect.Zero(t)`: the zero value of a type.  The zero value of
a pointer is the nil pointer (of a pointer to `time.Time`, a nil pointer
whose type implements `encoding.TextMarshaler` and whose `MarshalText`, a
value method, panics), of an interface the nil interface, of a map the nil
map, of a slice the nil slice, which has no element. -/
def Ty.zero : Ty → Val
  | .string => .string []
  | .bool => .bool false
  | .int => .int 0
  | .uint => .uint 0
  | .interface => .nilInterface
  | .ptr .time =>
    .marshaler (.nilPtr .time)
      (.error (.panicked "value method time.Time.MarshalText called using nil *Time pointer"))
  | .ptr elem => .nilPtr elem
  | .slice _ => .slice []
  | .map stringKey => .nilMap stringKey
  | .struct fields => .struct (Ty.zeroFields fields)
  | .time => .time true zeroTimeText (.ok zeroTimeText)
/-- The zero values of the fields of a struct type. -/
def Ty.zeroFields : List (StructField × Ty) → List (StructField × Val)
  | [] => []
  | (field, t) :: rest => (field, Ty.zero t) :: Ty.zeroFields rest
end

/-- An entry of a table (`entry`). -/
structure entry where
  Key : Bytes
  Value : Val
  Options : valueOptions

/-- The key-values and the sub-tables of a table (`table`). -/
structure table where
  kvs : List entry
  tables : List entry

/-- The method `pushKV`. -/
def table.pushKV (t : table) (k : Bytes) (v : Val) (options : valueOptions) : table :=
  { t with kvs := t.kvs ++ [⟨k, v, options⟩] }

/-- The method `pushTable`. -/
def table.pushTable (t : table) (k : Bytes) (v : Val) (options : valueOptions) : table :=
  { t with tables := t.tables ++ [⟨k, v, options⟩] }

/-- The function `sortEntriesByKey`: the entries in increasing order of their
keys, compared byte by byte. -/
def sortEntriesByKey (e : List entry) : List entry :=
  e.insertionSort (fun a b => ¬ b.Key < a.Key)

/-! ## Strings and keys -/

/-- The constant `literalQuote`, a single quote. -/
def literalQuote : Nat := 0x27

/-- The function `needsQuoting`: `strings.ContainsAny(v, "'\b\f\n\r\t")`. -/
def needsQuoting (v : Bytes) : Bool :=
  v.any (fun c => decide (c ∈ [0x27, 0x08, 0x0C, 0x0A, 0x0D, 0x09]))

/-- The method `encodeLiteralString`. -/
def encodeLiteralString (b : Bytes) (v : Bytes) : Bytes :=
  b ++ [literalQuote] ++ v ++ [literalQuote]

/-- The constant `hextable`. -/
def hextable : Bytes :=
  ascii "0123456789ABCDEF"

/-- The body of the loop of `encodeQuotedString`: the encoding of one byte. -/
def encodeQuotedString.step (multiline : Bool) (b : Bytes) (r : Nat) : Bytes :=
  if r = 0x5C then b ++ [0x5C, 0x5C]
  else if r = 0x22 then b ++ [0x5C, 0x22]
  else if r = 0x08 then b ++ [0x5C, 0x62]
  else if r = 0x0C then b ++ [0x5C, 0x66]
  else if r = 0x0A then
    if multiline then b ++ [r] else b ++ [0x5C, 0x6E]
  else if r = 0x0D then b ++ [0x5C, 0x72]
  else if r = 0x09 then b ++ [0x5C, 0x74]
  else if (0x00 ≤ r ∧ r ≤ 0x08) ∨ (0x0A ≤ r ∧ r ≤ 0x1F) ∨ r = 0x7F then
    b ++ [0x5C, 0x75, 0x30, 0x30] ++ [hextable.getD (r / 16) 0] ++ [hextable.getD (r % 16) 0]
  else b ++ [r]

/-- The method `encodeQuotedString`. -/
def encodeQuotedString (multiline : Bool) (b : Bytes) (v : Bytes) : Bytes :=
  let stringQuote : Bytes := if multiline then [0x22, 0x22, 0x22] else [0x22]
  let b1 := b ++ stringQuote
  let b2 := if multiline then b1 ++ [0x0A] else b1
  v.foldl (encodeQuotedString.step multiline) b2 ++ stringQuote

/-- The method `encodeString`. -/
def encodeString (b : Bytes) (v : Bytes) (options : valueOptions) : Bytes :=
  if needsQuoting v then encodeQuotedString options.multiline b v
  else encodeLiteralString b v

/-- The method `encodeUnquotedKey`. -/
def encodeUnquotedKey (b : Bytes) (v : Bytes) : Bytes :=
  b ++ v

/-- The first test of the loop of `encodeKey`, on one character: whether it
is in A-Z, a-z, 0-9, or is `-` or `_`. -/
def isBareKeyChar (c : Nat) : Bool :=
  (0x41 ≤ c && c ≤ 0x5A) || (0x61 ≤ c && c ≤ 0x7A) || (0x30 ≤ c && c ≤ 0x39) ||
    c == 0x2D || c == 0x5F

/-- The two flags of `encodeKey`. -/
structure KeyFlags where
  needsQuotation : Bool
  cannotUseLiteral : Bool
deriving DecidableEq, Repr

/-- The loop of `encodeKey`.  Go ranges over the runes of the key; every test
of the loop singles out ASCII characters, and a byte of a multi-byte
character is like the character itself none of them, so the loop over the
bytes sets the same flags and returns the same error. -/
def encodeKey.scan : Bytes → KeyFlags → Except Err KeyFlags
  | [], flags => .ok flags
  | c :: rest, flags =>
    if isBareKeyChar c then encodeKey.scan rest flags
    else if c = 0x0A then .error .newLineInKey
    else
      encodeKey.scan rest
        { needsQuotation := true,
          cannotUseLiteral := if c = literalQuote then true else flags.cannotUseLiteral }

/-- The method `encodeKey`. -/
def encodeKey (b : Bytes) (k : Bytes) : Except Err Bytes :=
  match encodeKey.scan k { needsQuotation := false, cannotUseLiteral := false } with
  | .error err => .error err
  | .ok flags =>
    if flags.cannotUseLiteral then .ok (encodeQuotedString false b k)
    else if flags.needsQuotation then .ok (encodeLiteralString b k)
    else .ok (encodeUnquotedKey b k)

end Toml

namespace Toml

/-! ## Values -/

/-- The recursive calls to the method `encode`, as seen by the container
encoders. -/
abbrev Encode := Bytes → encoderCtx → Val → Except Err Bytes

/-- The function `isNil`.  It looks at the kind of the value only, which for
a value handed to `encoding.TextMarshaler` is the kind of the value itself. -/
def isNil : Val → Bool
  | .nilPtr _ => true
  | .nilInterface => true
  | .nilMap _ => true
  | .marshaler under _ => isNil under
  | _ => false

/-- The function `isEmptyValue` (floats and arrays are outside the model). -/
def isEmptyValue : Val → Bool
  | .map _ entries => entries.length == 0
  | .nilMap _ => true
  | .slice items => items.length == 0
  | .string s => s.length == 0
  | .bool b => !b
  | .int n => n == 0
  | .uint n => n == 0
  | .interface _ => false
  | .nilInterface => true
  | .ptr _ => false
  | .nilPtr _ => true
  | .struct _ => false
  | .time _ _ _ => false
  | .marshaler under _ => isEmptyValue under

/-- The function `willConvertToTable`.  The element of a nil interface is the
invalid value, for which the answer is no, as it is for a `time.Time` and for
a value handed to `encoding.TextMarshaler`. -/
def willConvertToTable (ctx : encoderCtx) : Val → Bool
  | .time _ _ _ => false
  | .marshaler _ _ => false
  | .map _ _ => !ctx.inline
  | .nilMap _ => !ctx.inline
  | .struct _ => !ctx.inline
  | .interface elem => willConvertToTable ctx elem
  | .nilInterface => false
  | .ptr elem => willConvertToTable ctx elem
  | .nilPtr _ => false
  | _ => false

/-- The function `willConvertToTableOrArrayTable`.  (Its callers never pass a
nil interface: `encodeMap` and `encodeStruct` skip nil values first.) -/
def willConvertToTableOrArrayTable (ctx : encoderCtx) : Val → Bool
  | .interface elem => willConvertToTableOrArrayTable ctx elem
  | .slice items =>
    if items.length = 0 then false
    else items.all (fun item => willConvertToTable ctx item)
  | .marshaler (.slice items) _ =>
    if items.length = 0 then false
    else items.all (fun item => willConvertToTable ctx item)
  | v => willConvertToTable ctx v

/-- The method `indent`. -/
def Encoder.indent (enc : Encoder) (level : Nat) (b : Bytes) : Bytes :=
  b ++ (List.replicate level enc.indentSymbol).flatten

/-- The method `encodeComment`. -/
def encodeComment (enc : Encoder) (indent : Nat) (comment : Bytes) (b : Bytes) : Bytes :=
  if comment ≠ [] then
    enc.indent indent b ++ [0x23, 0x20] ++ comment ++ [0x0A]
  else b

/-- The decimal digits of a natural number (`strconv.AppendUint(b, n, 10)`
appends them). -/
def decimal (n : Nat) : Bytes :=
  (Nat.toDigits 10 n).map Char.toNat

/-- The call `strconv.AppendInt(b, n, 10)`. -/
def appendInt (b : Bytes) (n : Int) : Bytes :=
  if n < 0 then b ++ [0x2D] ++ decimal n.natAbs else b ++ decimal n.natAbs

/-- The method `encodeKv`. -/
def encodeKv (encode : Encode) (enc : Encoder) (b : Bytes) (ctx : encoderCtx)
    (options : valueOptions) (v : Val) : Except Err Bytes :=
  if !ctx.hasKey then
    .error (.panicked "caller of encodeKv should have set the key in the context")
  else if (ctx.options.omitempty || options.omitempty) && isEmptyValue v then .ok b
  else
    let b1 := if !ctx.inline then encodeComment enc ctx.indent options.comment b else b
    let b2 := enc.indent ctx.indent b1
    match encodeKey b2 ctx.key with
    | .error err => .error err
    | .ok b3 =>
      let b4 := b3 ++ [0x20, 0x3D, 0x20]
      let subctx := { ({ ctx with insideKv := true } : encoderCtx).shiftKey with
                      options := options }
      encode b4 subctx v

/-- The loop of `encodeTableHeader` over `ctx.parentKey[1:]`. -/
def encodeTableHeader.rest : List Bytes → Bytes → Except Err Bytes
  | [], b => .ok b
  | k :: ks, b =>
    match encodeKey (b ++ [0x2E]) k with
    | .error err => .error err
    | .ok b1 => encodeTableHeader.rest ks b1

/-- The method `encodeTableHeader`. -/
def encodeTableHeader (enc : Encoder) (ctx : encoderCtx) (b : Bytes) : Except Err Bytes :=
  match ctx.parentKey with
  | [] => .ok b
  | k0 :: ks =>
    let b1 := encodeComment enc ctx.indent ctx.options.comment b
    let b2 := enc.indent ctx.indent b1
    let b3 := b2 ++ [0x5B]
    match encodeKey b3 k0 with
    | .error err => .error err
    | .ok b4 =>
      match encodeTableHeader.rest ks b4 with
      | .error err => .error err
      | .ok b5 => .ok (b5 ++ [0x5D, 0x0A])

/-- The loop of `encodeTableInline` over the key-values. -/
def encodeTableInline.kvs (encode : Encode) (enc : Encoder) :
    List entry → Bool → Bytes → encoderCtx → Except Err Bytes
  | [], _, b, _ => .ok b
  | kv :: rest, first, b, ctx =>
    let b1 := if first then b else b ++ [0x2C, 0x20]
    let ctx1 := ctx.setKey kv.Key
    match encodeKv encode enc b1 ctx1 kv.Options kv.Value with
    | .error err => .error err
    | .ok b2 => encodeTableInline.kvs encode enc rest false b2 ctx1

/-- The method `encodeTableInline`. -/
def encodeTableInline (encode : Encode) (enc : Encoder) (b : Bytes) (ctx : encoderCtx)
    (t : table) : Except Err Bytes :=
  match encodeTableInline.kvs encode enc t.kvs true (b ++ [0x7B]) ctx with
  | .error err => .error err
  | .ok b1 =>
    if t.tables.length > 0 then
      .error (.panicked "inline table cannot contain nested tables, online key-values")
    else .ok (b1 ++ [0x7D])

/-- The first loop of `encodeTable`, over the key-values. -/
def encodeTable.kvs (encode : Encode) (enc : Encoder) :
    List entry → Bytes → encoderCtx → Except Err (Bytes × encoderCtx)
  | [], b, ctx => .ok (b, ctx)
  | kv :: rest, b, ctx =>
    let ctx1 := ctx.setKey kv.Key
    match encodeKv encode enc b ctx1 kv.Options kv.Value with
    | .error err => .error err
    | .ok b1 => encodeTable.kvs encode enc rest (b1 ++ [0x0A]) ctx1

/-- The second loop of `encodeTable`, over the sub-tables. -/
def encodeTable.tables (encode : Encode) :
    List entry → Bytes → encoderCtx → Except Err Bytes
  | [], b, _ => .ok b
  | tbl :: rest, b, ctx =>
    let ctx1 := { ctx.setKey tbl.Key with options := tbl.Options }
    match encode b ctx1 tbl.Value with
    | .error err => .error err
    | .ok b1 => encodeTable.tables encode rest (b1 ++ [0x0A]) ctx1

/-- The method `encodeTable`. -/
def encodeTable (encode : Encode) (enc : Encoder) (b : Bytes) (ctx : encoderCtx) (t : table) :
    Except Err Bytes :=
  let ctx1 := ctx.shiftKey
  if ctx1.insideKv || (ctx1.inline && !ctx1.isRoot) then
    encodeTableInline encode enc b ctx1 t
  else
    match (if !ctx1.skipTableHeader then
             match encodeTableHeader enc ctx1 b with
             | .error err => .error err
             | .ok b1 =>
               .ok (b1, if enc.indentTables && ctx1.parentKey.length > 0
                        then { ctx1 with indent := ctx1.indent + 1 } else ctx1)
           else (.ok (b, ctx1) : Except Err (Bytes × encoderCtx))) with
    | .error err => .error err
    | .ok (b2, ctx2) =>
      match encodeTable.kvs encode enc t.kvs b2 { ctx2 with skipTableHeader := false } with
      | .error err => .error err
      | .ok (b3, ctx3) => encodeTable.tables encode t.tables b3 ctx3

/-- The loop of `encodeMap`: nil values are skipped, the others are sorted
into sub-tables and key-values. -/
def encodeMap.collect (ctx : encoderCtx) : List (Bytes × Val) → table → table
  | [], t => t
  | (k, v) :: rest, t =>
    if isNil v then encodeMap.collect ctx rest t
    else if willConvertToTableOrArrayTable ctx v then
      encodeMap.collect ctx rest (t.pushTable k v valueOptions.zero)
    else encodeMap.collect ctx rest (t.pushKV k v valueOptions.zero)

/-- The method `encodeMap`, for a map with the given entries. -/
def encodeMap (encode : Encode) (enc : Encoder) (b : Bytes) (ctx : encoderCtx)
    (stringKey : Bool) (entries : List (Bytes × Val)) : Except Err Bytes :=
  if !stringKey then .error .mapKeyNotSupported
  else
    let t := encodeMap.collect ctx entries ⟨[], []⟩
    encodeTable encode enc b ctx ⟨sortEntriesByKey t.kvs, sortEntriesByKey t.tables⟩

/-- The loop of `encodeStruct` over the fields. -/
def encodeStruct.collect (ctx : encoderCtx) : List (StructField × Val) → table → table
  | [], t => t
  | (field, f) :: rest, t =>
    if isNil f then encodeStruct.collect ctx rest t
    else if field.inline || !willConvertToTableOrArrayTable ctx f then
      encodeStruct.collect ctx rest (t.pushKV field.Key f field.options)
    else encodeStruct.collect ctx rest (t.pushTable field.Key f field.options)

/-- The method `encodeStruct`, for a struct with the given fields. -/
def encodeStruct (encode : Encode) (enc : Encoder) (b : Bytes) (ctx : encoderCtx)
    (fields : List (StructField × Val)) : Except Err Bytes :=
  encodeTable encode enc b ctx (encodeStruct.collect ctx fields ⟨[], []⟩)

/-- The loop of `encodeSliceAsArrayTable` that builds the header. -/
def encodeSliceAsArrayTable.header : List Bytes → Bool → Bytes → Except Err Bytes
  | [], _, scratch => .ok scratch
  | k :: ks, first, scratch =>
    match encodeKey (if first then scratch else scratch ++ [0x2E]) k with
    | .error err => .error err
    | .ok scratch1 => encodeSliceAsArrayTable.header ks false scratch1

/-- The loop of `encodeSliceAsArrayTable` over the elements. -/
def encodeSliceAsArrayTable.items (encode : Encode) (scratch : Bytes) (ctx : encoderCtx) :
    List Val → Bytes → Except Err Bytes
  | [], b => .ok b
  | item :: rest, b =>
    match encode (b ++ scratch) ctx item with
    | .error err => .error err
    | .ok b1 => encodeSliceAsArrayTable.items encode scratch ctx rest b1

/-- The method `encodeSliceAsArrayTable`. -/
def encodeSliceAsArrayTable (encode : Encode) (b : Bytes) (ctx : encoderCtx)
    (items : List Val) : Except Err Bytes :=
  let ctx1 := ctx.shiftKey
  match encodeSliceAsArrayTable.header ctx1.parentKey true [0x5B, 0x5B] with
  | .error err => .error err
  | .ok scratch =>
    encodeSliceAsArrayTable.items encode (scratch ++ [0x5D, 0x5D, 0x0A])
      { ctx1 with skipTableHeader := true } items b

/-- The loop of `encodeSliceAsArray` over the elements. -/
def encodeSliceAsArray.items (encode : Encode) (enc : Encoder) (multiline : Bool)
    (separator : Bytes) (subCtx : encoderCtx) : List Val → Bool → Bytes → Except Err Bytes
  | [], _, b => .ok b
  | item :: rest, first, b =>
    let b1 := if first then b else b ++ separator
    let b2 := if multiline then enc.indent subCtx.indent b1 else b1
    match encode b2 subCtx item with
    | .error err => .error err
    | .ok b3 => encodeSliceAsArray.items encode enc multiline separator subCtx rest false b3

/-- The method `encodeSliceAsArray`. -/
def encodeSliceAsArray (encode : Encode) (enc : Encoder) (b : Bytes) (ctx : encoderCtx)
    (items : List Val) : Except Err Bytes :=
  let multiline := ctx.options.multiline || enc.arraysMultiline
  let separator : Bytes := if multiline then [0x2C, 0x0A] else [0x2C, 0x20]
  let b1 := b ++ [0x5B]
  let subCtx0 := { ctx with options := valueOptions.zero }
  let b2 := if multiline then b1 ++ [0x0A] else b1
  let subCtx := if multiline then { subCtx0 with indent := subCtx0.indent + 1 } else subCtx0
  match encodeSliceAsArray.items encode enc multiline separator subCtx items true b2 with
  | .error err => .error err
  | .ok b3 =>
    let b4 := if multiline then enc.indent ctx.indent (b3 ++ [0x0A]) else b3
    .ok (b4 ++ [0x5D])

/-- The method `encodeSlice`. -/
def encodeSlice (encode : Encode) (enc : Encoder) (b : Bytes) (ctx : encoderCtx)
    (items : List Val) : Except Err Bytes :=
  if items.length = 0 then .ok (b ++ [0x5B, 0x5D])
  else if willConvertToTableOrArrayTable ctx (.slice items) then
    encodeSliceAsArrayTable encode b ctx items
  else encodeSliceAsArray encode enc b ctx items

/-- The branch of `encode` for a value handed to `encoding.TextMarshaler`:
an error at the root, otherwise the text of `MarshalText` as a string. -/
def encodeText (b : Bytes) (ctx : encoderCtx) (text : Except Err Bytes) : Except Err Bytes :=
  if ctx.isRoot then .error .textMarshalerAtRoot
  else
    match text with
    | .error err => .error err
    | .ok t => .ok (encodeString b t ctx.options)

/-- The method `encode`.  The first argument bounds the depth of the
recursion. -/
def encode : Nat → Encoder → Bytes → encoderCtx → Val → Except Err Bytes
  | 0, _, _, _, _ => .error .outOfFuel
  | fuel + 1, enc, b, ctx, v =>
    match v with
    | .time isZero rfc3339 text =>
      if !isZero then .ok (b ++ rfc3339) else encodeText b ctx text
    | .marshaler _ text => encodeText b ctx text
    | .map stringKey entries => encodeMap (encode fuel enc) enc b ctx stringKey entries
    | .nilMap stringKey => encodeMap (encode fuel enc) enc b ctx stringKey []
    | .struct fields => encodeStruct (encode fuel enc) enc b ctx fields
    | .slice items => encodeSlice (encode fuel enc) enc b ctx items
    | .nilInterface => .error .nilInterfaceNotSupported
    | .interface elem => encode fuel enc b ctx elem
    | .nilPtr elem => encode fuel enc b ctx elem.zero
    | .ptr elem => encode fuel enc b ctx elem
    | .string s => .ok (encodeString b s ctx.options)
    | .bool x => if x then .ok (b ++ ascii "true") else .ok (b ++ ascii "false")
    | .uint n => .ok (b ++ decimal n)
    | .int n => .ok (appendInt b n)

/-- What a call of `Encode` did: the error it returned, if any, and the bytes
it handed to the output stream, if it got that far. -/
structure Outcome where
  err : Option Err
  written : Option Bytes
deriving DecidableEq, Repr

/-- The method `Encode`.  The argument is `none` for a nil interface and the
value the interface holds otherwise; `writeFails` tells whether the write to
the output stream fails. -/
def Encoder.Encode (enc : Encoder) (fuel : Nat) (writeFails : Bool) (v : Option Val) :
    Outcome :=
  let ctx := { encoderCtx.zero with inline := enc.tablesInline }
  match v with
  | none => ⟨some .cannotEncodeNilInterface, none⟩
  | some value =>
    match encode fuel enc [] ctx value with
    | .error err => ⟨some err, none⟩
    | .ok b => if writeFails then ⟨some .cannotWrite, some b⟩ else ⟨none, some b⟩

end Toml

namespace Toml

/-! ## Sample values -/

/-- A struct field with the key `k` and no option, as the tag `toml:"k"` gives. -/
def plainField (k : String) : StructField :=
  { Key := ascii k, inline := false, options := valueOptions.zero }

/-- A struct field with the key `k` and the option `omitempty`, as the tag
`toml:"k,omitempty"` gives. -/
def omitemptyField (k : String) : StructField :=
  { Key := ascii k, inline := false,
    options := { multiline := false, omitempty := true, comment := [] } }

/-- The value `struct{A int; B string}{A: 1}` with the tags `toml:"a"` and
`toml:"b,omitempty"`: the entry `b` is marked `omitempty` and is empty. -/
def emptyEntryStruct : Val :=
  .struct [(plainField "a", .int 1), (omitemptyField "b", .string [])]

/-- The value `struct{A int}{A: 1}` with the tag `toml:"a"`: the table of
`emptyEntryStruct` with the entry `b` removed. -/
def removedEntryStruct : Val :=
  .struct [(plainField "a", .int 1)]

/-- The value `struct{B string; A int}{A: 1}` with the tags
`toml:"b,omitempty"` and `toml:"a"`: the empty entry comes first. -/
def emptyFirstStruct : Val :=
  .struct [(omitemptyField "b", .string []), (plainField "a", .int 1)]

/-- An encoder after `SetTablesInline(true)`. -/
def inlineEncoder : Encoder :=
  { NewEncoder with tablesInline := true }

end Toml

namespace Lpms

/-! ## Decimal values -/

/-- The decimal value of a string of decimal digits: the number it writes in
base 10, most significant digit first. -/
def decimalValue (s : String) : Nat :=
  s.toList.foldl (fun n c => n * 10 + (c.toNat - '0'.toNat)) 0

end Lpms

namespace Toml

/-! ## Reading escapes back -/

/-- The value of an upper-case hexadecimal digit, `0`-`9` or `A`-`F`. -/
def hexValue (c : Nat) : Option Nat :=
  if 0x30 ≤ c ∧ c ≤ 0x39 then some (c - 0x30)
  else if 0x41 ≤ c ∧ c ≤ 0x46 then some (c - 0x41 + 10)
  else none

/-- The decoding of the body of a quoted string, escape by escape: a
backslash opens one of the escapes `\\`, `\"`, `\b`, `\f`, `\n`, `\r`, `\t`
and `\u00XX` with two upper-case hexadecimal digits, and stands for the byte
the escape names; a byte outside an escape stands for itself.  The decoding
fails on a backslash that opens none of these escapes, on a double quote
outside an escape, and on a raw byte in 0x00-0x1F or equal to 0x7F. -/
def unescape : Bytes → Option Bytes
  | [] => some []
  | c :: rest =>
    if c = 0x5C then
      match rest with
      | [] => none
      | e :: rest1 =>
        if e = 0x5C then (unescape rest1).map (fun out => 0x5C :: out)
        else if e = 0x22 then (unescape rest1).map (fun out => 0x22 :: out)
        else if e = 0x62 then (unescape rest1).map (fun out => 0x08 :: out)
        else if e = 0x66 then (unescape rest1).map (fun out => 0x0C :: out)
        else if e = 0x6E then (unescape rest1).map (fun out => 0x0A :: out)
        else if e = 0x72 then (unescape rest1).map (fun out => 0x0D :: out)
        else if e = 0x74 then (unescape rest1).map (fun out => 0x09 :: out)
        else if e = 0x75 then
          match rest1 with
          | z1 :: z2 :: hi :: lo :: rest2 =>
            if z1 = 0x30 ∧ z2 = 0x30 then
              match hexValue hi, hexValue lo with
              | some x, some y => (unescape rest2).map (fun out => (x * 16 + y) :: out)
              | _, _ => none
            else none
          | _ => none
        else none
    else if c = 0x22 ∨ c ≤ 0x1F ∨ c = 0x7F then none
    else (unescape rest).map (fun out => c :: out)

end Toml

namespace Lpms

/-! ## An object store that reports absent objects -/

/-- The world `goneWorld`, in which the objects `P` and `A` of record 1 are
already absent, with an object store that reports the absence: the lookup
succeeds and the first object deletion returns the store's error. -/
def reportingWorld : World :=
  { goneWorld with faults := [none, some (.Collaborator "object already absent")] }

end Lpms

/-! # Theorems -/

namespace Lpms

/-! ## Collaborator calls, case by case -/

@[simp] theorem World.record_rows (w : World) (c : Call) (e : Option Exception) :
    (w.record c e).rows = w.rows := rfl

@[simp] theorem World.record_objects (w : World) (c : Call) (e : Option Exception) :
    (w.record c e).objects = w.objects := rfl

@[simp] theorem World.record_log (w : World) (c : Call) (e : Option Exception) :
    (w.record c e).log = w.log ++ [⟨c, e⟩] := rfl

@[simp] theorem World.record_faults (w : World) (c : Call) (e : Option Exception) :
    (w.record c e).faults = w.faults.tail := rfl

@[simp] theorem World.withRows_rows (w : World) (rows : List Reserve) :
    (w.withRows rows).rows = rows := rfl

@[simp] theorem World.withRows_objects (w : World) (rows : List Reserve) :
    (w.withRows rows).objects = w.objects := rfl

@[simp] theorem World.withRows_log (w : World) (rows : List Reserve) :
    (w.withRows rows).log = w.log := rfl

@[simp] theorem World.withRows_faults (w : World) (rows : List Reserve) :
    (w.withRows rows).faults = w.faults := rfl

@[simp] theorem World.withObjects_rows (w : World) (objects : List String) :
    (w.withObjects objects).rows = w.rows := rfl

@[simp] theorem World.withObjects_objects (w : World) (objects : List String) :
    (w.withObjects objects).objects = objects := rfl

@[simp] theorem World.withObjects_log (w : World) (objects : List String) :
    (w.withObjects objects).log = w.log := rfl

@[simp] theorem World.withObjects_faults (w : World) (objects : List String) :
    (w.withObjects objects).faults = w.faults := rfl

theorem World.since_of_log (w w' : World) (evs : List Event) (h : w'.log = w.log ++ evs) :
    w.since w' = evs := by
  simp [World.since, h]

theorem World.injected_mem (w : World) (ex : Exception) (h : w.injected = some ex) :
    some ex ∈ w.faults := by
  unfold World.injected at h
  cases hf : w.faults with
  | nil => simp [hf] at h
  | cons f fs =>
    simp [hf] at h
    simp [h]

theorem repoGet_cases (w : World) (id : Int) :
    (∃ ex, repoGet w id = (.error ex, w.record (.repoGet id) (some ex)) ∧
        (w.injected = some ex ∨
          (w.injected = none ∧ w.rows.find? (fun r => r.ID = id) = none ∧
            ex = .RecordNotFound id))) ∨
    (∃ pro, repoGet w id = (.ok pro, w.record (.repoGet id) none) ∧
        w.injected = none ∧ w.rows.find? (fun r => r.ID = id) = some pro) := by
  unfold repoGet
  cases hi : w.injected with
  | some ex => exact Or.inl ⟨ex, rfl, Or.inl rfl⟩
  | none =>
    cases hf : w.rows.find? (fun r => r.ID = id) with
    | none => exact Or.inl ⟨_, rfl, Or.inr ⟨rfl, rfl, rfl⟩⟩
    | some pro => exact Or.inr ⟨pro, rfl, rfl, rfl⟩

theorem objRepoDelete_cases (w : World) (ref : String) :
    (∃ ex, objRepoDelete w ref = (some ex, w.record (.objDelete ref) (some ex)) ∧
        w.injected = some ex) ∨
    (objRepoDelete w ref =
        (none, (w.record (.objDelete ref) none).withObjects
                 (w.objects.filter (fun o => o ≠ ref))) ∧
        w.injected = none) := by
  unfold objRepoDelete
  cases hi : w.injected with
  | some ex => exact Or.inl ⟨ex, rfl, rfl⟩
  | none => exact Or.inr ⟨rfl, rfl⟩

theorem repoUpdate_cases (w : World) (id : Int) (fields : FieldMap) :
    (∃ ex, repoUpdate w id fields = (some ex, w.record (.repoUpdate id fields) (some ex)) ∧
        w.injected = some ex) ∨
    (repoUpdate w id fields =
        (none, (w.record (.repoUpdate id fields) none).withRows
                 (w.rows.map (fun r => if r.ID = id then r.applyFields fields else r))) ∧
        w.injected = none) := by
  unfold repoUpdate
  cases hi : w.injected with
  | some ex => exact Or.inl ⟨ex, rfl, rfl⟩
  | none => exact Or.inr ⟨rfl, rfl⟩

theorem repoDelete_cases (w : World) (id : Int) :
    (∃ ex, repoDelete w id = (some ex, w.record (.repoDelete id) (some ex)) ∧
        w.injected = some ex) ∨
    (repoDelete w id =
        (none, (w.record (.repoDelete id) none).withRows
                 (w.rows.filter (fun r => r.ID ≠ id))) ∧
        w.injected = none) := by
  unfold repoDelete
  cases hi : w.injected with
  | some ex => exact Or.inl ⟨ex, rfl, rfl⟩
  | none => exact Or.inr ⟨rfl, rfl⟩

theorem repoMultiDelete_cases (w : World) (ids : List Int) :
    (∃ ex, repoMultiDelete w ids = (some ex, w.record (.repoMultiDelete ids) (some ex)) ∧
        w.injected = some ex) ∨
    (repoMultiDelete w ids =
        (none, (w.record (.repoMultiDelete ids) none).withRows
                 (w.rows.filter (fun r => r.ID ∉ ids))) ∧
        w.injected = none) := by
  unfold repoMultiDelete
  cases hi : w.injected with
  | some ex => exact Or.inl ⟨ex, rfl, rfl⟩
  | none => exact Or.inr ⟨rfl, rfl⟩

/-- What a run of object deletions leaves behind: either all of them succeeded,
or the run stopped at the first one that failed. -/
theorem releaseRefs_spec (w : World) (refs : List String) :
    (∃ w', releaseRefs w refs = (none, w') ∧ w'.rows = w.rows ∧
        w'.objects = w.objects.filter (fun o => o ∉ refs) ∧
        w'.log = w.log ++ refs.map deleted) ∨
    (∃ ex w' done ref rest, releaseRefs w refs = (some ex, w') ∧
        refs = done ++ ref :: rest ∧ w'.rows = w.rows ∧
        w'.objects = w.objects.filter (fun o => o ∉ done) ∧
        w'.log = w.log ++ (done.map deleted ++ [⟨.objDelete ref, some ex⟩])) := by
  induction refs generalizing w with
  | nil => exact Or.inl ⟨w, rfl, rfl, by simp, by simp⟩
  | cons ref rest ih =>
    rcases objRepoDelete_cases w ref with ⟨ex, h, -⟩ | ⟨h, -⟩
    · refine Or.inr ⟨ex, w.record (.objDelete ref) (some ex), [], ref, rest,
        by simp only [releaseRefs, h], rfl, rfl, by simp, by simp⟩
    · rcases ih ((w.record (.objDelete ref) none).withObjects
          (w.objects.filter (fun o => o ≠ ref))) with
        ⟨w', hr, hrows, hobj, hlog⟩ |
        ⟨ex, w', done, r, rest', hr, hsplit, hrows, hobj, hlog⟩
      · refine Or.inl ⟨w', by simp only [releaseRefs, h, hr], by simpa using hrows, ?_, ?_⟩
        · rw [hobj]
          simp only [World.withObjects_objects, List.filter_filter]
          apply List.filter_congr
          intro x _
          simp [Bool.and_comm]
        · rw [hlog]; simp [deleted]
      · refine Or.inr ⟨ex, w', ref :: done, r, rest', by simp only [releaseRefs, h, hr],
          by simp [hsplit], by simpa using hrows, ?_, ?_⟩
        · rw [hobj]
          simp only [World.withObjects_objects, List.filter_filter]
          apply List.filter_congr
          intro x _
          simp [Bool.and_comm]
        · rw [hlog]; simp [deleted]

/-! ## The service methods as lookup, release, persist -/

theorem Update_eq (w : World) (openID : String) (id : Int) (param : ReserveUpdateReq) :
    Update w openID id param =
      match repoGet w id with
      | (.error ex, w1) => (some ex, w1)
      | (.ok pro, w1) =>
        match releaseRefs w1 (Update.released pro param) with
        | (some ex, w2) => (some ex, w2)
        | (none, w2) => repoUpdate w2 id (param.ToMap openID) := by
  unfold Update Update.released
  rcases repoGet_cases w id with ⟨ex, hg, -⟩ | ⟨pro, hg, -, -⟩ <;> rw [hg]
  simp only []
  by_cases c1 : pro.UploadCadID ≠ "" ∧ pro.UploadCadID ≠ param.UploadCadID <;>
    by_cases c2 : pro.SitePhoto ≠ "" ∧ pro.SitePhoto ≠ param.SitePhoto
  · simp only [if_pos c1, if_pos c2, List.singleton_append, releaseRefs]
    rcases objRepoDelete_cases (w.record (.repoGet id) none) pro.UploadCadID with
      ⟨ex, h, -⟩ | ⟨h, -⟩ <;> rw [h]
    simp only []
    cases objRepoDelete _ pro.SitePhoto with
    | mk r w3 => cases r <;> rfl
  · simp only [if_pos c1, if_neg c2, List.append_nil, releaseRefs]
    cases objRepoDelete _ pro.UploadCadID with
    | mk r w3 => cases r <;> rfl
  · simp only [if_neg c1, if_pos c2, List.nil_append, releaseRefs]
    cases objRepoDelete _ pro.SitePhoto with
    | mk r w3 => cases r <;> rfl
  · simp only [if_neg c1, if_neg c2, List.append_nil, releaseRefs]

theorem releaseRecord_eq (w : World) (id : Int) :
    releaseRecord w id =
      match repoGet w id with
      | (.error ex, w1) => (some ex, w1)
      | (.ok pro, w1) =>
        match (if pro.SitePhoto ≠ "" then objRepoDelete w1 pro.SitePhoto else (none, w1)) with
        | (some exx, w2) => (some exx, w2)
        | (none, w2) =>
          if pro.UploadCadID ≠ "" then objRepoDelete w2 pro.UploadCadID else (none, w2) := by
  unfold releaseRecord Reserve.artifacts
  rcases repoGet_cases w id with ⟨ex, hg, -⟩ | ⟨pro, hg, -, -⟩ <;> rw [hg]
  simp only []
  by_cases c1 : pro.SitePhoto ≠ "" <;> by_cases c2 : pro.UploadCadID ≠ ""
  · simp only [if_pos c1, if_pos c2, List.singleton_append, releaseRefs]
    rcases objRepoDelete_cases (w.record (.repoGet id) none) pro.SitePhoto with
      ⟨ex, h, -⟩ | ⟨h, -⟩ <;> rw [h]
    simp only []
    cases objRepoDelete _ pro.UploadCadID with
    | mk r w3 => cases r <;> rfl
  · simp only [if_pos c1, if_neg c2, List.append_nil, releaseRefs]
  · simp only [if_neg c1, if_pos c2, List.nil_append, releaseRefs]
    cases objRepoDelete _ pro.UploadCadID with
    | mk r w3 => cases r <;> rfl
  · simp only [if_neg c1, if_neg c2, List.append_nil, releaseRefs]

theorem Delete_eq (w : World) (id : Int) :
    Delete w id =
      match releaseRecord w id with
      | (some ex, w1) => (some ex, w1)
      | (none, w1) => repoDelete w1 id := by
  rw [releaseRecord_eq]
  unfold Delete
  cases repoGet w id with
  | mk g w1 =>
    cases g with
    | error ex => rfl
    | ok pro =>
      simp only []
      cases (if pro.SitePhoto ≠ "" then objRepoDelete w1 pro.SitePhoto else (none, w1)) with
      | mk r w2 =>
        cases r with
        | some ex => rfl
        | none => rfl

theorem MultiDelete.release_cons (w : World) (id : Int) (rest : List Int) :
    MultiDelete.release w (id :: rest) =
      match releaseRecord w id with
      | (some ex, w1) => (some ex, w1)
      | (none, w1) => MultiDelete.release w1 rest := by
  rw [releaseRecord_eq, MultiDelete.release]
  cases repoGet w id with
  | mk g w1 =>
    cases g with
    | error ex => rfl
    | ok pro =>
      simp only []
      cases (if pro.SitePhoto ≠ "" then objRepoDelete w1 pro.SitePhoto else (none, w1)) with
      | mk r w2 =>
        cases r with
        | some ex => rfl
        | none => rfl

end Lpms

namespace Lpms

/-- The outcomes of looking a record up and releasing its artifacts. -/
theorem releaseRecord_spec (w : World) (id : Int) :
    (∃ ex, releaseRecord w id = (some ex, w.record (.repoGet id) (some ex)) ∧
        (w.injected = some ex ∨
          (w.injected = none ∧ w.rows.find? (fun r => r.ID = id) = none ∧
            ex = .RecordNotFound id))) ∨
    (∃ pro, w.rows.find? (fun r => r.ID = id) = some pro ∧ w.injected = none ∧
      ((∃ ex w' done ref rest, releaseRecord w id = (some ex, w') ∧
          pro.artifacts = done ++ ref :: rest ∧ w'.rows = w.rows ∧
          w'.objects = w.objects.filter (fun o => o ∉ done) ∧
          w'.log = w.log ++
            (⟨.repoGet id, none⟩ :: (done.map deleted ++ [⟨.objDelete ref, some ex⟩]))) ∨
       (∃ w', releaseRecord w id = (none, w') ∧ w'.rows = w.rows ∧
          w'.objects = w.objects.filter (fun o => o ∉ pro.artifacts) ∧
          w'.log = w.log ++ (⟨.repoGet id, none⟩ :: pro.artifacts.map deleted)))) := by
  unfold releaseRecord
  rcases repoGet_cases w id with ⟨ex, hg, hwhy⟩ | ⟨pro, hg, hi, hf⟩ <;> rw [hg]
  · exact Or.inl ⟨ex, rfl, hwhy⟩
  · refine Or.inr ⟨pro, hf, hi, ?_⟩
    rcases releaseRefs_spec (w.record (.repoGet id) none) pro.artifacts with
      ⟨w', hr, hrows, hobj, hlog⟩ | ⟨ex, w', done, ref, rest, hr, hsplit, hrows, hobj, hlog⟩
    · exact Or.inr ⟨w', hr, by simpa using hrows, by simpa using hobj, by simpa using hlog⟩
    · exact Or.inl ⟨ex, w', done, ref, rest, hr, hsplit, by simpa using hrows,
        by simpa using hobj, by simpa using hlog⟩

/-- The outcomes of `Update`: the lookup fails, a deletion fails, the
persistence call fails, or everything succeeds. -/
theorem Update_spec (w : World) (openID : String) (id : Int) (param : ReserveUpdateReq) :
    (∃ ex, Update w openID id param = (some ex, w.record (.repoGet id) (some ex)) ∧
        (w.injected = some ex ∨
          (w.injected = none ∧ w.rows.find? (fun r => r.ID = id) = none ∧
            ex = .RecordNotFound id))) ∨
    (∃ pro, w.rows.find? (fun r => r.ID = id) = some pro ∧ w.injected = none ∧
      ((∃ ex w' done ref rest, Update w openID id param = (some ex, w') ∧
          Update.released pro param = done ++ ref :: rest ∧ w'.rows = w.rows ∧
          w'.objects = w.objects.filter (fun o => o ∉ done) ∧
          w'.log = w.log ++
            (⟨.repoGet id, none⟩ :: (done.map deleted ++ [⟨.objDelete ref, some ex⟩]))) ∨
       (∃ ex w', Update w openID id param = (some ex, w') ∧ w'.rows = w.rows ∧
          w'.objects = w.objects.filter (fun o => o ∉ Update.released pro param) ∧
          w'.log = w.log ++
            (⟨.repoGet id, none⟩ :: ((Update.released pro param).map deleted ++
              [⟨.repoUpdate id (param.ToMap openID), some ex⟩]))) ∨
       (∃ w', Update w openID id param = (none, w') ∧
          w'.rows = w.rows.map
            (fun r => if r.ID = id then r.applyFields (param.ToMap openID) else r) ∧
          w'.objects = w.objects.filter (fun o => o ∉ Update.released pro param) ∧
          w'.log = w.log ++
            (⟨.repoGet id, none⟩ :: ((Update.released pro param).map deleted ++
              [⟨.repoUpdate id (param.ToMap openID), none⟩]))))) := by
  rw [Update_eq]
  rcases repoGet_cases w id with ⟨ex, hg, hwhy⟩ | ⟨pro, hg, hi, hf⟩ <;> rw [hg]
  · exact Or.inl ⟨ex, rfl, hwhy⟩
  · refine Or.inr ⟨pro, hf, hi, ?_⟩
    rcases releaseRefs_spec (w.record (.repoGet id) none) (Update.released pro param) with
      ⟨w2, hr, hrows, hobj, hlog⟩ | ⟨ex, w2, done, ref, rest, hr, hsplit, hrows, hobj, hlog⟩
    · simp only [hr]
      rcases repoUpdate_cases w2 id (param.ToMap openID) with ⟨ex, hu, -⟩ | ⟨hu, -⟩ <;> rw [hu]
      · exact Or.inr (Or.inl ⟨ex, _, rfl, by simpa using hrows, by simpa using hobj,
          by simp [hlog]⟩)
      · exact Or.inr (Or.inr ⟨_, rfl, by simp [hrows], by simpa using hobj, by simp [hlog]⟩)
    · simp only [hr]
      exact Or.inl ⟨ex, w2, done, ref, rest, rfl, hsplit, by simpa using hrows,
        by simpa using hobj, by simpa using hlog⟩

/-- The outcomes of `Delete`. -/
theorem Delete_spec (w : World) (id : Int) :
    (∃ ex, Delete w id = (some ex, w.record (.repoGet id) (some ex)) ∧
        (w.injected = some ex ∨
          (w.injected = none ∧ w.rows.find? (fun r => r.ID = id) = none ∧
            ex = .RecordNotFound id))) ∨
    (∃ pro, w.rows.find? (fun r => r.ID = id) = some pro ∧ w.injected = none ∧
      ((∃ ex w' done ref rest, Delete w id = (some ex, w') ∧
          pro.artifacts = done ++ ref :: rest ∧ w'.rows = w.rows ∧
          w'.objects = w.objects.filter (fun o => o ∉ done) ∧
          w'.log = w.log ++
            (⟨.repoGet id, none⟩ :: (done.map deleted ++ [⟨.objDelete ref, some ex⟩]))) ∨
       (∃ ex w', Delete w id = (some ex, w') ∧ w'.rows = w.rows ∧
          w'.objects = w.objects.filter (fun o => o ∉ pro.artifacts) ∧
          w'.log = w.log ++
            (⟨.repoGet id, none⟩ :: (pro.artifacts.map deleted ++
              [⟨.repoDelete id, some ex⟩]))) ∨
       (∃ w', Delete w id = (none, w') ∧
          w'.rows = w.rows.filter (fun r => r.ID ≠ id) ∧
          w'.objects = w.objects.filter (fun o => o ∉ pro.artifacts) ∧
          w'.log = w.log ++
            (⟨.repoGet id, none⟩ :: (pro.artifacts.map deleted ++
              [⟨.repoDelete id, none⟩]))))) := by
  rw [Delete_eq]
  rcases releaseRecord_spec w id with ⟨ex, hg, hwhy⟩ | ⟨pro, hf, hi, hrel⟩
  · rw [hg]; exact Or.inl ⟨ex, rfl, hwhy⟩
  · refine Or.inr ⟨pro, hf, hi, ?_⟩
    rcases hrel with ⟨ex, w2, done, ref, rest, hr, hsplit, hrows, hobj, hlog⟩ |
      ⟨w2, hr, hrows, hobj, hlog⟩
    · simp only [hr]
      exact Or.inl ⟨ex, w2, done, ref, rest, rfl, hsplit, hrows, hobj, hlog⟩
    · simp only [hr]
      rcases repoDelete_cases w2 id with ⟨ex, hu, -⟩ | ⟨hu, -⟩ <;> rw [hu]
      · exact Or.inr (Or.inl ⟨ex, _, rfl, by simpa using hrows, by simpa using hobj,
          by simp [hlog]⟩)
      · exact Or.inr (Or.inr ⟨_, rfl, by simp [hrows], by simpa using hobj, by simp [hlog]⟩)

end Lpms

namespace Lpms

/-! ## Update and Delete -/

theorem applyFields_ToMap (r : Reserve) (param : ReserveUpdateReq) (openID : String) :
    r.applyFields (param.ToMap openID) =
      { r with Name := param.Name, Level := param.Level, ProjectType := param.ProjectType,
               ConstructSubject := param.ConstructSubject, SitePhoto := param.SitePhoto,
               UploadCadID := param.UploadCadID, UpdateBy := openID } := by
  simp [Reserve.applyFields, ReserveUpdateReq.ToMap, Reserve.setColumn]

/-- C3: when no collaborator call fails, `Update` looks the stored record up,
issues an object-store Delete with the old reference for exactly the slots
(CAD upload, then site photo) whose old reference is non-empty and differs
from the requested value, issues none for the other slots, and then persists
the requested fields for that id. -/
theorem Update_releases_exactly_changed_slots (w : World) (openID : String) (id : Int)
    (param : ReserveUpdateReq) (pro : Reserve)
    (hpro : w.rows.find? (fun r => r.ID = id) = some pro)
    (hok : ∀ ev ∈ w.since (Update w openID id param).2, ev.err = none) :
    w.since (Update w openID id param).2 =
        [⟨.repoGet id, none⟩]
        ++ (if pro.UploadCadID ≠ "" ∧ pro.UploadCadID ≠ param.UploadCadID
            then [⟨.objDelete pro.UploadCadID, none⟩] else [])
        ++ (if pro.SitePhoto ≠ "" ∧ pro.SitePhoto ≠ param.SitePhoto
            then [⟨.objDelete pro.SitePhoto, none⟩] else [])
        ++ [⟨.repoUpdate id (param.ToMap openID), none⟩]
      ∧ (Update w openID id param).1 = none
      ∧ (Update w openID id param).2.rows =
          w.rows.map (fun r => if r.ID = id then r.applyFields (param.ToMap openID) else r)
      ∧ (pro.applyFields (param.ToMap openID)).UploadCadID = param.UploadCadID
      ∧ (pro.applyFields (param.ToMap openID)).SitePhoto = param.SitePhoto := by
  have key : ∃ w', Update w openID id param = (none, w') ∧
      w'.rows = w.rows.map
        (fun r => if r.ID = id then r.applyFields (param.ToMap openID) else r) ∧
      w'.log = w.log ++ (⟨.repoGet id, none⟩ :: ((Update.released pro param).map deleted ++
        [⟨.repoUpdate id (param.ToMap openID), none⟩])) := by
    rcases Update_spec w openID id param with ⟨ex, hu, -⟩ | ⟨pro', hf, -, hcase⟩
    · rw [hu] at hok
      have h := hok ⟨.repoGet id, some ex⟩ (by simp [World.since])
      simp at h
    · obtain rfl : pro' = pro := by rw [hpro] at hf; exact (Option.some.inj hf).symm
      rcases hcase with ⟨ex, w', done, ref, rest, hu, -, -, -, hlog⟩ |
        ⟨ex, w', hu, -, -, hlog⟩ | ⟨w', hu, hrows, -, hlog⟩
      · rw [hu] at hok
        have h := hok ⟨.objDelete ref, some ex⟩ (by simp [World.since_of_log w w' _ hlog])
        simp at h
      · rw [hu] at hok
        have h := hok ⟨.repoUpdate id (param.ToMap openID), some ex⟩
          (by simp [World.since_of_log w w' _ hlog])
        simp at h
      · exact ⟨w', hu, hrows, hlog⟩
  obtain ⟨w', hu, hrows, hlog⟩ := key
  rw [hu]
  refine ⟨?_, rfl, hrows, by simp [applyFields_ToMap], by simp [applyFields_ToMap]⟩
  simp only [World.since_of_log w w' _ hlog, Update.released, deleted]
  split_ifs <;> simp [deleted]

theorem Update_releases_exactly_changed_slots_witness :
    (∀ ev ∈ sampleWorld.since (Update sampleWorld "me" 1 sampleReq).2, ev.err = none) ∧
    sampleWorld.since (Update sampleWorld "me" 1 sampleReq).2 =
      [⟨.repoGet 1, none⟩, ⟨.objDelete "A", none⟩, ⟨.objDelete "P", none⟩,
       ⟨.repoUpdate 1 (sampleReq.ToMap "me"), none⟩] :=
  ⟨by decide,
   (Update_releases_exactly_changed_slots sampleWorld "me" 1 sampleReq sampleRecord
      (by decide) (by decide)).1⟩

/-- C2: if an object-store deletion issued by `Update` fails, `Update`
returns that failure, the persistence Update is never invoked, and the table
(so the stored record, with its UploadCadID and SitePhoto) is exactly what it
was before the call. -/
theorem Update_failed_release_keeps_record (w : World) (openID : String) (id : Int)
    (param : ReserveUpdateReq) (ref : String) (ex : Exception)
    (hfail : ⟨.objDelete ref, some ex⟩ ∈ w.since (Update w openID id param).2) :
    (Update w openID id param).1 = some ex
      ∧ (∀ ev ∈ w.since (Update w openID id param).2,
          ∀ i fields, ev.call ≠ .repoUpdate i fields)
      ∧ (Update w openID id param).2.rows = w.rows
      ∧ (∀ pro, w.rows.find? (fun r => r.ID = id) = some pro →
          (Update w openID id param).2.rows.find? (fun r => r.ID = id) = some pro) := by
  have key : (Update w openID id param).1 = some ex
      ∧ (∀ ev ∈ w.since (Update w openID id param).2,
          ∀ i fields, ev.call ≠ .repoUpdate i fields)
      ∧ (Update w openID id param).2.rows = w.rows := by
    rcases Update_spec w openID id param with ⟨ex', hu, -⟩ | ⟨pro, -, -, hcase⟩
    · rw [hu] at hfail
      simp [World.since] at hfail
    · rcases hcase with ⟨ex', w', done, r, rest, hu, -, hrows, -, hlog⟩ |
        ⟨ex', w', hu, -, -, hlog⟩ | ⟨w', hu, -, -, hlog⟩
      · rw [hu] at hfail ⊢
        simp only [World.since_of_log w w' _ hlog] at hfail ⊢
        simp [deleted] at hfail
        refine ⟨by simp [hfail.2], ?_, hrows⟩
        intro ev hev i fields
        simp [deleted] at hev
        rcases hev with rfl | ⟨a, -, rfl⟩ | rfl <;> simp
      · rw [hu] at hfail
        simp [World.since_of_log w w' _ hlog, deleted] at hfail
      · rw [hu] at hfail
        simp [World.since_of_log w w' _ hlog, deleted] at hfail
  refine ⟨key.1, key.2.1, key.2.2, ?_⟩
  intro pro hpro
  rw [key.2.2]
  exact hpro

theorem Update_failed_release_keeps_record_witness :
    (⟨.objDelete "A", some (.Collaborator "down")⟩ : Event) ∈
        ({ sampleWorld with faults := [none, some (.Collaborator "down")] } : World).since
          (Update { sampleWorld with faults := [none, some (.Collaborator "down")] }
            "me" 1 sampleReq).2 ∧
      (Update { sampleWorld with faults := [none, some (.Collaborator "down")] }
          "me" 1 sampleReq).2.rows.find? (fun r => r.ID = 1) = some sampleRecord :=
  ⟨by decide,
   (Update_failed_release_keeps_record
      { sampleWorld with faults := [none, some (.Collaborator "down")] } "me" 1 sampleReq
      "A" (.Collaborator "down") (by decide)).2.2.2 sampleRecord (by decide)⟩

end Lpms

namespace Lpms

/-! ## Runs with scripted outcomes -/

theorem head_none_of_take (l : List (Option Exception)) (n : Nat)
    (h : ∀ f ∈ l.take (n + 1), f = none) :
    l.head?.join = none ∧ ∀ f ∈ l.tail.take n, f = none := by
  cases l with
  | nil => simp
  | cons a as =>
    have ha : a = none := h a (by simp)
    refine ⟨by simp [ha], ?_⟩
    intro f hf
    have hf' : f ∈ as.take n := by simpa using hf
    exact h f (by simp [hf'])

theorem drop_head_none_of_take (n : Nat) :
    ∀ l : List (Option Exception), (∀ f ∈ l.take (n + 1), f = none) →
      (l.drop n).head?.join = none := by
  induction n with
  | zero =>
    intro l h
    exact (head_none_of_take l 0 h).1
  | succ n ih =>
    intro l h
    cases l with
    | nil => simp
    | cons a as =>
      rw [List.drop_succ_cons]
      exact ih as (fun f hf => h f (by simp [hf]))

/-- A run of object deletions none of which is scripted to fail: all of them
are made and succeed. -/
theorem releaseRefs_clean (refs : List String) :
    ∀ w : World, (∀ f ∈ w.faults.take refs.length, f = none) →
      ∃ w', releaseRefs w refs = (none, w') ∧ w'.rows = w.rows ∧
        w'.objects = w.objects.filter (fun o => o ∉ refs) ∧
        w'.log = w.log ++ refs.map deleted ∧
        w'.faults = w.faults.drop refs.length := by
  induction refs with
  | nil =>
    intro w _
    exact ⟨w, rfl, rfl, by simp, by simp, by simp⟩
  | cons ref rest ih =>
    intro w h
    obtain ⟨hinj, htail⟩ := head_none_of_take w.faults rest.length h
    rcases objRepoDelete_cases w ref with ⟨ex, -, hi⟩ | ⟨hd, -⟩
    · unfold World.injected at hi
      rw [hinj] at hi
      cases hi
    · obtain ⟨w', hr, hrows, hobj, hlog, hfaults⟩ :=
        ih ((w.record (.objDelete ref) none).withObjects
          (w.objects.filter (fun o => o ≠ ref))) (by simpa using htail)
      refine ⟨w', by simp only [releaseRefs, hd, hr], by simpa using hrows, ?_, ?_, ?_⟩
      · rw [hobj]
        simp only [World.withObjects_objects, List.filter_filter]
        congr 1
        funext o
        by_cases ho : o = ref <;> simp [ho]
      · rw [hlog]
        simp [deleted]
      · rw [hfaults]
        simp

/-- A run of object deletions in which the first scripted failure falls on
the deletion of `ref`: the deletions before it succeed, that one returns the
failure, and no later one is made. -/
theorem releaseRefs_scripted (done : List String) (ref : String) (rest : List String)
    (ex : Exception) (fs : List (Option Exception)) :
    ∀ w : World, w.faults = List.replicate done.length none ++ some ex :: fs →
      ∃ w', releaseRefs w (done ++ ref :: rest) = (some ex, w') ∧ w'.rows = w.rows ∧
        w'.objects = w.objects.filter (fun o => o ∉ done) ∧
        w'.log = w.log ++ (done.map deleted ++ [⟨.objDelete ref, some ex⟩]) ∧
        w'.faults = fs := by
  induction done with
  | nil =>
    intro w h
    have hinj : w.injected = some ex := by
      unfold World.injected
      rw [h]
      rfl
    rcases objRepoDelete_cases w ref with ⟨ex', hd, hi⟩ | ⟨-, hi⟩
    · rw [hinj] at hi
      cases hi
      refine ⟨w.record (.objDelete ref) (some ex),
        by simp only [List.nil_append, releaseRefs, hd], rfl, by simp, by simp, ?_⟩
      simp [h]
    · rw [hinj] at hi
      cases hi
  | cons d ds ih =>
    intro w h
    have hinj : w.injected = none := by
      unfold World.injected
      rw [h]
      rfl
    rcases objRepoDelete_cases w d with ⟨ex', -, hi⟩ | ⟨hd, -⟩
    · rw [hinj] at hi
      cases hi
    · obtain ⟨w', hr, hrows, hobj, hlog, hfaults⟩ :=
        ih ((w.record (.objDelete d) none).withObjects
          (w.objects.filter (fun o => o ≠ d))) (by simp [h, List.replicate_succ])
      have hrun : releaseRefs w (d :: ds ++ ref :: rest) = (some ex, w') := by
        rw [List.cons_append]
        simp only [releaseRefs, hd]
        exact hr
      refine ⟨w', hrun, by simpa using hrows, ?_, ?_, hfaults⟩
      · rw [hobj]
        simp only [World.withObjects_objects, List.filter_filter]
        congr 1
        funext o
        by_cases ho : o = d <;> simp [ho]
      · rw [hlog]
        simp [deleted]

theorem repoGet_found (w : World) (id : Int) (pro : Reserve) (hinj : w.injected = none)
    (hpro : w.rows.find? (fun r => r.ID = id) = some pro) :
    repoGet w id = (.ok pro, w.record (.repoGet id) none) := by
  unfold repoGet
  rw [hinj, hpro]

end Lpms

namespace Lpms

theorem Reserve.mem_artifacts (pro : Reserve) (ref : String) :
    ref ∈ pro.artifacts ↔ ref ≠ "" ∧ (ref = pro.SitePhoto ∨ ref = pro.UploadCadID) := by
  unfold Reserve.artifacts
  by_cases c1 : pro.SitePhoto ≠ "" <;> by_cases c2 : pro.UploadCadID ≠ ""
  · simp only [if_pos c1, if_pos c2]
    simp only [List.singleton_append, List.mem_cons, List.mem_singleton, List.not_mem_nil,
      or_false]
    constructor
    · rintro (rfl | rfl)
      · exact ⟨c1, Or.inl rfl⟩
      · exact ⟨c2, Or.inr rfl⟩
    · rintro ⟨-, h⟩; exact h
  · simp only [if_pos c1, if_neg c2]
    simp only [List.append_nil, List.mem_singleton]
    constructor
    · rintro rfl; exact ⟨c1, Or.inl rfl⟩
    · rintro ⟨hne, rfl | rfl⟩
      · rfl
      · exact absurd hne c2
  · simp only [if_neg c1, if_pos c2]
    simp only [List.nil_append, List.mem_singleton]
    constructor
    · rintro rfl; exact ⟨c2, Or.inr rfl⟩
    · rintro ⟨hne, rfl | rfl⟩
      · exact absurd hne c1
      · rfl
  · simp only [if_neg c1, if_neg c2]
    simp only [List.append_nil, List.not_mem_nil, false_iff, not_and]
    rintro hne (rfl | rfl)
    · exact c1 hne
    · exact c2 hne

theorem mem_take_succ_of_mem_take (n : Nat) :
    ∀ (l : List (Option Exception)) (f : Option Exception), f ∈ l.take n → f ∈ l.take (n + 1) := by
  induction n with
  | zero => intro l f h; simp at h
  | succ n ih =>
    intro l f h
    cases l with
    | nil => simp at h
    | cons a as =>
      rw [List.take_succ_cons] at h ⊢
      rcases List.mem_cons.1 h with rfl | h'
      · simp
      · exact List.mem_cons_of_mem _ (ih as f h')

/-- The method `Delete` on a stored record whose lookup succeeds: the
artifacts are released, then the row is removed. -/
theorem Delete_found (w : World) (id : Int) (pro : Reserve) (hinj : w.injected = none)
    (hpro : w.rows.find? (fun r => r.ID = id) = some pro) :
    Delete w id =
      match releaseRefs (w.record (.repoGet id) none) pro.artifacts with
      | (some ex, w1) => (some ex, w1)
      | (none, w1) => repoDelete w1 id := by
  rw [Delete_eq]
  unfold releaseRecord
  rw [repoGet_found w id pro hinj hpro]

/-- C4: `Delete` releases the record's artifacts before removing the record.
Which run takes place is told by the outcomes of the collaborator calls.  If
the lookup fails, for an unknown id with the not-found error, `Delete`
returns that error having made no other call.  For a stored record it goes
on to delete the non-empty artifact references, site photo first.  When
neither these deletions nor the row deletion fail, every one of them is
made, the row is removed after them and `Delete` succeeds.  When the deletion
of `ref` is the first call to fail, `Delete` returns that failure, having
deleted only the references before `ref`, and leaves the table unchanged
without a row deletion.  When only the row deletion fails, the table is
unchanged. -/
theorem Delete_releases_before_removing (w : World) (id : Int) :
    (∀ ex, w.injected = some ex →
        Delete w id = (some ex, w.record (.repoGet id) (some ex)))
    ∧ (w.injected = none → w.rows.find? (fun r => r.ID = id) = none →
        Delete w id =
          (some (.RecordNotFound id), w.record (.repoGet id) (some (.RecordNotFound id))))
    ∧ (∀ pro, w.injected = none → w.rows.find? (fun r => r.ID = id) = some pro →
        (∀ ref, ref ∈ pro.artifacts ↔
            ref ≠ "" ∧ (ref = pro.SitePhoto ∨ ref = pro.UploadCadID))
        ∧ ((∀ f ∈ w.faults.take (pro.artifacts.length + 2), f = none) →
            (Delete w id).1 = none
            ∧ (Delete w id).2.rows = w.rows.filter (fun r => r.ID ≠ id)
            ∧ (Delete w id).2.objects = w.objects.filter (fun o => o ∉ pro.artifacts)
            ∧ w.since (Delete w id).2 =
                ⟨.repoGet id, none⟩ :: (pro.artifacts.map deleted ++ [⟨.repoDelete id, none⟩]))
        ∧ (∀ done ref rest ex fs, pro.artifacts = done ++ ref :: rest →
            w.faults = List.replicate (done.length + 1) none ++ some ex :: fs →
            (Delete w id).1 = some ex
            ∧ (Delete w id).2.rows = w.rows
            ∧ (Delete w id).2.objects = w.objects.filter (fun o => o ∉ done)
            ∧ w.since (Delete w id).2 =
                ⟨.repoGet id, none⟩ :: (done.map deleted ++ [⟨.objDelete ref, some ex⟩]))
        ∧ (∀ ex fs,
            w.faults = List.replicate (pro.artifacts.length + 1) none ++ some ex :: fs →
            (Delete w id).1 = some ex
            ∧ (Delete w id).2.rows = w.rows
            ∧ (Delete w id).2.objects = w.objects.filter (fun o => o ∉ pro.artifacts)
            ∧ w.since (Delete w id).2 =
                ⟨.repoGet id, none⟩ ::
                  (pro.artifacts.map deleted ++ [⟨.repoDelete id, some ex⟩]))) := by
  refine ⟨?_, ?_, ?_⟩
  · intro ex hinj
    unfold Delete repoGet
    rw [hinj]
  · intro hinj hnone
    unfold Delete repoGet
    rw [hinj, hnone]
  · intro pro hinj hpro
    have hD := Delete_found w id pro hinj hpro
    refine ⟨Reserve.mem_artifacts pro, ?_, ?_, ?_⟩
    · intro hclean
      obtain ⟨-, htail⟩ := head_none_of_take w.faults (pro.artifacts.length + 1) hclean
      obtain ⟨w1, hr, hrows, hobj, hlog, hfaults⟩ :=
        releaseRefs_clean pro.artifacts (w.record (.repoGet id) none)
          (fun f hf => htail f (mem_take_succ_of_mem_take _ _ f (by simpa using hf)))
      have hinj1 : w1.injected = none := by
        unfold World.injected
        rw [hfaults]
        exact drop_head_none_of_take pro.artifacts.length _ (by simpa using htail)
      have hdel : repoDelete w1 id =
          (none, (w1.record (.repoDelete id) none).withRows
                   (w1.rows.filter (fun r => r.ID ≠ id))) := by
        unfold repoDelete
        rw [hinj1]
      rw [hD, hr]
      simp only [hdel]
      refine ⟨trivial, by simp [hrows], by simpa using hobj, ?_⟩
      exact World.since_of_log w _ _ (by simp [hlog])
    · intro done ref rest ex fs hsplit hfaults
      obtain ⟨w1, hr, hrows, hobj, hlog, -⟩ :=
        releaseRefs_scripted done ref rest ex fs (w.record (.repoGet id) none)
          (by simp [hfaults, List.replicate_succ])
      rw [hD, hsplit, hr]
      refine ⟨rfl, by simpa using hrows, by simpa using hobj, ?_⟩
      exact World.since_of_log w _ _ (by simp [hlog])
    · intro ex fs hfaults
      have hw0 : (w.record (.repoGet id) none).faults =
          List.replicate pro.artifacts.length none ++ some ex :: fs := by
        simp [hfaults, List.replicate_succ]
      obtain ⟨w1, hr, hrows, hobj, hlog, hf1⟩ :=
        releaseRefs_clean pro.artifacts (w.record (.repoGet id) none) (by
          intro f hf
          rw [hw0, List.take_left' (by simp)] at hf
          exact (List.mem_replicate.1 hf).2)
      have hinj1 : w1.injected = some ex := by
        unfold World.injected
        rw [hf1, hw0, List.drop_left' (by simp)]
        rfl
      have hdel : repoDelete w1 id = (some ex, w1.record (.repoDelete id) (some ex)) := by
        unfold repoDelete
        rw [hinj1]
      rw [hD, hr]
      simp only [hdel]
      refine ⟨trivial, by simpa using hrows, by simpa using hobj, ?_⟩
      exact World.since_of_log w _ _ (by simp [hlog])

theorem Delete_releases_before_removing_witness :
    ((Delete sampleWorld 1).1 = none
      ∧ (Delete sampleWorld 1).2.rows = sampleWorld.rows.filter (fun r => r.ID ≠ 1)
      ∧ (Delete sampleWorld 1).2.objects =
          sampleWorld.objects.filter (fun o => o ∉ sampleRecord.artifacts)
      ∧ sampleWorld.since (Delete sampleWorld 1).2 =
          ⟨.repoGet 1, none⟩ ::
            (sampleRecord.artifacts.map deleted ++ [⟨.repoDelete 1, none⟩]))
    ∧ ((Delete faultyWorld 1).1 = some (.Collaborator "down")
      ∧ (Delete faultyWorld 1).2.rows = faultyWorld.rows
      ∧ (Delete faultyWorld 1).2.objects = faultyWorld.objects.filter (fun o => o ∉ ["P"])
      ∧ faultyWorld.since (Delete faultyWorld 1).2 =
          ⟨.repoGet 1, none⟩ ::
            (["P"].map deleted ++ [⟨.objDelete "A", some (.Collaborator "down")⟩]))
    ∧ Delete sampleWorld 2 =
        (some (.RecordNotFound 2), sampleWorld.record (.repoGet 2) (some (.RecordNotFound 2)))
    ∧ sampleRecord.artifacts = ["P", "A"]
    ∧ sampleWorld.rows.filter (fun r => r.ID ≠ 1) = [otherRecord] :=
  ⟨((Delete_releases_before_removing sampleWorld 1).2.2 sampleRecord (by decide)
      (by decide)).2.1 (by decide),
   ((Delete_releases_before_removing faultyWorld 1).2.2 sampleRecord (by decide)
      (by decide)).2.2.1 ["P"] "A" [] (.Collaborator "down") [] (by decide) (by decide),
   (Delete_releases_before_removing sampleWorld 2).2.1 (by decide) (by decide),
   by decide, by decide⟩

end Lpms

namespace Lpms

/-! ## Referential integrity across Update and Delete -/

theorem Update.mem_released (pro : Reserve) (param : ReserveUpdateReq) (ref : String) :
    ref ∈ Update.released pro param ↔
      (ref = pro.UploadCadID ∧ ref ≠ "" ∧ ref ≠ param.UploadCadID) ∨
      (ref = pro.SitePhoto ∧ ref ≠ "" ∧ ref ≠ param.SitePhoto) := by
  unfold Update.released
  by_cases c1 : pro.UploadCadID ≠ "" ∧ pro.UploadCadID ≠ param.UploadCadID <;>
    by_cases c2 : pro.SitePhoto ≠ "" ∧ pro.SitePhoto ≠ param.SitePhoto
  · simp only [if_pos c1, if_pos c2, List.singleton_append, List.mem_cons, List.mem_singleton,
      List.not_mem_nil, or_false]
    constructor
    · rintro (rfl | rfl)
      · exact Or.inl ⟨rfl, c1⟩
      · exact Or.inr ⟨rfl, c2⟩
    · rintro (⟨h, -⟩ | ⟨h, -⟩)
      · exact Or.inl h
      · exact Or.inr h
  · simp only [if_pos c1, if_neg c2, List.append_nil, List.mem_singleton]
    constructor
    · rintro rfl; exact Or.inl ⟨rfl, c1⟩
    · rintro (⟨h, -⟩ | ⟨rfl, h⟩)
      · exact h
      · exact absurd h c2
  · simp only [if_neg c1, if_pos c2, List.nil_append, List.mem_singleton]
    constructor
    · rintro rfl; exact Or.inr ⟨rfl, c2⟩
    · rintro (⟨rfl, h⟩ | ⟨h, -⟩)
      · exact absurd h c1
      · exact h
  · simp only [if_neg c1, if_neg c2, List.append_nil, List.not_mem_nil, false_iff]
    rintro (⟨rfl, h⟩ | ⟨rfl, h⟩)
    · exact c1 h
    · exact c2 h

theorem Update.released_subset (pro : Reserve) (param : ReserveUpdateReq) (ref : String)
    (h : ref ∈ Update.released pro param) : ref ∈ pro.artifacts := by
  rw [Update.mem_released] at h
  rw [Reserve.mem_artifacts]
  rcases h with ⟨h1, h2, -⟩ | ⟨h1, h2, -⟩
  · exact ⟨h2, Or.inr h1⟩
  · exact ⟨h2, Or.inl h1⟩

theorem find?_id_some {rows : List Reserve} {id : Int} {pro : Reserve}
    (h : rows.find? (fun r => r.ID = id) = some pro) : pro ∈ rows ∧ pro.ID = id := by
  refine ⟨List.mem_of_find?_eq_some h, ?_⟩
  have := List.find?_some h
  simpa using this

/-- Integrity survives when the table is unchanged and no object was removed. -/
theorem integrity_of_same (w w' : World) (hint : w.integrity) (hrows : w'.rows = w.rows)
    (hobj : w'.objects = w.objects) : w'.integrity := by
  intro r hr
  rw [hrows] at hr
  have := hint r hr
  unfold World.refOK at this ⊢
  rw [hobj]
  exact this

/-- A reference that was in order stays in order when the objects removed are
not the one it names. -/
theorem refOK_filter (w w' : World) (gone : List String) (ref : String)
    (hobj : w'.objects = w.objects.filter (fun o => o ∉ gone))
    (hok : w.refOK ref) (hkeep : ref ≠ "" → ref ∉ gone) : w'.refOK ref := by
  unfold World.refOK at hok ⊢
  rcases hok with h | h
  · exact Or.inl h
  · by_cases he : ref = ""
    · exact Or.inl he
    · right
      rw [hobj]
      simp [h, hkeep he]

end Lpms

namespace Lpms

/-- C1 (as amended): starting from a state with referential integrity in
which no object is shared between records, `Update` (given a request whose
references name stored objects and which does not put into one slot the
object the record holds in its other slot) and `Delete` leave a state with
referential integrity whenever they return success, and also whenever they
return an error without any of their object deletions having succeeded. -/
theorem integrity_preserved_without_partial_release (w : World) (openID : String) (id : Int)
    (param : ReserveUpdateReq) (hint : w.integrity) (hex : w.exclusive)
    (hphoto : w.refOK param.SitePhoto) (hcad : w.refOK param.UploadCadID)
    (hslot : ∀ pro, w.rows.find? (fun r => r.ID = id) = some pro →
      (param.UploadCadID ≠ "" → param.UploadCadID ≠ pro.SitePhoto) ∧
      (param.SitePhoto ≠ "" → param.SitePhoto ≠ pro.UploadCadID)) :
    (((Update w openID id param).1 = none ∨
        ∀ ref, deleted ref ∉ w.since (Update w openID id param).2) →
      (Update w openID id param).2.integrity)
    ∧ (((Delete w id).1 = none ∨ ∀ ref, deleted ref ∉ w.since (Delete w id).2) →
      (Delete w id).2.integrity) := by
  constructor
  · intro hcase
    rcases Update_spec w openID id param with ⟨ex, hu, -⟩ | ⟨pro, hf, -, hspec⟩
    · rw [hu]
      exact integrity_of_same w _ hint rfl rfl
    · obtain ⟨hmem, hid⟩ := find?_id_some hf
      obtain ⟨hs1, hs2⟩ := hslot pro hf
      rcases hspec with ⟨ex, w', done, ref, rest, hu, hsplit, hrows, hobj, hlog⟩ |
        ⟨ex, w', hu, hrows, hobj, hlog⟩ | ⟨w', hu, hrows, hobj, hlog⟩
      · rw [hu] at hcase ⊢
        simp only [World.since_of_log w w' _ hlog] at hcase
        rcases hcase with h | h
        · cases h
        · have hdone : done = [] := by
            cases done with
            | nil => rfl
            | cons d ds => exact absurd (by simp) (h d)
          subst hdone
          exact integrity_of_same w w' hint hrows (by simpa using hobj)
      · rw [hu] at hcase ⊢
        simp only [World.since_of_log w w' _ hlog] at hcase
        rcases hcase with h | h
        · cases h
        · have hnone : Update.released pro param = [] := by
            cases hr : Update.released pro param with
            | nil => rfl
            | cons d ds => rw [hr] at h; exact absurd (by simp) (h d)
          rw [hnone] at hobj
          exact integrity_of_same w w' hint hrows (by simpa using hobj)
      · rw [hu]
        intro r hr
        rw [hrows] at hr
        obtain ⟨r0, hr0, rfl⟩ := List.mem_map.1 hr
        by_cases hr0id : r0.ID = id
        · simp only [if_pos hr0id, applyFields_ToMap]
          constructor
          · refine refOK_filter w w' _ _ hobj hphoto ?_
            intro hne hin
            rcases (Update.mem_released pro param _).1 hin with ⟨h1, -, -⟩ | ⟨-, -, h3⟩
            · exact hs2 hne h1
            · exact h3 rfl
          · refine refOK_filter w w' _ _ hobj hcad ?_
            intro hne hin
            rcases (Update.mem_released pro param _).1 hin with ⟨-, -, h3⟩ | ⟨h1, -, -⟩
            · exact h3 rfl
            · exact hs1 hne h1
        · simp only [if_neg hr0id]
          have hne : r0.ID ≠ pro.ID := by rw [hid]; exact hr0id
          have hdis := hex r0 hr0 pro hmem hne
          constructor
          · refine refOK_filter w w' _ _ hobj (hint r0 hr0).1 ?_
            intro hne' hin
            exact hdis _ ((Reserve.mem_artifacts r0 _).2 ⟨hne', Or.inl rfl⟩)
              (Update.released_subset pro param _ hin)
          · refine refOK_filter w w' _ _ hobj (hint r0 hr0).2 ?_
            intro hne' hin
            exact hdis _ ((Reserve.mem_artifacts r0 _).2 ⟨hne', Or.inr rfl⟩)
              (Update.released_subset pro param _ hin)
  · intro hcase
    rcases Delete_spec w id with ⟨ex, hu, -⟩ | ⟨pro, hf, -, hspec⟩
    · rw [hu]
      exact integrity_of_same w _ hint rfl rfl
    · obtain ⟨hmem, hid⟩ := find?_id_some hf
      rcases hspec with ⟨ex, w', done, ref, rest, hu, hsplit, hrows, hobj, hlog⟩ |
        ⟨ex, w', hu, hrows, hobj, hlog⟩ | ⟨w', hu, hrows, hobj, hlog⟩
      · rw [hu] at hcase ⊢
        simp only [World.since_of_log w w' _ hlog] at hcase
        rcases hcase with h | h
        · cases h
        · have hdone : done = [] := by
            cases done with
            | nil => rfl
            | cons d ds => exact absurd (by simp) (h d)
          subst hdone
          exact integrity_of_same w w' hint hrows (by simpa using hobj)
      · rw [hu] at hcase ⊢
        simp only [World.since_of_log w w' _ hlog] at hcase
        rcases hcase with h | h
        · cases h
        · have hnone : pro.artifacts = [] := by
            cases hr : pro.artifacts with
            | nil => rfl
            | cons d ds => rw [hr] at h; exact absurd (by simp) (h d)
          rw [hnone] at hobj
          exact integrity_of_same w w' hint hrows (by simpa using hobj)
      · rw [hu]
        intro r hr
        rw [hrows] at hr
        obtain ⟨hr0, hrid⟩ := List.mem_filter.1 hr
        have hne : r.ID ≠ pro.ID := by rw [hid]; simpa using hrid
        have hdis := hex r hr0 pro hmem hne
        constructor
        · refine refOK_filter w w' _ _ hobj (hint r hr0).1 ?_
          intro hne' hin
          exact hdis _ ((Reserve.mem_artifacts r _).2 ⟨hne', Or.inl rfl⟩) hin
        · refine refOK_filter w w' _ _ hobj (hint r hr0).2 ?_
          intro hne' hin
          exact hdis _ ((Reserve.mem_artifacts r _).2 ⟨hne', Or.inr rfl⟩) hin

theorem integrity_preserved_without_partial_release_witness :
    sampleWorld.integrity ∧ sampleWorld.exclusive ∧
      (Update sampleWorld "me" 1 sampleReq).1 = none ∧
      (Update sampleWorld "me" 1 sampleReq).2.integrity ∧
      (Delete sampleWorld 1).1 = none ∧ (Delete sampleWorld 1).2.integrity :=
  ⟨by decide, by decide, by decide,
   (integrity_preserved_without_partial_release sampleWorld "me" 1 sampleReq
      (by decide) (by decide) (by decide) (by decide)
      (by intro pro h; obtain rfl : sampleRecord = pro := Option.some.inj h; decide)).1
      (Or.inl (by decide)),
   by decide,
   (integrity_preserved_without_partial_release sampleWorld "me" 1 sampleReq
      (by decide) (by decide) (by decide) (by decide)
      (by intro pro h; obtain rfl : sampleRecord = pro := Option.some.inj h; decide)).2
      (Or.inl (by decide))⟩

/-- C1 fails as stated.  From a state with referential integrity and a
request naming stored objects: `Update` deletes the old CAD upload `A`, fails
on the next call and leaves the record referencing the deleted `A`; `Delete`
deletes the site photo `P`, fails on the CAD upload and leaves the record
referencing the deleted `P`; a successful `Delete` of a record whose photo
is shared leaves the other record referencing the deleted photo; a
successful `Update` that moves the photo into the CAD slot deletes it. -/
theorem integrity_broken_by_Update_and_Delete :
    (faultyWorld.integrity ∧ faultyWorld.refOK sampleReq.SitePhoto ∧
        faultyWorld.refOK sampleReq.UploadCadID ∧
        (Update faultyWorld "me" 1 sampleReq).1 = some (.Collaborator "down") ∧
        ¬ (Update faultyWorld "me" 1 sampleReq).2.integrity)
    ∧ ((Delete faultyWorld 1).1 = some (.Collaborator "down") ∧
        ¬ (Delete faultyWorld 1).2.integrity)
    ∧ (sharedWorld.integrity ∧ (Delete sharedWorld 1).1 = none ∧
        ¬ (Delete sharedWorld 1).2.integrity)
    ∧ (sampleWorld.integrity ∧ sampleWorld.refOK swapReq.SitePhoto ∧
        sampleWorld.refOK swapReq.UploadCadID ∧
        (Update sampleWorld "me" 1 swapReq).1 = none ∧
        ¬ (Update sampleWorld "me" 1 swapReq).2.integrity) := by
  decide

end Lpms

namespace Lpms

/-! ## Runs without injected failures -/

theorem World.noFaults_injected (w : World) (h : w.noFaults) : w.injected = none := by
  unfold World.injected
  cases hf : w.faults with
  | nil => rfl
  | cons f fs =>
    have : f = none := h f (by simp [hf])
    simp [this]

theorem World.noFaults_record (w : World) (c : Call) (e : Option Exception)
    (h : w.noFaults) : (w.record c e).noFaults := by
  intro f hf
  exact h f (List.mem_of_mem_tail hf)

theorem releaseRefs_noFaults (w : World) (refs : List String) (h : w.noFaults) :
    ∃ w', releaseRefs w refs = (none, w') ∧ w'.rows = w.rows ∧
      w'.objects = w.objects.filter (fun o => o ∉ refs) ∧ w'.noFaults := by
  induction refs generalizing w with
  | nil => exact ⟨w, rfl, rfl, by simp, h⟩
  | cons ref rest ih =>
    rcases objRepoDelete_cases w ref with ⟨ex, -, hi⟩ | ⟨hd, -⟩
    · rw [World.noFaults_injected w h] at hi; cases hi
    · obtain ⟨w', hr, hrows, hobj, hnf⟩ :=
        ih ((w.record (.objDelete ref) none).withObjects
          (w.objects.filter (fun o => o ≠ ref)))
          (World.noFaults_record w (.objDelete ref) none h)
      refine ⟨w', by simp only [releaseRefs, hd, hr], by simpa using hrows, ?_, hnf⟩
      rw [hobj]
      simp only [World.withObjects_objects, List.filter_filter]
      apply List.filter_congr
      intro x _
      simp [Bool.and_comm]

theorem releaseRecord_noFaults (w : World) (id : Int) (h : w.noFaults) :
    (w.rows.find? (fun r => r.ID = id) = none ∧
      ∃ w', releaseRecord w id = (some (.RecordNotFound id), w') ∧ w'.rows = w.rows ∧
        w'.objects = w.objects) ∨
    (∃ pro w', w.rows.find? (fun r => r.ID = id) = some pro ∧
      releaseRecord w id = (none, w') ∧ w'.rows = w.rows ∧
      w'.objects = w.objects.filter (fun o => o ∉ pro.artifacts) ∧ w'.noFaults) := by
  unfold releaseRecord
  rcases repoGet_cases w id with ⟨ex, hg, hi | ⟨-, hf, rfl⟩⟩ | ⟨pro, hg, -, hf⟩
  · rw [World.noFaults_injected w h] at hi; cases hi
  · rw [hg]
    exact Or.inl ⟨hf, _, rfl, rfl, rfl⟩
  · rw [hg]
    obtain ⟨w', hr, hrows, hobj, hnf⟩ :=
      releaseRefs_noFaults (w.record (.repoGet id) none) pro.artifacts
        (World.noFaults_record w (.repoGet id) none h)
    exact Or.inr ⟨pro, w', hf, hr, by simpa using hrows, by simpa using hobj, hnf⟩

theorem Delete_noFaults (w : World) (id : Int) (h : w.noFaults) :
    (w.rows.find? (fun r => r.ID = id) = none ∧
      ∃ w', Delete w id = (some (.RecordNotFound id), w') ∧ w'.rows = w.rows ∧
        w'.objects = w.objects) ∨
    (∃ pro w', w.rows.find? (fun r => r.ID = id) = some pro ∧
      Delete w id = (none, w') ∧ w'.rows = w.rows.filter (fun r => r.ID ≠ id) ∧
      w'.objects = w.objects.filter (fun o => o ∉ pro.artifacts) ∧ w'.noFaults) := by
  rw [Delete_eq]
  rcases releaseRecord_noFaults w id h with ⟨hf, w', hr, hrows, hobj⟩ |
    ⟨pro, w', hf, hr, hrows, hobj, hnf⟩
  · rw [hr]
    exact Or.inl ⟨hf, w', rfl, hrows, hobj⟩
  · rw [hr]
    rcases repoDelete_cases w' id with ⟨ex, -, hi⟩ | ⟨hd, -⟩
    · rw [World.noFaults_injected w' hnf] at hi; cases hi
    · simp only [hd]
      refine Or.inr ⟨pro, _, hf, rfl, by simp [hrows], by simpa using hobj, ?_⟩
      intro f hf'
      exact hnf f (List.mem_of_mem_tail hf')

theorem find?_filter_notMem (rows : List Reserve) (seen : List Int) (id : Int)
    (h : id ∉ seen) :
    (rows.filter (fun r => r.ID ∉ seen)).find? (fun r => r.ID = id) =
      rows.find? (fun r => r.ID = id) := by
  rw [List.find?_filter]
  congr 1
  funext r
  by_cases he : r.ID = id
  · simp [he, h]
  · simp [he]

/-- The artifact phase of `MultiDelete` against the record-by-record
deletion, started from worlds that agree on the object store and differ in
the table by the rows already removed record by record. -/
theorem release_vs_deleteEach (did : List Int) :
    ∀ (wm ws : World) (seen : List Int), wm.noFaults → ws.noFaults →
      ws.objects = wm.objects →
      ws.rows = wm.rows.filter (fun r => r.ID ∉ seen) →
      did.Nodup → (∀ i ∈ did, i ∉ seen) →
      (MultiDelete.release wm did).1 = (deleteEach ws did).1 ∧
      (MultiDelete.release wm did).2.objects = (deleteEach ws did).2.objects ∧
      (MultiDelete.release wm did).2.rows = wm.rows ∧
      ((MultiDelete.release wm did).1 = none →
        (MultiDelete.release wm did).2.noFaults ∧
        (deleteEach ws did).2.rows = wm.rows.filter (fun r => r.ID ∉ seen ++ did)) := by
  induction did with
  | nil =>
    intro wm ws seen hm _ hobj hrows _ _
    exact ⟨rfl, hobj.symm, rfl, fun _ => ⟨hm, by simpa using hrows⟩⟩
  | cons id rest ih =>
    intro wm ws seen hm hs hobj hrows hnd hseen
    have hid : id ∉ seen := hseen id (by simp)
    have hfind : ws.rows.find? (fun r => r.ID = id) = wm.rows.find? (fun r => r.ID = id) := by
      rw [hrows]; exact find?_filter_notMem wm.rows seen id hid
    rw [MultiDelete.release_cons, deleteEach]
    rcases releaseRecord_noFaults wm id hm with ⟨hfm, wm1, hrm, hrowsm, hobjm⟩ |
      ⟨pro, wm1, hfm, hrm, hrowsm, hobjm, hnfm⟩
    · rcases Delete_noFaults ws id hs with ⟨-, ws1, hds, hrowss, hobjs⟩ |
        ⟨pro', ws1, hfs, -, -, -, -⟩
      · rw [hrm, hds]
        exact ⟨rfl, by simp [hobjm, hobjs, hobj], hrowsm, fun h => by cases h⟩
      · rw [hfind, hfm] at hfs; cases hfs
    · rcases Delete_noFaults ws id hs with ⟨hfs, -⟩ |
        ⟨pro', ws1, hfs, hds, hrowss, hobjs, hnfs⟩
      · rw [hfind, hfm] at hfs; cases hfs
      · obtain rfl : pro = pro' := by
          rw [hfind, hfm] at hfs; exact Option.some.inj hfs
        rw [hrm, hds]
        simp only []
        have hnd' := List.nodup_cons.1 hnd
        have := ih wm1 ws1 (seen ++ [id]) hnfm hnfs (by rw [hobjs, hobjm, hobj])
          (by
            rw [hrowss, hrows, hrowsm, List.filter_filter]
            apply List.filter_congr
            intro x _
            simp [Bool.and_comm])
          hnd'.2
          (by
            intro i hi
            simp only [List.mem_append, List.mem_singleton, not_or]
            exact ⟨hseen i (by simp [hi]), fun e => hnd'.1 (e ▸ hi)⟩)
        obtain ⟨h1, h2, h3, h4⟩ := this
        refine ⟨h1, h2, by rw [h3, hrowsm], fun h => ⟨(h4 h).1, ?_⟩⟩
        rw [(h4 h).2, hrowsm]
        simp

end Lpms

namespace Lpms

/-! ## MultiDelete -/

theorem splitComma_ne_nil (cs : List Char) : splitComma cs ≠ [] := by
  induction cs with
  | nil => simp [splitComma]
  | cons c cs ih =>
    unfold splitComma
    split_ifs
    · simp
    · cases h : splitComma cs with
      | nil => exact absurd h ih
      | cons p ps => simp

theorem Split_length_ne_zero (ids : String) : (Split ids).length ≠ 0 := by
  unfold Split
  simpa using splitComma_ne_nil ids.toList

theorem MultiDelete_of_parse (w : World) (ids : String) (did : List Int)
    (hparse : parseIDs (Split ids) = .ok did) :
    MultiDelete w ids =
      match MultiDelete.release w did with
      | (some ex, w1) => (some ex, w1)
      | (none, w1) => repoMultiDelete w1 did := by
  unfold MultiDelete
  simp only [if_neg (Split_length_ne_zero ids), hparse]

/-- C5 (as amended): for a well-formed list of pairwise distinct ids, when
no collaborator fails for an external reason (the only possible failure is
the lookup of an unknown id), `MultiDelete` returns the same result and
leaves the same object store as calling the single-record `Delete` on each
id in list order and stopping at the first failure; when that result is
success it also leaves the same table, every listed row removed; when it is
a failure `MultiDelete` has removed no row at all. -/
theorem MultiDelete_agrees_with_single_deletes (w : World) (ids : String) (did : List Int)
    (hparse : parseIDs (Split ids) = .ok did) (hnd : did.Nodup) (hnf : w.noFaults) :
    (MultiDelete w ids).1 = (deleteEach w did).1
    ∧ (MultiDelete w ids).2.objects = (deleteEach w did).2.objects
    ∧ ((MultiDelete w ids).1 = none →
        (MultiDelete w ids).2.rows = (deleteEach w did).2.rows ∧
        (MultiDelete w ids).2.rows = w.rows.filter (fun r => r.ID ∉ did))
    ∧ ((MultiDelete w ids).1 ≠ none → (MultiDelete w ids).2.rows = w.rows) := by
  obtain ⟨h1, h2, h3, h4⟩ := release_vs_deleteEach did w w [] hnf hnf rfl (by simp) hnd
    (by simp)
  rw [MultiDelete_of_parse w ids did hparse]
  cases hrel : MultiDelete.release w did with
  | mk r w1 =>
    rw [hrel] at h1 h2 h3 h4
    cases r with
    | some ex =>
      simp only [] at h1 h2 h3 ⊢
      exact ⟨h1, h2, fun h => (by cases h), fun _ => h3⟩
    | none =>
      simp only [] at h1 h2 h3 h4 ⊢
      obtain ⟨hnf1, hrows⟩ := h4 trivial
      rcases repoMultiDelete_cases w1 did with ⟨ex, -, hi⟩ | ⟨hd, -⟩
      · rw [World.noFaults_injected w1 hnf1] at hi; cases hi
      · rw [hd]
        simp only [World.withRows_objects, World.record_objects, World.withRows_rows]
        refine ⟨h1, h2, fun _ => ⟨?_, by rw [h3]⟩, fun h => absurd rfl h⟩
        rw [hrows, h3]
        simp

theorem MultiDelete_agrees_with_single_deletes_witness :
    parseIDs (Split "1,3") = .ok [1, 3] ∧
      (MultiDelete sampleWorld "1,3").1 = (deleteEach sampleWorld [1, 3]).1 ∧
      (MultiDelete sampleWorld "1,3").2.objects = (deleteEach sampleWorld [1, 3]).2.objects :=
  ⟨by decide,
   (MultiDelete_agrees_with_single_deletes sampleWorld "1,3" [1, 3] (by decide) (by decide)
      (by decide)).1,
   (MultiDelete_agrees_with_single_deletes sampleWorld "1,3" [1, 3] (by decide) (by decide)
      (by decide)).2.1⟩

/-- C5 fails as stated.  For the ids `1,2,3` with id 2 unknown, `MultiDelete`
returns the not-found failure for id 2 with the artifacts of record 1 deleted
but its row still in the table, while the record-by-record deletion has
removed the row; and for the ids `1,1` `MultiDelete` succeeds while the
record-by-record deletion fails at the second lookup. -/
theorem MultiDelete_differs_from_single_deletes :
    (parseIDs (Split "1,2,3") = .ok [1, 2, 3] ∧
        (MultiDelete sampleWorld "1,2,3").1 = some (.RecordNotFound 2) ∧
        "P" ∉ (MultiDelete sampleWorld "1,2,3").2.objects ∧
        "A" ∉ (MultiDelete sampleWorld "1,2,3").2.objects ∧
        sampleRecord ∈ (MultiDelete sampleWorld "1,2,3").2.rows ∧
        (deleteEach sampleWorld [1, 2, 3]).1 = some (.RecordNotFound 2) ∧
        sampleRecord ∉ (deleteEach sampleWorld [1, 2, 3]).2.rows)
    ∧ (parseIDs (Split "1,1") = .ok [1, 1] ∧
        (MultiDelete sampleWorld "1,1").1 = none ∧
        (deleteEach sampleWorld [1, 1]).1 = some (.RecordNotFound 1)) := by
  decide

end Lpms

namespace Lpms

theorem MultiDelete.release_append (w : World) (xs ys : List Int) :
    MultiDelete.release w (xs ++ ys) =
      match MultiDelete.release w xs with
      | (some ex, w1) => (some ex, w1)
      | (none, w1) => MultiDelete.release w1 ys := by
  induction xs generalizing w with
  | nil => simp [MultiDelete.release]
  | cons x xs ih =>
    rw [List.cons_append, MultiDelete.release_cons, MultiDelete.release_cons]
    cases hrel : releaseRecord w x with
    | mk r w1 =>
      cases r with
      | some ex => rfl
      | none => exact ih w1

/-- The calls of the artifact phase of `MultiDelete`: lookups of listed ids
and deletions of artifacts of the records found for them; the table is not
touched, and a failure is the outcome of the last call made. -/
theorem MultiDelete.release_trace (ids : List Int) :
    ∀ w : World, (MultiDelete.release w ids).2.rows = w.rows ∧
      ∃ evs, (MultiDelete.release w ids).2.log = w.log ++ evs ∧
        (∀ ev ∈ evs, (∃ i ∈ ids, ev.call = .repoGet i) ∨
          (∃ i ∈ ids, ∃ pro, w.rows.find? (fun r => r.ID = i) = some pro ∧
            ∃ ref ∈ pro.artifacts, ev.call = .objDelete ref)) ∧
        (∀ ex, (MultiDelete.release w ids).1 = some ex →
          ∃ c, evs.getLast? = some ⟨c, some ex⟩) := by
  induction ids with
  | nil =>
    intro w
    exact ⟨rfl, [], by simp [MultiDelete.release], by simp, by simp [MultiDelete.release]⟩
  | cons id rest ih =>
    intro w
    rw [MultiDelete.release_cons]
    rcases releaseRecord_spec w id with ⟨ex, hr, -⟩ | ⟨pro, hf, -, hcase⟩
    · rw [hr]
      refine ⟨rfl, [⟨.repoGet id, some ex⟩], by simp, ?_, ?_⟩
      · intro ev hev
        simp at hev
        subst hev
        exact Or.inl ⟨id, by simp, rfl⟩
      · intro ex' h
        simp at h
        subst h
        exact ⟨_, rfl⟩
    · rcases hcase with ⟨ex, w', done, ref, rest', hr, hsplit, hrows, -, hlog⟩ |
        ⟨w', hr, hrows, -, hlog⟩
      · rw [hr]
        refine ⟨hrows, _, hlog, ?_, ?_⟩
        · intro ev hev
          simp [deleted] at hev
          rcases hev with rfl | ⟨a, ha, rfl⟩ | rfl
          · exact Or.inl ⟨id, by simp, rfl⟩
          · exact Or.inr ⟨id, by simp, pro, hf, a, by simp [hsplit, ha], rfl⟩
          · exact Or.inr ⟨id, by simp, pro, hf, ref, by simp [hsplit], rfl⟩
        · intro ex' h
          simp at h
          subst h
          refine ⟨.objDelete ref, ?_⟩
          rw [← List.cons_append, List.getLast?_append]
          simp
      · rw [hr]
        simp only []
        obtain ⟨h1, evs, h2, h3, h4⟩ := ih w'
        refine ⟨by rw [h1, hrows], ⟨.repoGet id, none⟩ :: (pro.artifacts.map deleted ++ evs),
          by rw [h2, hlog]; simp, ?_, ?_⟩
        · intro ev hev
          simp [deleted] at hev
          rcases hev with rfl | ⟨a, ha, rfl⟩ | hev
          · exact Or.inl ⟨id, by simp, rfl⟩
          · exact Or.inr ⟨id, by simp, pro, hf, a, ha, rfl⟩
          · rcases h3 ev hev with ⟨i, hi, h⟩ | ⟨i, hi, p, hp, h⟩
            · exact Or.inl ⟨i, by simp [hi], h⟩
            · exact Or.inr ⟨i, by simp [hi], p, by rw [← hrows]; exact hp, h⟩
        · intro ex' h
          obtain ⟨c, hc⟩ := h4 ex' h
          refine ⟨c, ?_⟩
          rw [← List.cons_append, List.getLast?_append, hc]
          simp

end Lpms

namespace Lpms

/-! ## Rejection of malformed id lists -/

theorem ParseUint.loop_ok_digits (cs : List Char) :
    ∀ (n m : Nat), ParseUint.loop cs n = .ok m → ∀ c ∈ cs, isDecimalDigit c := by
  induction cs with
  | nil => intro n m _ c hc; cases hc
  | cons c cs ih =>
    intro n m h d hd
    unfold ParseUint.loop at h
    by_cases hdig : '0' ≤ c ∧ c ≤ '9'
    · rw [if_pos hdig] at h
      split_ifs at h
      rcases List.mem_cons.1 hd with rfl | hd'
      · exact hdig
      · exact ih _ m h d hd'
    · rw [if_neg hdig] at h
      cases h

theorem ParseUint_ok_decimal (s : String) (n : Nat) (h : ParseUint s = .ok n) :
    isUnsignedDecimal s := by
  unfold ParseUint at h
  by_cases he : s = ""
  · rw [if_pos he] at h; cases h
  · rw [if_neg he] at h
    exact ⟨he, ParseUint.loop_ok_digits s.toList 0 n h⟩

theorem parseIDs_rejects (pieces : List String)
    (hbad : ∃ s ∈ pieces, ¬ isUnsignedDecimal s) :
    ∃ err, parseIDs pieces = .error (.ParseStringToInt64Error err) := by
  induction pieces with
  | nil => obtain ⟨s, hs, -⟩ := hbad; cases hs
  | cons p ps ih =>
    unfold parseIDs
    cases hp : ParseUint p with
    | error err => exact ⟨err, rfl⟩
    | ok n =>
      have hpok := ParseUint_ok_decimal p n hp
      obtain ⟨s, hs, hns⟩ := hbad
      rcases List.mem_cons.1 hs with rfl | hs'
      · exact absurd hpok hns
      · obtain ⟨err, herr⟩ := ih ⟨s, hs', hns⟩
        exact ⟨err, by simp only [herr]⟩

/-- C10: for the empty ids string and for every ids string with a
comma-separated element that is not a base-10 unsigned integer, `MultiDelete`
and `MultiSubmission` fail with an invalid-argument error (the parse error
`ExceptionParseStringToInt64Error`), and return in the world they were called
in: no persistence or object-store call was made, nothing was read, mutated
or deleted. -/
theorem bulk_operations_reject_malformed_ids
    (repoMultiSubmission : World → List Int → FieldMap → Option Exception × World)
    (w : World) (openID ids : String)
    (hbad : ids = "" ∨ ∃ s ∈ Split ids, ¬ isUnsignedDecimal s) :
    ∃ err, (Exception.ParseStringToInt64Error err).kind = .InvalidArgument ∧
      MultiDelete w ids = (some (.ParseStringToInt64Error err), w) ∧
      MultiSubmission repoMultiSubmission w openID ids =
        (some (.ParseStringToInt64Error err), w) := by
  have hbad' : ∃ s ∈ Split ids, ¬ isUnsignedDecimal s := by
    rcases hbad with rfl | h
    · exact ⟨"", by decide, by decide⟩
    · exact h
  obtain ⟨err, herr⟩ := parseIDs_rejects (Split ids) hbad'
  refine ⟨err, rfl, ?_, ?_⟩
  · unfold MultiDelete
    simp only [if_neg (Split_length_ne_zero ids), herr]
  · unfold MultiSubmission
    simp only [if_neg (Split_length_ne_zero ids), herr]

theorem bulk_operations_reject_malformed_ids_witness :
    (∃ err, (Exception.ParseStringToInt64Error err).kind = .InvalidArgument ∧
      MultiDelete sampleWorld "1,x,3" = (some (.ParseStringToInt64Error err), sampleWorld) ∧
      MultiSubmission (fun w _ _ => (none, w)) sampleWorld "me" "1,x,3" =
        (some (.ParseStringToInt64Error err), sampleWorld))
    ∧ (∃ err, (Exception.ParseStringToInt64Error err).kind = .InvalidArgument ∧
      MultiDelete sampleWorld "" = (some (.ParseStringToInt64Error err), sampleWorld) ∧
      MultiSubmission (fun w _ _ => (none, w)) sampleWorld "me" "" =
        (some (.ParseStringToInt64Error err), sampleWorld)) :=
  ⟨bulk_operations_reject_malformed_ids (fun w _ _ => (none, w)) sampleWorld "me" "1,x,3"
     (Or.inr ⟨"x", by decide, by decide⟩),
   bulk_operations_reject_malformed_ids (fun w _ _ => (none, w)) sampleWorld "me" ""
     (Or.inl rfl)⟩

end Lpms

namespace Lpms

/-! ## The grouping loop of DataAnalysis -/

theorem DataMap.appendAt_keys (m : DataMap) (key : String) (item : AnalysisData) :
    (m.appendAt key item).keys = if key ∈ m.keys then m.keys else m.keys ++ [key] := by
  induction m with
  | nil => simp [DataMap.appendAt, DataMap.keys]
  | cons kv rest ih =>
    obtain ⟨k, v⟩ := kv
    unfold DataMap.appendAt
    by_cases hk : k = key
    · subst hk
      simp [DataMap.keys]
    · rw [if_neg hk]
      have hk' : ¬ key = k := fun e => hk e.symm
      simp only [DataMap.keys, List.map_cons, List.mem_cons, hk', false_or] at ih ⊢
      rw [ih]
      split_ifs <;> simp

theorem DataMap.appendAt_get (m : DataMap) (key : String) (item : AnalysisData) (k : String) :
    (m.appendAt key item).get k = if k = key then m.get k ++ [item] else m.get k := by
  induction m with
  | nil =>
    by_cases h : k = key
    · simp [DataMap.appendAt, DataMap.get, h]
    · have h' : ¬ key = k := fun e => h e.symm
      simp [DataMap.appendAt, DataMap.get, h, h']
  | cons kv rest ih =>
    obtain ⟨k0, v⟩ := kv
    unfold DataMap.appendAt
    by_cases hk : k0 = key
    · subst hk
      by_cases h : k = k0
      · subst h; simp [DataMap.get]
      · have h' : ¬ k0 = k := fun e => h e.symm
        simp [DataMap.get, h, h']
    · rw [if_neg hk]
      by_cases h0 : k0 = k
      · subst h0
        simp [DataMap.get, hk]
      · simp only [DataMap.get, if_neg h0]
        exact ih

theorem DataMap.eq_of_nodup (m : DataMap) (h : m.keys.Nodup) :
    m = m.keys.map (fun k => (k, m.get k)) := by
  induction m with
  | nil => rfl
  | cons kv rest ih =>
    obtain ⟨k, v⟩ := kv
    simp only [DataMap.keys, List.map_cons, List.nodup_cons] at h ⊢
    obtain ⟨hk, hnd⟩ := h
    have ih' := ih hnd
    simp only [DataMap.get, if_true]
    congr 1
    conv_lhs => rw [ih']
    simp only [DataMap.keys, List.map_map]
    apply List.map_congr_left
    intro kv' hkv'
    have hne : ¬ k = kv'.1 := fun e => hk (e ▸ List.mem_map_of_mem Prod.fst hkv')
    simp [DataMap.get, hne]

theorem group_fold_keys (res : List ReserveAnalysis) :
    ∀ m : DataMap,
      (res.foldl (fun dataMap r => dataMap.appendAt r.Bucket ⟨r.Status, r.Count⟩) m).keys =
        res.foldl (fun seen r => if r.Bucket ∈ seen then seen else seen ++ [r.Bucket])
          m.keys := by
  induction res with
  | nil => intro m; rfl
  | cons r rs ih =>
    intro m
    simp only [List.foldl_cons]
    rw [ih, DataMap.appendAt_keys]

theorem group_fold_get (res : List ReserveAnalysis) :
    ∀ (m : DataMap) (k : String),
      (res.foldl (fun dataMap r => dataMap.appendAt r.Bucket ⟨r.Status, r.Count⟩) m).get k =
        m.get k ++ bucketData res k := by
  induction res with
  | nil => intro m k; simp [bucketData]
  | cons r rs ih =>
    intro m k
    simp only [List.foldl_cons]
    rw [ih, DataMap.appendAt_get]
    by_cases h : k = r.Bucket
    · subst h
      simp [bucketData, List.filter_cons]
    · have h' : ¬ r.Bucket = k := fun e => h e.symm
      simp [bucketData, List.filter_cons, h, h']

theorem seen_fold (res : List ReserveAnalysis) :
    ∀ seen : List String, seen.Nodup →
      (res.foldl (fun seen r => if r.Bucket ∈ seen then seen else seen ++ [r.Bucket])
          seen).Nodup ∧
      ∀ b, b ∈ res.foldl (fun seen r => if r.Bucket ∈ seen then seen else seen ++ [r.Bucket])
          seen ↔ b ∈ seen ∨ b ∈ res.map (fun r => r.Bucket) := by
  induction res with
  | nil => intro seen h; exact ⟨h, by simp⟩
  | cons r rs ih =>
    intro seen h
    simp only [List.foldl_cons]
    by_cases hr : r.Bucket ∈ seen
    · rw [if_pos hr]
      obtain ⟨h1, h2⟩ := ih seen h
      refine ⟨h1, fun b => ?_⟩
      rw [h2]
      simp only [List.map_cons, List.mem_cons]
      constructor
      · rintro (h | h)
        · exact Or.inl h
        · exact Or.inr (Or.inr h)
      · rintro (h | rfl | h)
        · exact Or.inl h
        · exact Or.inl hr
        · exact Or.inr h
    · rw [if_neg hr]
      have hnd : (seen ++ [r.Bucket]).Nodup := by
        rw [List.nodup_append]
        refine ⟨h, by simp, ?_⟩
        intro a ha hb
        simp at hb
        exact hr (hb ▸ ha)
      obtain ⟨h1, h2⟩ := ih _ hnd
      refine ⟨h1, fun b => ?_⟩
      rw [h2]
      simp only [List.map_cons, List.mem_cons, List.mem_append, List.mem_singleton]
      tauto

theorem firstSeen_nodup (res : List ReserveAnalysis) : (firstSeen res).Nodup :=
  (seen_fold res [] List.nodup_nil).1

theorem mem_firstSeen (res : List ReserveAnalysis) (b : String) :
    b ∈ firstSeen res ↔ b ∈ res.map (fun r => r.Bucket) := by
  have := (seen_fold res [] List.nodup_nil).2 b
  simpa [firstSeen] using this

theorem group_keys (res : List ReserveAnalysis) : (DataAnalysis.group res).keys = firstSeen res :=
  group_fold_keys res []

theorem group_eq (res : List ReserveAnalysis) :
    DataAnalysis.group res = (firstSeen res).map (fun k => (k, bucketData res k)) := by
  have h := DataMap.eq_of_nodup (DataAnalysis.group res)
    (by rw [group_keys]; exact firstSeen_nodup res)
  rw [group_keys] at h
  rw [h]
  apply List.map_congr_left
  intro k _
  have := group_fold_get res [] k
  simp only [DataMap.get, List.nil_append] at this
  exact congrArg (Prod.mk k) this

end Lpms

namespace Lpms

/-! ## Totals in `int64` -/

theorem wrapInt64_add (a c : Int) : wrapInt64 (wrapInt64 a + c) = wrapInt64 (a + c) := by
  unfold wrapInt64
  have h : (a + 2 ^ 63) % 2 ^ 64 - 2 ^ 63 + c + 2 ^ 63 = (a + 2 ^ 63) % 2 ^ 64 + c := by ring
  rw [h, Int.emod_add_emod]
  congr 2
  ring

theorem wrapInt64_of_range (x : Int) (hlo : -2 ^ 63 ≤ x) (hhi : x < 2 ^ 63) :
    wrapInt64 x = x := by
  unfold wrapInt64
  omega

theorem total_fold (value : List AnalysisData) :
    ∀ a : Int, value.foldl (fun total d => wrapInt64 (total + d.Count)) (wrapInt64 a) =
      wrapInt64 (a + (value.map (fun d => d.Count)).sum) := by
  induction value with
  | nil => intro a; simp
  | cons d ds ih =>
    intro a
    simp only [List.foldl_cons, List.map_cons, List.sum_cons]
    rw [wrapInt64_add, ih]
    congr 1
    ring

theorem total_eq (value : List AnalysisData) :
    DataAnalysis.total value = wrapInt64 (value.map (fun d => d.Count)).sum := by
  have h := total_fold value 0
  have h0 : wrapInt64 0 = 0 := by unfold wrapInt64; omega
  rw [h0] at h
  unfold DataAnalysis.total
  rw [h]
  simp

theorem total_bucketData (res : List ReserveAnalysis) (b : String) :
    DataAnalysis.total (bucketData res b) = wrapInt64 (bucketSum res b) := by
  rw [total_eq]
  simp [bucketData, bucketSum, List.map_map, Function.comp_def]

/-- The result of `DataAnalysis` is a rearrangement of the entries listed in
the order of first encounter. -/
theorem DataAnalysis_perm (rng : MapRange) (res : List ReserveAnalysis) :
    ∃ resp, DataAnalysis rng (.ok res) = .ok resp ∧ resp.Perm (inFirstSeenOrder res) := by
  refine ⟨_, rfl, ?_⟩
  have h := (rng.perm (DataAnalysis.group res)).map
    (fun kv : String × List AnalysisData =>
      ({ Bucket := kv.1, Total := DataAnalysis.total kv.2, Data := kv.2 } : ReserveAnalysisResp))
  refine h.trans ?_
  rw [group_eq, inFirstSeenOrder, List.map_map]
  apply List.Perm.of_eq
  apply List.map_congr_left
  intro b _
  simp [total_bucketData]

/-- Every entry of the result of `DataAnalysis` holds the (Status, Count)
pairs of the raw rows of its bucket, in input order, and as Total the sum of
their counts as the `int64` accumulator holds it. -/
theorem DataAnalysis_entry_int64 (rng : MapRange) (res : List ReserveAnalysis) :
    ∃ resp, DataAnalysis rng (.ok res) = .ok resp ∧
      ∀ e ∈ resp,
        e.Data = (res.filter (fun r => r.Bucket = e.Bucket)).map (fun r => ⟨r.Status, r.Count⟩)
        ∧ e.Total = wrapInt64
            ((res.filter (fun r => r.Bucket = e.Bucket)).map (fun r => r.Count)).sum := by
  obtain ⟨resp, hresp, hperm⟩ := DataAnalysis_perm rng res
  refine ⟨resp, hresp, ?_⟩
  intro e he
  have he' := hperm.mem_iff.1 he
  unfold inFirstSeenOrder at he'
  obtain ⟨b, -, rfl⟩ := List.mem_map.1 he'
  exact ⟨rfl, rfl⟩

/-- The counts of the rows of one bucket add up to a number between zero and
the sum of all counts, when no count is negative. -/
theorem filter_sum_bounds (p : ReserveAnalysis → Bool) (res : List ReserveAnalysis)
    (hpos : ∀ r ∈ res, 0 ≤ r.Count) :
    0 ≤ ((res.filter p).map (fun r => r.Count)).sum
      ∧ ((res.filter p).map (fun r => r.Count)).sum ≤ (res.map (fun r => r.Count)).sum := by
  induction res with
  | nil => simp
  | cons r rs ih =>
    obtain ⟨h0, h1⟩ := ih (fun x hx => hpos x (List.mem_cons_of_mem _ hx))
    have hr : 0 ≤ r.Count := hpos r (List.mem_cons_self _ _)
    by_cases hp : p r = true
    · rw [List.filter_cons_of_pos hp]
      simp only [List.map_cons, List.sum_cons]
      omega
    · rw [List.filter_cons_of_neg hp]
      simp only [List.map_cons, List.sum_cons]
      omega

/-- C7: for every list of raw (bucket, status, count) rows returned by the
grouped query, whose counts are numbers of stored records, every entry of
the result of `DataAnalysis` has Total equal to the sum of Count over all raw
rows whose Bucket is the entry's Bucket, and Data equal to the
(Status, Count) pairs of exactly those rows, in the order the rows appear in
the input. -/
theorem DataAnalysis_entry_of_bucket (rng : MapRange) (res : List ReserveAnalysis)
    (hres : countsStoredRecords res) :
    ∃ resp, DataAnalysis rng (.ok res) = .ok resp ∧
      ∀ e ∈ resp,
        e.Total = ((res.filter (fun r => r.Bucket = e.Bucket)).map (fun r => r.Count)).sum
        ∧ e.Data =
            (res.filter (fun r => r.Bucket = e.Bucket)).map (fun r => ⟨r.Status, r.Count⟩) := by
  obtain ⟨resp, hresp, hall⟩ := DataAnalysis_entry_int64 rng res
  refine ⟨resp, hresp, ?_⟩
  intro e he
  obtain ⟨hdata, htotal⟩ := hall e he
  obtain ⟨h0, h1⟩ := filter_sum_bounds (fun r => r.Bucket = e.Bucket) res hres.1
  have h2 := hres.2
  refine ⟨?_, hdata⟩
  rw [htotal]
  exact wrapInt64_of_range _ (by omega) (by omega)

theorem DataAnalysis_entry_of_bucket_witness :
    countsStoredRecords exampleRows
      ∧ DataAnalysis insertionOrder (.ok exampleRows) =
          .ok [⟨"Q1", 5, [⟨"EnteredDB", 3⟩, ⟨"EarlyPlan", 2⟩]⟩, ⟨"Q2", 1, [⟨"EnteredDB", 1⟩]⟩]
      ∧ ∃ resp, DataAnalysis insertionOrder (.ok exampleRows) = .ok resp ∧
          ∀ e ∈ resp,
            e.Total =
                ((exampleRows.filter (fun r => r.Bucket = e.Bucket)).map (fun r => r.Count)).sum
            ∧ e.Data =
                (exampleRows.filter (fun r => r.Bucket = e.Bucket)).map
                  (fun r => ⟨r.Status, r.Count⟩) :=
  ⟨by decide, by decide, DataAnalysis_entry_of_bucket insertionOrder exampleRows (by decide)⟩

/-- C8: the result of `DataAnalysis` contains exactly one entry for each
distinct Bucket value occurring in the raw rows and no entry for any other
bucket; for the empty list of raw rows the result is the empty list. -/
theorem DataAnalysis_one_entry_per_bucket (rng : MapRange) (res : List ReserveAnalysis) :
    ∃ resp, DataAnalysis rng (.ok res) = .ok resp ∧
      (resp.map (fun e => e.Bucket)).Nodup ∧
      (∀ b, b ∈ resp.map (fun e => e.Bucket) ↔ b ∈ res.map (fun r => r.Bucket)) ∧
      (∀ b ∈ res.map (fun r => r.Bucket), (resp.filter (fun e => e.Bucket = b)).length = 1) ∧
      (res = [] → resp = []) := by
  obtain ⟨resp, hresp, hperm⟩ := DataAnalysis_perm rng res
  have hkeys : (resp.map (fun e => e.Bucket)).Perm (firstSeen res) := by
    have h := hperm.map (fun e : ReserveAnalysisResp => e.Bucket)
    simpa [inFirstSeenOrder, List.map_map, Function.comp_def] using h
  have hnd : (resp.map (fun e => e.Bucket)).Nodup := hkeys.nodup_iff.2 (firstSeen_nodup res)
  have hmem : ∀ b, b ∈ resp.map (fun e => e.Bucket) ↔ b ∈ res.map (fun r => r.Bucket) :=
    fun b => (hkeys.mem_iff).trans (mem_firstSeen res b)
  refine ⟨resp, hresp, hnd, hmem, ?_, ?_⟩
  · intro b hb
    have hb' := (hmem b).2 hb
    have hcount : (resp.map (fun e => e.Bucket)).count b = 1 :=
      List.count_eq_one_of_mem hnd hb'
    rw [List.count, List.countP_map, List.countP_eq_length_filter] at hcount
    rw [← hcount]
    congr 1
  · rintro rfl
    have h := hperm
    simp [inFirstSeenOrder, firstSeen] at h
    exact h

end Lpms

namespace Lpms

theorem DataAnalysis_insertionOrder (res : List ReserveAnalysis) :
    DataAnalysis insertionOrder (.ok res) = .ok (inFirstSeenOrder res) := by
  unfold DataAnalysis insertionOrder
  simp only [id]
  rw [group_eq, inFirstSeenOrder, List.map_map]
  congr 1
  apply List.map_congr_left
  intro b _
  simp [total_bucketData]

theorem perm_pair {α : Type} (l : List α) (a b : α) (h : l.Perm [a, b]) :
    l = [a, b] ∨ l = [b, a] := by
  have hlen := h.length_eq
  match l, hlen, h with
  | [x, y], _, h =>
    have hx : x = a ∨ x = b := by simpa using h.mem_iff.1 (List.mem_cons_self x [y])
    have hy : y = a ∨ y = b := by
      simpa using h.mem_iff.1 (List.mem_cons_of_mem x (List.mem_cons_self y []))
    have ha : a = x ∨ a = y := by simpa using h.mem_iff.2 (List.mem_cons_self a [b])
    have hb : b = x ∨ b = y := by
      simpa using h.mem_iff.2 (List.mem_cons_of_mem a (List.mem_cons_self b []))
    rcases hx with hx | hx
    · rcases hy with hy | hy
      · rcases hb with hb | hb
        · left; rw [hx, hy, hb, hx]
        · left; rw [hx, hy, hb, hy]
      · left; rw [hx, hy]
    · rcases hy with hy | hy
      · right; rw [hx, hy]
      · rcases ha with ha | ha
        · left; rw [hx, hy, ha, hx]
        · left; rw [hx, hy, ha, hy]

/-- C9 (as amended): `DataAnalysis` lists the buckets in the order in which
the iteration over its Go map visits them, which the language leaves
unspecified: its result is a rearrangement of the list that has the buckets
in the order of first encounter, and it is that list when the iteration
follows insertion order.  For the raw rows
[(Q1,EnteredDB,3),(Q1,EarlyPlan,2),(Q2,EnteredDB,1)] the result is
[{Q1, total 5, data [(EnteredDB,3),(EarlyPlan,2)]}, {Q2, total 1, data
[(EnteredDB,1)]}] in this or in the opposite order. -/
theorem DataAnalysis_rearranges_first_seen (rng : MapRange) (res : List ReserveAnalysis) :
    (∃ resp, DataAnalysis rng (.ok res) = .ok resp ∧ resp.Perm (inFirstSeenOrder res))
    ∧ DataAnalysis insertionOrder (.ok res) = .ok (inFirstSeenOrder res)
    ∧ (DataAnalysis rng (.ok exampleRows) =
          .ok [⟨"Q1", 5, [⟨"EnteredDB", 3⟩, ⟨"EarlyPlan", 2⟩]⟩, ⟨"Q2", 1, [⟨"EnteredDB", 1⟩]⟩]
        ∨ DataAnalysis rng (.ok exampleRows) =
          .ok [⟨"Q2", 1, [⟨"EnteredDB", 1⟩]⟩,
               ⟨"Q1", 5, [⟨"EnteredDB", 3⟩, ⟨"EarlyPlan", 2⟩]⟩]) := by
  refine ⟨DataAnalysis_perm rng res, DataAnalysis_insertionOrder res, ?_⟩
  obtain ⟨resp, hresp, hperm⟩ := DataAnalysis_perm rng exampleRows
  have hex : inFirstSeenOrder exampleRows =
      [⟨"Q1", 5, [⟨"EnteredDB", 3⟩, ⟨"EarlyPlan", 2⟩]⟩, ⟨"Q2", 1, [⟨"EnteredDB", 1⟩]⟩] := by
    decide
  rw [hex] at hperm
  rw [hresp]
  rcases perm_pair resp _ _ hperm with h | h
  · exact Or.inl (by rw [h])
  · exact Or.inr (by rw [h])

/-- C9 fails as stated: when the iteration over the map visits the entries
in reverse insertion order, the result for the example rows lists `Q2`
before `Q1`, so it is not the list in first-encounter order, and the result
is not a function of the raw rows alone. -/
theorem DataAnalysis_order_not_first_seen :
    DataAnalysis reversedOrder (.ok exampleRows) =
        .ok [⟨"Q2", 1, [⟨"EnteredDB", 1⟩]⟩, ⟨"Q1", 5, [⟨"EnteredDB", 3⟩, ⟨"EarlyPlan", 2⟩]⟩]
      ∧ DataAnalysis reversedOrder (.ok exampleRows) ≠
        .ok [⟨"Q1", 5, [⟨"EnteredDB", 3⟩, ⟨"EarlyPlan", 2⟩]⟩, ⟨"Q2", 1, [⟨"EnteredDB", 1⟩]⟩]
      ∧ DataAnalysis reversedOrder (.ok exampleRows) ≠
        DataAnalysis insertionOrder (.ok exampleRows) := by
  decide

end Lpms

namespace Lpms

/-! ## Status transitions -/

theorem setColumn_ID (r : Reserve) (kv : String × Value) : (r.setColumn kv).ID = r.ID := by
  unfold Reserve.setColumn
  split <;> split_ifs <;> rfl

theorem applyFields_ID (fields : FieldMap) : ∀ r : Reserve, (r.applyFields fields).ID = r.ID := by
  induction fields with
  | nil => intro r; rfl
  | cons kv rest ih =>
    intro r
    have h := ih (r.setColumn kv)
    simp only [Reserve.applyFields, List.foldl_cons] at h ⊢
    rw [h, setColumn_ID]

theorem find?_map_applyFields (rows : List Reserve) (id : Int) (fields : FieldMap) :
    (rows.map (fun r => if r.ID = id then r.applyFields fields else r)).find?
        (fun r => r.ID = id) =
      (rows.find? (fun r => r.ID = id)).map (fun r => r.applyFields fields) := by
  induction rows with
  | nil => rfl
  | cons r rs ih =>
    by_cases h : r.ID = id
    · simp [List.find?_cons, h, applyFields_ID]
    · rw [List.map_cons, if_neg h, List.find?_cons, List.find?_cons]
      simp only [h, decide_False]
      exact ih

theorem applyFields_refer (r : Reserve) (openID : String) :
    r.applyFields [("update_by", .str openID), ("status", .status .EnteredDB)] =
      { r with UpdateBy := openID, Status := .EnteredDB } := by
  simp [Reserve.applyFields, Reserve.setColumn]

theorem applyFields_submission (r : Reserve) (openID : String) (req : SubmissionOutStorage) :
    r.applyFields
        [("update_by", .str openID), ("status", .status .EarlyPlan),
         ("is_case_finish", .bool req.IsCaseFinish), ("is_research", .bool req.IsResearch)] =
      { r with UpdateBy := openID, Status := .EarlyPlan, IsCaseFinish := req.IsCaseFinish,
               IsResearch := req.IsResearch } := by
  simp [Reserve.applyFields, Reserve.setColumn]

theorem applyFields_outStorage (r : Reserve) (openID : String) (req : SubmissionOutStorage) :
    r.applyFields
        [("update_by", .str openID), ("status", .status .OutStorageInspect),
         ("is_case_finish", .bool req.IsCaseFinish), ("is_research", .bool req.IsResearch)] =
      { r with UpdateBy := openID, Status := .OutStorageInspect,
               IsCaseFinish := req.IsCaseFinish, IsResearch := req.IsResearch } := by
  simp [Reserve.applyFields, Reserve.setColumn]

theorem applyFields_multiSubmission (r : Reserve) (openID : String) :
    r.applyFields [("update_by", .str openID), ("status", .status .EarlyPlan)] =
      { r with UpdateBy := openID, Status := .EarlyPlan } := by
  simp [Reserve.applyFields, Reserve.setColumn]

/-- C14: whatever the persistence collaborator is, `Refer`, `Submission` and
`OutStorage` hand it a field update that sets `status` to EnteredDB,
EarlyPlan and OutStorageInspect respectively and `update_by` to the caller's
identity; `Submission` and `OutStorage` additionally set `is_case_finish`
and `is_research` to the request's IsCaseFinish and IsResearch; written to a
record, the update changes these fields and no other. -/
theorem transitions_hand_over_exact_fields (repo : RepoTransition) (w : World)
    (openID : String) (id : Int) (req : SubmissionOutStorage) (r : Reserve) :
    (Refer repo w openID id =
        repo w id [("update_by", .str openID), ("status", .status .EnteredDB)]
      ∧ r.applyFields [("update_by", .str openID), ("status", .status .EnteredDB)] =
        { r with UpdateBy := openID, Status := .EnteredDB })
    ∧ (Submission repo w openID id req =
        repo w id [("update_by", .str openID), ("status", .status .EarlyPlan),
          ("is_case_finish", .bool req.IsCaseFinish), ("is_research", .bool req.IsResearch)]
      ∧ r.applyFields [("update_by", .str openID), ("status", .status .EarlyPlan),
          ("is_case_finish", .bool req.IsCaseFinish), ("is_research", .bool req.IsResearch)] =
        { r with UpdateBy := openID, Status := .EarlyPlan, IsCaseFinish := req.IsCaseFinish,
                 IsResearch := req.IsResearch })
    ∧ (OutStorage repo w openID id req =
        repo w id [("update_by", .str openID), ("status", .status .OutStorageInspect),
          ("is_case_finish", .bool req.IsCaseFinish), ("is_research", .bool req.IsResearch)]
      ∧ r.applyFields [("update_by", .str openID), ("status", .status .OutStorageInspect),
          ("is_case_finish", .bool req.IsCaseFinish), ("is_research", .bool req.IsResearch)] =
        { r with UpdateBy := openID, Status := .OutStorageInspect,
                 IsCaseFinish := req.IsCaseFinish, IsResearch := req.IsResearch }) :=
  ⟨⟨rfl, applyFields_refer r openID⟩, ⟨rfl, applyFields_submission r openID req⟩,
    ⟨rfl, applyFields_outStorage r openID req⟩⟩

/-- The outcome of a single-record transition on a stored record. -/
theorem transitionRow_found (src : Status) (rows : List Reserve) (id : Int) (fields : FieldMap)
    (r : Reserve) (hr : rows.find? (fun r => r.ID = id) = some r) :
    (r.Status = src →
        transitionRow src rows id fields =
          .ok (rows.map (fun r => if r.ID = id then r.applyFields fields else r)))
    ∧ (r.Status ≠ src → transitionRow src rows id fields = .error (.InvalidTransition id)) := by
  unfold transitionRow
  rw [hr]
  constructor
  · intro h; simp [h]
  · intro h; simp [h]

/-- A transition call through a collaborator that first consults the gate
(when there is one), then looks the record up and checks its status. -/
theorem gated_call_found (gate : Gate) (w : World) (id : Int) (fields : FieldMap) (r : Reserve)
    (hr : w.rows.find? (fun r => r.ID = id) = some r) (hnf : w.injected = none)
    (hopen : gate.IsOpen = true) :
    ((r.Status = .Draft →
        repoRefer w id fields = (none, (w.record (.repoRefer id fields) none).withRows
          (w.rows.map (fun r => if r.ID = id then r.applyFields fields else r))))
      ∧ (r.Status ≠ .Draft →
        repoRefer w id fields = (some (.InvalidTransition id),
          w.record (.repoRefer id fields) (some (.InvalidTransition id)))))
    ∧ ((r.Status = .EnteredDB →
        repoSubmission gate w id fields =
          (none, (w.record (.repoSubmission id fields) none).withRows
            (w.rows.map (fun r => if r.ID = id then r.applyFields fields else r))))
      ∧ (r.Status ≠ .EnteredDB →
        repoSubmission gate w id fields = (some (.InvalidTransition id),
          w.record (.repoSubmission id fields) (some (.InvalidTransition id)))))
    ∧ ((r.Status = .EarlyPlan →
        repoOutStorage gate w id fields =
          (none, (w.record (.repoOutStorage id fields) none).withRows
            (w.rows.map (fun r => if r.ID = id then r.applyFields fields else r))))
      ∧ (r.Status ≠ .EarlyPlan →
        repoOutStorage gate w id fields = (some (.InvalidTransition id),
          w.record (.repoOutStorage id fields) (some (.InvalidTransition id))))) := by
  refine ⟨⟨?_, ?_⟩, ⟨?_, ?_⟩, ⟨?_, ?_⟩⟩
  · intro h
    simp only [repoRefer, hnf, (transitionRow_found .Draft w.rows id fields r hr).1 h]
  · intro h
    simp only [repoRefer, hnf, (transitionRow_found .Draft w.rows id fields r hr).2 h]
  · intro h
    simp [repoSubmission, hopen, hnf, (transitionRow_found .EnteredDB w.rows id fields r hr).1 h]
  · intro h
    simp [repoSubmission, hopen, hnf, (transitionRow_found .EnteredDB w.rows id fields r hr).2 h]
  · intro h
    simp [repoOutStorage, hopen, hnf, (transitionRow_found .EarlyPlan w.rows id fields r hr).1 h]
  · intro h
    simp [repoOutStorage, hopen, hnf, (transitionRow_found .EarlyPlan w.rows id fields r hr).2 h]

end Lpms

namespace Lpms

/-- C11: with the status check modelled from the spec, a transition on a
stored record (no external failure, the window open for the gated ones)
succeeds only from the status it starts from (`Refer` from Draft,
`Submission` from EnteredDB, `OutStorage` from EarlyPlan) and then moves the
record to the next status of the lifecycle; called on a record in any other
status it fails with InvalidTransition and leaves the table unchanged. -/
theorem status_moves_one_step (gate : Gate) (w : World) (openID : String) (id : Int)
    (req : SubmissionOutStorage) (r : Reserve)
    (hr : w.rows.find? (fun r => r.ID = id) = some r) (hnf : w.injected = none)
    (hopen : gate.IsOpen = true) :
    (((Refer repoRefer w openID id).1 = none ↔ r.Status = .Draft)
      ∧ (r.Status = .Draft →
          ∃ r', (Refer repoRefer w openID id).2.rows.find? (fun r => r.ID = id) = some r' ∧
            r'.Status = .EnteredDB ∧ r.Status.next = some r'.Status)
      ∧ (r.Status ≠ .Draft →
          (Refer repoRefer w openID id).1 = some (.InvalidTransition id) ∧
          (Refer repoRefer w openID id).2.rows = w.rows))
    ∧ (((Submission (repoSubmission gate) w openID id req).1 = none ↔ r.Status = .EnteredDB)
      ∧ (r.Status = .EnteredDB →
          ∃ r', (Submission (repoSubmission gate) w openID id req).2.rows.find?
              (fun r => r.ID = id) = some r' ∧
            r'.Status = .EarlyPlan ∧ r.Status.next = some r'.Status)
      ∧ (r.Status ≠ .EnteredDB →
          (Submission (repoSubmission gate) w openID id req).1 = some (.InvalidTransition id) ∧
          (Submission (repoSubmission gate) w openID id req).2.rows = w.rows))
    ∧ (((OutStorage (repoOutStorage gate) w openID id req).1 = none ↔ r.Status = .EarlyPlan)
      ∧ (r.Status = .EarlyPlan →
          ∃ r', (OutStorage (repoOutStorage gate) w openID id req).2.rows.find?
              (fun r => r.ID = id) = some r' ∧
            r'.Status = .OutStorageInspect ∧ r.Status.next = some r'.Status)
      ∧ (r.Status ≠ .EarlyPlan →
          (OutStorage (repoOutStorage gate) w openID id req).1 =
            some (.InvalidTransition id) ∧
          (OutStorage (repoOutStorage gate) w openID id req).2.rows = w.rows)) := by
  refine ⟨?_, ?_, ?_⟩
  · obtain ⟨⟨hok, hbad⟩, -, -⟩ := gated_call_found gate w id
      [("update_by", .str openID), ("status", .status .EnteredDB)] r hr hnf hopen
    unfold Refer
    refine ⟨?_, ?_, ?_⟩
    · by_cases h : r.Status = .Draft
      · simp [hok h, h]
      · simp [hbad h, h]
    · intro h
      rw [hok h]
      refine ⟨r.applyFields [("update_by", .str openID), ("status", .status .EnteredDB)],
        ?_, ?_, ?_⟩
      · simp only [World.withRows_rows]
        rw [find?_map_applyFields, hr]; rfl
      · rw [applyFields_refer]
      · rw [applyFields_refer, h]; rfl
    · intro h
      rw [hbad h]
      exact ⟨rfl, rfl⟩
  · obtain ⟨-, ⟨hok, hbad⟩, -⟩ := gated_call_found gate w id
      [("update_by", .str openID), ("status", .status .EarlyPlan),
       ("is_case_finish", .bool req.IsCaseFinish), ("is_research", .bool req.IsResearch)]
      r hr hnf hopen
    unfold Submission
    refine ⟨?_, ?_, ?_⟩
    · by_cases h : r.Status = .EnteredDB
      · simp [hok h, h]
      · simp [hbad h, h]
    · intro h
      rw [hok h]
      refine ⟨r.applyFields [("update_by", .str openID), ("status", .status .EarlyPlan),
        ("is_case_finish", .bool req.IsCaseFinish), ("is_research", .bool req.IsResearch)],
        ?_, ?_, ?_⟩
      · simp only [World.withRows_rows]
        rw [find?_map_applyFields, hr]; rfl
      · rw [applyFields_submission]
      · rw [applyFields_submission, h]; rfl
    · intro h
      rw [hbad h]
      exact ⟨rfl, rfl⟩
  · obtain ⟨-, -, ⟨hok, hbad⟩⟩ := gated_call_found gate w id
      [("update_by", .str openID), ("status", .status .OutStorageInspect),
       ("is_case_finish", .bool req.IsCaseFinish), ("is_research", .bool req.IsResearch)]
      r hr hnf hopen
    unfold OutStorage
    refine ⟨?_, ?_, ?_⟩
    · by_cases h : r.Status = .EarlyPlan
      · simp [hok h, h]
      · simp [hbad h, h]
    · intro h
      rw [hok h]
      refine ⟨r.applyFields [("update_by", .str openID),
        ("status", .status .OutStorageInspect),
        ("is_case_finish", .bool req.IsCaseFinish), ("is_research", .bool req.IsResearch)],
        ?_, ?_, ?_⟩
      · simp only [World.withRows_rows]
        rw [find?_map_applyFields, hr]; rfl
      · rw [applyFields_outStorage]
      · rw [applyFields_outStorage, h]; rfl
    · intro h
      rw [hbad h]
      exact ⟨rfl, rfl⟩

theorem status_moves_one_step_witness :
    (Submission (repoSubmission openGate) listWorld "me" 5 ⟨true, false⟩).1 = none ∧
      (Submission (repoSubmission openGate) listWorld "me" 1 ⟨true, false⟩).1 =
        some (.InvalidTransition 1) ∧
      (Refer repoRefer listWorld "me" 5).1 = some (.InvalidTransition 5) :=
  ⟨(status_moves_one_step openGate listWorld "me" 5 ⟨true, false⟩ enteredRecord
      (by decide) (by decide) (by decide)).2.1.1.2 (by decide),
   ((status_moves_one_step openGate listWorld "me" 1 ⟨true, false⟩ sampleRecord
      (by decide) (by decide) (by decide)).2.1.2.2 (by decide)).1,
   ((status_moves_one_step openGate listWorld "me" 5 ⟨true, false⟩ enteredRecord
      (by decide) (by decide) (by decide)).1.2.2 (by decide)).1⟩

theorem MultiSubmission_of_parse
    (repo : World → List Int → FieldMap → Option Exception × World)
    (w : World) (openID ids : String) (did : List Int)
    (hparse : parseIDs (Split ids) = .ok did) :
    MultiSubmission repo w openID ids =
      repo w did [("update_by", .str openID), ("status", .status .EarlyPlan)] := by
  unfold MultiSubmission
  simp only [if_neg (Split_length_ne_zero ids), hparse]

/-- C12: with the window gate modelled from the spec, the gated transitions
`Submission`, `OutStorage` and `MultiSubmission` (on a well-formed id list)
fail with WindowClosed and leave the table unchanged when the gate is closed
at the time of the call; when it is open (and no external failure occurs)
they proceed: `Submission` and `OutStorage` move a stored record that is in
their starting status, `MultiSubmission` performs the bulk transition. -/
theorem gated_transitions_respect_window (gate : Gate) (w : World) (openID ids : String)
    (id : Int) (did : List Int) (req : SubmissionOutStorage)
    (hparse : parseIDs (Split ids) = .ok did) :
    (gate.IsOpen = false →
      ((Submission (repoSubmission gate) w openID id req).1 = some .WindowClosed ∧
        (Submission (repoSubmission gate) w openID id req).2.rows = w.rows)
      ∧ ((OutStorage (repoOutStorage gate) w openID id req).1 = some .WindowClosed ∧
        (OutStorage (repoOutStorage gate) w openID id req).2.rows = w.rows)
      ∧ ((MultiSubmission (repoMultiSubmission gate) w openID ids).1 = some .WindowClosed ∧
        (MultiSubmission (repoMultiSubmission gate) w openID ids).2.rows = w.rows))
    ∧ (gate.IsOpen = true → w.injected = none →
      (∀ r, w.rows.find? (fun r => r.ID = id) = some r → r.Status = .EnteredDB →
        (Submission (repoSubmission gate) w openID id req).1 = none ∧
        ∃ r', (Submission (repoSubmission gate) w openID id req).2.rows.find?
            (fun r => r.ID = id) = some r' ∧ r'.Status = .EarlyPlan)
      ∧ (∀ r, w.rows.find? (fun r => r.ID = id) = some r → r.Status = .EarlyPlan →
        (OutStorage (repoOutStorage gate) w openID id req).1 = none ∧
        ∃ r', (OutStorage (repoOutStorage gate) w openID id req).2.rows.find?
            (fun r => r.ID = id) = some r' ∧ r'.Status = .OutStorageInspect)
      ∧ ((MultiSubmission (repoMultiSubmission gate) w openID ids).1 =
          (transitionRows .EnteredDB w.rows did
            [("update_by", .str openID), ("status", .status .EarlyPlan)]).1 ∧
        (MultiSubmission (repoMultiSubmission gate) w openID ids).2.rows =
          (transitionRows .EnteredDB w.rows did
            [("update_by", .str openID), ("status", .status .EarlyPlan)]).2)) := by
  constructor
  · intro hclosed
    rw [MultiSubmission_of_parse _ w openID ids did hparse]
    simp [Submission, OutStorage, repoSubmission, repoOutStorage, repoMultiSubmission, hclosed]
  · intro hopen hnf
    refine ⟨?_, ?_, ?_⟩
    · intro r hr hs
      obtain ⟨-, ⟨hok, -⟩, -⟩ := gated_call_found gate w id
        [("update_by", .str openID), ("status", .status .EarlyPlan),
         ("is_case_finish", .bool req.IsCaseFinish), ("is_research", .bool req.IsResearch)]
        r hr hnf hopen
      unfold Submission
      rw [hok hs]
      refine ⟨rfl, r.applyFields [("update_by", .str openID), ("status", .status .EarlyPlan),
        ("is_case_finish", .bool req.IsCaseFinish), ("is_research", .bool req.IsResearch)],
        ?_, ?_⟩
      · simp only [World.withRows_rows]
        rw [find?_map_applyFields, hr]; rfl
      · rw [applyFields_submission]
    · intro r hr hs
      obtain ⟨-, -, ⟨hok, -⟩⟩ := gated_call_found gate w id
        [("update_by", .str openID), ("status", .status .OutStorageInspect),
         ("is_case_finish", .bool req.IsCaseFinish), ("is_research", .bool req.IsResearch)]
        r hr hnf hopen
      unfold OutStorage
      rw [hok hs]
      refine ⟨rfl, r.applyFields [("update_by", .str openID),
        ("status", .status .OutStorageInspect),
        ("is_case_finish", .bool req.IsCaseFinish), ("is_research", .bool req.IsResearch)],
        ?_, ?_⟩
      · simp only [World.withRows_rows]
        rw [find?_map_applyFields, hr]; rfl
      · rw [applyFields_outStorage]
    · rw [MultiSubmission_of_parse _ w openID ids did hparse]
      simp [repoMultiSubmission, hopen, hnf]

theorem gated_transitions_respect_window_witness :
    (Submission (repoSubmission closedGate) listWorld "me" 5 ⟨true, false⟩).1 =
        some .WindowClosed ∧
      (MultiSubmission (repoMultiSubmission closedGate) listWorld "me" "5").1 =
        some .WindowClosed ∧
      (Submission (repoSubmission openGate) listWorld "me" 5 ⟨true, false⟩).1 = none :=
  ⟨((gated_transitions_respect_window closedGate listWorld "me" "5" 5 [5] ⟨true, false⟩
      (by decide)).1 (by decide)).1.1,
   ((gated_transitions_respect_window closedGate listWorld "me" "5" 5 [5] ⟨true, false⟩
      (by decide)).1 (by decide)).2.2.1,
   ((gated_transitions_respect_window openGate listWorld "me" "5" 5 [5] ⟨true, false⟩
      (by decide)).2 (by decide) (by decide)).1 enteredRecord (by decide) (by decide) |>.1⟩

end Lpms

namespace Lpms

/-! ## Bulk submission against record-by-record submission -/

theorem withoutFlags_ID (r : Reserve) : r.withoutFlags.ID = r.ID := rfl

theorem withoutFlags_Status (r : Reserve) : r.withoutFlags.Status = r.Status := rfl

theorem find?_map_withoutFlags (rows : List Reserve) (id : Int) :
    (rows.map Reserve.withoutFlags).find? (fun r => r.ID = id) =
      (rows.find? (fun r => r.ID = id)).map Reserve.withoutFlags := by
  induction rows with
  | nil => rfl
  | cons r rs ih =>
    by_cases h : r.ID = id
    · simp [List.find?_cons, h, withoutFlags_ID]
    · rw [List.map_cons, List.find?_cons, List.find?_cons]
      simp only [withoutFlags_ID, h, decide_False]
      exact ih

/-- The two field updates written to records that agree up to their flags
give records that agree up to their flags. -/
theorem update_withoutFlags (openID : String) (req : SubmissionOutStorage) (id : Int) :
    ∀ rowsM rowsS : List Reserve,
      rowsM.map Reserve.withoutFlags = rowsS.map Reserve.withoutFlags →
      (rowsM.map (fun r => if r.ID = id then
          r.applyFields [("update_by", .str openID), ("status", .status .EarlyPlan)]
        else r)).map Reserve.withoutFlags =
      (rowsS.map (fun r => if r.ID = id then
          r.applyFields [("update_by", .str openID), ("status", .status .EarlyPlan),
            ("is_case_finish", .bool req.IsCaseFinish),
            ("is_research", .bool req.IsResearch)]
        else r)).map Reserve.withoutFlags := by
  intro rowsM
  induction rowsM with
  | nil =>
    intro rowsS h
    cases rowsS with
    | nil => rfl
    | cons s ss => simp at h
  | cons m ms ih =>
    intro rowsS h
    cases rowsS with
    | nil => simp at h
    | cons s ss =>
      simp only [List.map_cons, List.cons.injEq] at h ⊢
      obtain ⟨hhead, htail⟩ := h
      refine ⟨?_, ih ss htail⟩
      have hid : m.ID = s.ID := by
        have := congrArg Reserve.ID hhead
        simpa [withoutFlags_ID] using this
      by_cases hm : m.ID = id
      · have hs : s.ID = id := hid ▸ hm
        rw [if_pos hm, if_pos hs, applyFields_multiSubmission, applyFields_submission]
        cases m; cases s
        simp only [Reserve.withoutFlags, Reserve.mk.injEq] at hhead ⊢
        tauto
      · have hs : ¬ s.ID = id := fun e => hm (hid.trans e)
        rw [if_neg hm, if_neg hs]
        exact hhead

theorem transitionRow_withoutFlags (openID : String) (req : SubmissionOutStorage) (id : Int)
    (rowsM rowsS : List Reserve)
    (h : rowsM.map Reserve.withoutFlags = rowsS.map Reserve.withoutFlags) :
    (∃ ex, transitionRow .EnteredDB rowsM id
          [("update_by", .str openID), ("status", .status .EarlyPlan)] = .error ex ∧
        transitionRow .EnteredDB rowsS id
          [("update_by", .str openID), ("status", .status .EarlyPlan),
            ("is_case_finish", .bool req.IsCaseFinish),
            ("is_research", .bool req.IsResearch)] = .error ex) ∨
    (∃ rowsM' rowsS', transitionRow .EnteredDB rowsM id
          [("update_by", .str openID), ("status", .status .EarlyPlan)] = .ok rowsM' ∧
        transitionRow .EnteredDB rowsS id
          [("update_by", .str openID), ("status", .status .EarlyPlan),
            ("is_case_finish", .bool req.IsCaseFinish),
            ("is_research", .bool req.IsResearch)] = .ok rowsS' ∧
        rowsM'.map Reserve.withoutFlags = rowsS'.map Reserve.withoutFlags) := by
  have hfind := congrArg (fun l => l.find? (fun r : Reserve => r.ID = id)) h
  simp only [find?_map_withoutFlags] at hfind
  unfold transitionRow
  cases hm : rowsM.find? (fun r => r.ID = id) with
  | none =>
    rw [hm] at hfind
    cases hs : rowsS.find? (fun r => r.ID = id) with
    | none => exact Or.inl ⟨_, rfl, rfl⟩
    | some s => rw [hs] at hfind; simp at hfind
  | some m =>
    rw [hm] at hfind
    cases hs : rowsS.find? (fun r => r.ID = id) with
    | none => rw [hs] at hfind; simp at hfind
    | some s =>
      rw [hs] at hfind
      have hst : m.Status = s.Status := by
        have := congrArg (Option.map Reserve.Status) hfind
        simpa [withoutFlags_Status] using this
      simp only []
      by_cases hok : m.Status = .EnteredDB
      · have hok' : s.Status = .EnteredDB := hst ▸ hok
        rw [if_pos hok, if_pos hok']
        exact Or.inr ⟨_, _, rfl, rfl, update_withoutFlags openID req id rowsM rowsS h⟩
      · have hok' : ¬ s.Status = .EnteredDB := fun e => hok (hst.trans e)
        rw [if_neg hok, if_neg hok']
        exact Or.inl ⟨_, rfl, rfl⟩

end Lpms

namespace Lpms

theorem Submission_noFaults (gate : Gate) (w : World) (openID : String) (id : Int)
    (req : SubmissionOutStorage) (hopen : gate.IsOpen = true) (hnf : w.noFaults) :
    (∃ ex, transitionRow .EnteredDB w.rows id
          [("update_by", .str openID), ("status", .status .EarlyPlan),
            ("is_case_finish", .bool req.IsCaseFinish),
            ("is_research", .bool req.IsResearch)] = .error ex ∧
        ∃ w', Submission (repoSubmission gate) w openID id req = (some ex, w') ∧
          w'.rows = w.rows) ∨
    (∃ rows, transitionRow .EnteredDB w.rows id
          [("update_by", .str openID), ("status", .status .EarlyPlan),
            ("is_case_finish", .bool req.IsCaseFinish),
            ("is_research", .bool req.IsResearch)] = .ok rows ∧
        ∃ w', Submission (repoSubmission gate) w openID id req = (none, w') ∧
          w'.rows = rows ∧ w'.noFaults) := by
  unfold Submission repoSubmission
  simp only [hopen, World.noFaults_injected w hnf]
  cases h : transitionRow .EnteredDB w.rows id
      [("update_by", .str openID), ("status", .status .EarlyPlan),
        ("is_case_finish", .bool req.IsCaseFinish),
        ("is_research", .bool req.IsResearch)] with
  | error ex =>
    exact Or.inl ⟨ex, rfl, w.record (.repoSubmission id
      [("update_by", .str openID), ("status", .status .EarlyPlan),
        ("is_case_finish", .bool req.IsCaseFinish),
        ("is_research", .bool req.IsResearch)]) (some ex), by simp, rfl⟩
  | ok rows =>
    refine Or.inr ⟨rows, rfl, (w.record (.repoSubmission id
      [("update_by", .str openID), ("status", .status .EarlyPlan),
        ("is_case_finish", .bool req.IsCaseFinish),
        ("is_research", .bool req.IsResearch)]) none).withRows rows, by simp, rfl, ?_⟩
    intro f hf
    exact hnf f (List.mem_of_mem_tail hf)

/-- The bulk transition with the field update of `MultiSubmission` against
the record-by-record `Submission`, on tables that agree up to the flags. -/
theorem transitionRows_vs_submitEach (gate : Gate) (openID : String)
    (req : SubmissionOutStorage) (hopen : gate.IsOpen = true) (did : List Int) :
    ∀ (rowsM : List Reserve) (ws : World), ws.noFaults →
      rowsM.map Reserve.withoutFlags = ws.rows.map Reserve.withoutFlags →
      (transitionRows .EnteredDB rowsM did
          [("update_by", .str openID), ("status", .status .EarlyPlan)]).1 =
        (submitEach gate ws openID req did).1 ∧
      (transitionRows .EnteredDB rowsM did
          [("update_by", .str openID), ("status", .status .EarlyPlan)]).2.map
          Reserve.withoutFlags =
        (submitEach gate ws openID req did).2.rows.map Reserve.withoutFlags := by
  induction did with
  | nil => intro rowsM ws _ h; exact ⟨rfl, h⟩
  | cons id rest ih =>
    intro rowsM ws hnf h
    unfold transitionRows submitEach
    rcases transitionRow_withoutFlags openID req id rowsM ws.rows h with
      ⟨ex, hM, hS⟩ | ⟨rowsM', rowsS', hM, hS, h'⟩
    · rcases Submission_noFaults gate ws openID id req hopen hnf with
        ⟨ex', hS', w', hsub, hrows⟩ | ⟨rows, hS', -⟩
      · rw [hS] at hS'
        cases hS'
        rw [hM, hsub]
        exact ⟨rfl, by rw [hrows]; exact h⟩
      · rw [hS] at hS'; cases hS'
    · rcases Submission_noFaults gate ws openID id req hopen hnf with
        ⟨ex', hS', -⟩ | ⟨rows, hS', w', hsub, hrows, hnf'⟩
      · rw [hS] at hS'; cases hS'
      · rw [hS] at hS'
        cases hS'
        rw [hM, hsub]
        exact ih rowsM' w' hnf' (by rw [hrows]; exact h')

theorem transitionRows_flags (src : Status) (openID : String) (did : List Int) :
    ∀ rows : List Reserve,
      (transitionRows src rows did
          [("update_by", .str openID), ("status", .status .EarlyPlan)]).2.map
          (fun r => (r.IsCaseFinish, r.IsResearch)) =
        rows.map (fun r => (r.IsCaseFinish, r.IsResearch)) := by
  induction did with
  | nil => intro rows; rfl
  | cons id rest ih =>
    intro rows
    unfold transitionRows
    cases h : transitionRow src rows id
        [("update_by", .str openID), ("status", .status .EarlyPlan)] with
    | error ex => rfl
    | ok rows' =>
      simp only []
      rw [ih rows']
      unfold transitionRow at h
      split at h
      · cases h
      · split_ifs at h
        cases h
        rw [List.map_map]
        apply List.map_congr_left
        intro r _
        simp only [Function.comp]
        split_ifs
        · rw [applyFields_multiSubmission]
        · rfl

theorem parseIDs_length (pieces : List String) :
    ∀ did, parseIDs pieces = .ok did → did.length = pieces.length := by
  induction pieces with
  | nil => intro did h; simp [parseIDs] at h; subst h; rfl
  | cons p ps ih =>
    intro did h
    unfold parseIDs at h
    cases hp : ParseUint p with
    | error err => rw [hp] at h; cases h
    | ok n =>
      rw [hp] at h
      cases hps : parseIDs ps with
      | error ex => rw [hps] at h; cases h
      | ok rest =>
        rw [hps] at h
        cases h
        simp [ih rest hps]

/-- C13 (as amended): for every actor and every well-formed id list, with
the bulk transition modelled from the spec and no external failure,
`MultiSubmission` returns the same result as calling the single-record
`Submission` (with any flags) on each id in list order and stopping at the
first failure, and leaves the same records except for the two flags: it
writes `update_by` and `status` only, so every record keeps the IsCaseFinish
and IsResearch it had, which `Submission` overwrites. -/
theorem MultiSubmission_agrees_up_to_flags (gate : Gate) (w : World) (openID ids : String)
    (did : List Int) (req : SubmissionOutStorage)
    (hparse : parseIDs (Split ids) = .ok did) (hnf : w.noFaults) :
    (MultiSubmission (repoMultiSubmission gate) w openID ids).1 =
        (submitEach gate w openID req did).1
    ∧ (MultiSubmission (repoMultiSubmission gate) w openID ids).2.rows.map
          Reserve.withoutFlags =
        (submitEach gate w openID req did).2.rows.map Reserve.withoutFlags
    ∧ (MultiSubmission (repoMultiSubmission gate) w openID ids).2.rows.map
          (fun r => (r.IsCaseFinish, r.IsResearch)) =
        w.rows.map (fun r => (r.IsCaseFinish, r.IsResearch)) := by
  rw [MultiSubmission_of_parse _ w openID ids did hparse]
  cases hopen : gate.IsOpen with
  | false =>
    have hlen := parseIDs_length (Split ids) did hparse
    cases did with
    | nil => exact absurd hlen.symm (Split_length_ne_zero ids)
    | cons id rest =>
      simp [repoMultiSubmission, submitEach, Submission, repoSubmission, hopen]
  | true =>
    obtain ⟨h1, h2⟩ := transitionRows_vs_submitEach gate openID req hopen did w.rows w hnf rfl
    have h3 := transitionRows_flags .EnteredDB openID did w.rows
    simp only [repoMultiSubmission, hopen, World.noFaults_injected w hnf]
    exact ⟨h1, h2, h3⟩

theorem MultiSubmission_agrees_up_to_flags_witness :
    (MultiSubmission (repoMultiSubmission openGate) listWorld "me" "5,1").1 =
        (submitEach openGate listWorld "me" ⟨true, false⟩ [5, 1]).1 ∧
      (MultiSubmission (repoMultiSubmission openGate) listWorld "me" "5,1").1 =
        some (.InvalidTransition 1) :=
  ⟨(MultiSubmission_agrees_up_to_flags openGate listWorld "me" "5,1" [5, 1] ⟨true, false⟩
      (by decide) (by decide)).1,
   by decide⟩

/-- C13 fails as stated: `Submission` hands persistence four fields,
`MultiSubmission` only `update_by` and `status`; on the record 5, entered in
the register with IsCaseFinish false and IsResearch true, `Submission` with
the flags (true, false) writes the flags while `MultiSubmission` leaves them
as they were. -/
theorem MultiSubmission_writes_fewer_fields :
    (listWorld.since (Submission (repoSubmission openGate) listWorld "me" 5 ⟨true, false⟩).2 =
        [⟨.repoSubmission 5 [("update_by", .str "me"), ("status", .status .EarlyPlan),
            ("is_case_finish", .bool true), ("is_research", .bool false)], none⟩]
      ∧ listWorld.since (MultiSubmission (repoMultiSubmission openGate) listWorld "me" "5").2 =
        [⟨.repoMultiSubmission [5]
            [("update_by", .str "me"), ("status", .status .EarlyPlan)], none⟩])
    ∧ (Submission (repoSubmission openGate) listWorld "me" 5 ⟨true, false⟩).2.rows.find?
          (fun r => r.ID = 5) =
        some { enteredRecord with Status := .EarlyPlan, UpdateBy := "me",
                                  IsCaseFinish := true, IsResearch := false }
    ∧ (MultiSubmission (repoMultiSubmission openGate) listWorld "me" "5").2.rows.find?
          (fun r => r.ID = 5) =
        some { enteredRecord with Status := .EarlyPlan, UpdateBy := "me" }
    ∧ (Submission (repoSubmission openGate) listWorld "me" 5 ⟨true, false⟩).2.rows ≠
        (MultiSubmission (repoMultiSubmission openGate) listWorld "me" "5").2.rows := by
  decide

end Lpms

namespace Lpms

/-! ## Cleanup of objects that are already gone -/

theorem Update_noFaults (w : World) (openID : String) (id : Int) (param : ReserveUpdateReq)
    (pro : Reserve) (hnf : w.noFaults)
    (hpro : w.rows.find? (fun r => r.ID = id) = some pro) :
    ∃ w', Update w openID id param = (none, w') ∧
      w'.rows = w.rows.map
        (fun r => if r.ID = id then r.applyFields (param.ToMap openID) else r) ∧
      w'.log = w.log ++ (⟨.repoGet id, none⟩ :: ((Update.released pro param).map deleted ++
        [⟨.repoUpdate id (param.ToMap openID), none⟩])) := by
  rcases Update_spec w openID id param with ⟨ex, -, hi | ⟨-, hf, -⟩⟩ | ⟨pro', hf, -, hcase⟩
  · rw [World.noFaults_injected w hnf] at hi; cases hi
  · rw [hpro] at hf; cases hf
  · obtain rfl : pro' = pro := by rw [hpro] at hf; exact (Option.some.inj hf).symm
    have hok : ∃ w', Update w openID id param = (none, w') := by
      rw [Update_eq]
      rcases repoGet_cases w id with ⟨ex, -, hi | ⟨-, hf', -⟩⟩ | ⟨p, hg, -, -⟩
      · rw [World.noFaults_injected w hnf] at hi; cases hi
      · rw [hpro] at hf'; cases hf'
      · rw [hg]
        obtain ⟨w2, hr, -, -, hnf2⟩ := releaseRefs_noFaults (w.record (.repoGet id) none)
          (Update.released p param) (World.noFaults_record w (.repoGet id) none hnf)
        simp only [hr]
        rcases repoUpdate_cases w2 id (param.ToMap openID) with ⟨ex, -, hi⟩ | ⟨hu, -⟩
        · rw [World.noFaults_injected w2 hnf2] at hi; cases hi
        · exact ⟨_, hu⟩
    obtain ⟨w0, hw0⟩ := hok
    rcases hcase with ⟨ex, w', _, _, _, hu, -⟩ | ⟨ex, w', hu, -⟩ | ⟨w', hu, hrows, -, hlog⟩
    · rw [hw0] at hu; cases hu
    · rw [hw0] at hu; cases hu
    · exact ⟨w', hu, hrows, hlog⟩

theorem release_noFaults (did : List Int) :
    ∀ w : World, w.noFaults →
      (∀ i ∈ did, ∃ p, w.rows.find? (fun r => r.ID = i) = some p) →
      ∃ w', MultiDelete.release w did = (none, w') ∧ w'.rows = w.rows ∧ w'.noFaults := by
  induction did with
  | nil => intro w hnf _; exact ⟨w, rfl, rfl, hnf⟩
  | cons id rest ih =>
    intro w hnf hall
    rw [MultiDelete.release_cons]
    rcases releaseRecord_noFaults w id hnf with ⟨hf, -⟩ | ⟨pro, w1, -, hr, hrows, -, hnf1⟩
    · obtain ⟨p, hp⟩ := hall id (by simp)
      rw [hp] at hf; cases hf
    · rw [hr]
      obtain ⟨w', h1, h2, h3⟩ := ih w1 hnf1 (by
        intro i hi
        rw [hrows]
        exact hall i (by simp [hi]))
      exact ⟨w', h1, by rw [h2, hrows], h3⟩

/-- When no collaborator call returns an error, `Delete` and `Update` of a
stored record and `MultiDelete` of stored records succeed and remove or
update the records, every object deletion they issue succeeding, also for a
referenced object that is already absent from the object store. -/
theorem cleanup_without_report (w : World) (openID : String) (id : Int)
    (param : ReserveUpdateReq) (pro : Reserve) (hnf : w.noFaults)
    (hpro : w.rows.find? (fun r => r.ID = id) = some pro) :
    ((Delete w id).1 = none
      ∧ (Delete w id).2.rows = w.rows.filter (fun r => r.ID ≠ id)
      ∧ (∀ ref ∈ pro.artifacts, ref ∉ w.objects → deleted ref ∈ w.since (Delete w id).2))
    ∧ ((Update w openID id param).1 = none
      ∧ (Update w openID id param).2.rows =
          w.rows.map (fun r => if r.ID = id then r.applyFields (param.ToMap openID) else r)
      ∧ (∀ ref ∈ Update.released pro param, ref ∉ w.objects →
          deleted ref ∈ w.since (Update w openID id param).2))
    ∧ (∀ ids did, parseIDs (Split ids) = .ok did →
        (∀ i ∈ did, ∃ p, w.rows.find? (fun r => r.ID = i) = some p) →
        (MultiDelete w ids).1 = none ∧
        (MultiDelete w ids).2.rows = w.rows.filter (fun r => r.ID ∉ did)) := by
  refine ⟨?_, ?_, ?_⟩
  · rcases Delete_noFaults w id hnf with ⟨hf, -⟩ | ⟨pro', w', hf, hd, hrows, -, -⟩
    · rw [hpro] at hf; cases hf
    · refine ⟨by rw [hd], by rw [hd]; exact hrows, ?_⟩
      intro ref href _
      rcases Delete_spec w id with ⟨ex, hu, -⟩ | ⟨p, hf', -, hcase⟩
      · rw [hd] at hu; cases hu
      · obtain rfl : p = pro := by rw [hpro] at hf'; exact (Option.some.inj hf').symm
        rcases hcase with ⟨ex, w2, _, _, _, hu, -⟩ | ⟨ex, w2, hu, -⟩ | ⟨w2, hu, -, -, hlog⟩
        · rw [hd] at hu; cases hu
        · rw [hd] at hu; cases hu
        · rw [hu, World.since_of_log w w2 _ hlog]
          simp only [List.mem_cons, List.mem_append, List.mem_map]
          exact Or.inr (Or.inl ⟨ref, href, rfl⟩)
  · obtain ⟨w', hu, hrows, hlog⟩ := Update_noFaults w openID id param pro hnf hpro
    rw [hu]
    refine ⟨rfl, hrows, ?_⟩
    intro ref href _
    rw [World.since_of_log w w' _ hlog]
    simp only [List.mem_cons, List.mem_append, List.mem_map]
    exact Or.inr (Or.inl ⟨ref, href, rfl⟩)
  · intro ids did hparse hall
    rw [MultiDelete_of_parse w ids did hparse]
    obtain ⟨w1, hr, hrows, hnf1⟩ := release_noFaults did w hnf hall
    rw [hr]
    rcases repoMultiDelete_cases w1 did with ⟨ex, -, hi⟩ | ⟨hd, -⟩
    · rw [World.noFaults_injected w1 hnf1] at hi; cases hi
    · simp only [hd, World.withRows_rows, hrows]
      exact ⟨trivial, trivial⟩

/-- When the deletion of `ref` is the first call of `Delete` to return an
error, `Delete` returns that error and does not remove the record. -/
theorem Delete_reported (w : World) (id : Int) (pro : Reserve)
    (hpro : w.rows.find? (fun r => r.ID = id) = some pro)
    (done : List String) (ref : String) (rest : List String) (ex : Exception)
    (fs : List (Option Exception)) (hsplit : pro.artifacts = done ++ ref :: rest)
    (hfaults : w.faults = List.replicate (done.length + 1) none ++ some ex :: fs) :
    ∃ w', Delete w id = (some ex, w') ∧ w'.rows = w.rows ∧
      w'.log = w.log ++
        (⟨.repoGet id, none⟩ :: (done.map deleted ++ [⟨.objDelete ref, some ex⟩])) := by
  have hinj : w.injected = none := by
    unfold World.injected
    rw [hfaults]
    rfl
  obtain ⟨w1, hr, hrows, -, hlog, -⟩ :=
    releaseRefs_scripted done ref rest ex fs (w.record (.repoGet id) none)
      (by simp [hfaults, List.replicate_succ])
  refine ⟨w1, ?_, by simpa using hrows, by simp [hlog]⟩
  rw [Delete_found w id pro hinj hpro, hsplit, hr]

/-- When the deletion of `ref` is the first call of `Update` to return an
error, `Update` returns that error and does not update the record. -/
theorem Update_reported (w : World) (openID : String) (id : Int) (param : ReserveUpdateReq)
    (pro : Reserve) (hpro : w.rows.find? (fun r => r.ID = id) = some pro)
    (done : List String) (ref : String) (rest : List String) (ex : Exception)
    (fs : List (Option Exception)) (hsplit : Update.released pro param = done ++ ref :: rest)
    (hfaults : w.faults = List.replicate (done.length + 1) none ++ some ex :: fs) :
    ∃ w', Update w openID id param = (some ex, w') ∧ w'.rows = w.rows ∧
      w'.log = w.log ++
        (⟨.repoGet id, none⟩ :: (done.map deleted ++ [⟨.objDelete ref, some ex⟩])) := by
  have hinj : w.injected = none := by
    unfold World.injected
    rw [hfaults]
    rfl
  obtain ⟨w1, hr, hrows, -, hlog, -⟩ :=
    releaseRefs_scripted done ref rest ex fs (w.record (.repoGet id) none)
      (by simp [hfaults, List.replicate_succ])
  refine ⟨w1, ?_, by simpa using hrows, by simp [hlog]⟩
  rw [Update_eq, repoGet_found w id pro hinj hpro]
  simp only [hsplit, hr]

/-- When, after the ids before `id` went through, the deletion of `ref` is
the first call for `id` to return an error, `MultiDelete` returns that error
and removes no record. -/
theorem MultiDelete_reported (w w1 : World) (ids : String) (did pre post : List Int) (id : Int)
    (pro : Reserve) (hparse : parseIDs (Split ids) = .ok did) (hdid : did = pre ++ id :: post)
    (hpre : MultiDelete.release w pre = (none, w1))
    (hpro : w.rows.find? (fun r => r.ID = id) = some pro)
    (done : List String) (ref : String) (rest : List String) (ex : Exception)
    (fs : List (Option Exception)) (hsplit : pro.artifacts = done ++ ref :: rest)
    (hfaults : w1.faults = List.replicate (done.length + 1) none ++ some ex :: fs) :
    ∃ w', MultiDelete w ids = (some ex, w') ∧ w'.rows = w.rows := by
  have hinj : w1.injected = none := by
    unfold World.injected
    rw [hfaults]
    rfl
  have hrows1 : w1.rows = w.rows := by
    have h := (MultiDelete.release_trace pre w).1
    rw [hpre] at h
    exact h
  obtain ⟨w2, hr, hrows, -, -, -⟩ :=
    releaseRefs_scripted done ref rest ex fs (w1.record (.repoGet id) none)
      (by simp [hfaults, List.replicate_succ])
  have hrec : releaseRecord w1 id = (some ex, w2) := by
    unfold releaseRecord
    rw [repoGet_found w1 id pro hinj (by rw [hrows1]; exact hpro)]
    simp only [hsplit, hr]
  refine ⟨w2, ?_, by rw [hrows]; simpa using hrows1⟩
  rw [MultiDelete_of_parse w ids did hparse, hdid, MultiDelete.release_append, hpre]
  simp only [MultiDelete.release_cons, hrec]

/-- C15 (as amended): the service has no tolerance of its own for a report
from the object store.  `Delete`, `Update` and `MultiDelete` return every
error that the store returns for the deletion of a referenced object, also
for an object that is already absent, and then do not remove or update the
record.  They go on to remove or update the record when the store returns no
error, as a store does whose deletion of an absent id is not an error. -/
theorem cleanup_returns_store_reports (w : World) (openID : String) (id : Int)
    (param : ReserveUpdateReq) (pro : Reserve)
    (hpro : w.rows.find? (fun r => r.ID = id) = some pro) :
    (∀ done ref rest ex fs, pro.artifacts = done ++ ref :: rest →
        w.faults = List.replicate (done.length + 1) none ++ some ex :: fs →
        (Delete w id).1 = some ex ∧ (Delete w id).2.rows = w.rows
        ∧ w.since (Delete w id).2 =
            ⟨.repoGet id, none⟩ :: (done.map deleted ++ [⟨.objDelete ref, some ex⟩]))
    ∧ (∀ done ref rest ex fs, Update.released pro param = done ++ ref :: rest →
        w.faults = List.replicate (done.length + 1) none ++ some ex :: fs →
        (Update w openID id param).1 = some ex ∧ (Update w openID id param).2.rows = w.rows
        ∧ w.since (Update w openID id param).2 =
            ⟨.repoGet id, none⟩ :: (done.map deleted ++ [⟨.objDelete ref, some ex⟩]))
    ∧ (∀ ids did pre post w1 done ref rest ex fs, parseIDs (Split ids) = .ok did →
        did = pre ++ id :: post → MultiDelete.release w pre = (none, w1) →
        pro.artifacts = done ++ ref :: rest →
        w1.faults = List.replicate (done.length + 1) none ++ some ex :: fs →
        (MultiDelete w ids).1 = some ex ∧ (MultiDelete w ids).2.rows = w.rows)
    ∧ (w.noFaults →
        ((Delete w id).1 = none
          ∧ (Delete w id).2.rows = w.rows.filter (fun r => r.ID ≠ id)
          ∧ (∀ ref ∈ pro.artifacts, ref ∉ w.objects → deleted ref ∈ w.since (Delete w id).2))
        ∧ ((Update w openID id param).1 = none
          ∧ (Update w openID id param).2.rows =
              w.rows.map (fun r => if r.ID = id then r.applyFields (param.ToMap openID) else r)
          ∧ (∀ ref ∈ Update.released pro param, ref ∉ w.objects →
              deleted ref ∈ w.since (Update w openID id param).2))
        ∧ (∀ ids did, parseIDs (Split ids) = .ok did →
            (∀ i ∈ did, ∃ p, w.rows.find? (fun r => r.ID = i) = some p) →
            (MultiDelete w ids).1 = none ∧
            (MultiDelete w ids).2.rows = w.rows.filter (fun r => r.ID ∉ did))) := by
  refine ⟨?_, ?_, ?_, ?_⟩
  · intro done ref rest ex fs hsplit hfaults
    obtain ⟨w', hd, hrows, hlog⟩ := Delete_reported w id pro hpro done ref rest ex fs hsplit hfaults
    rw [hd]
    exact ⟨rfl, hrows, World.since_of_log w w' _ hlog⟩
  · intro done ref rest ex fs hsplit hfaults
    obtain ⟨w', hu, hrows, hlog⟩ :=
      Update_reported w openID id param pro hpro done ref rest ex fs hsplit hfaults
    rw [hu]
    exact ⟨rfl, hrows, World.since_of_log w w' _ hlog⟩
  · intro ids did pre post w1 done ref rest ex fs hparse hdid hpre hsplit hfaults
    obtain ⟨w', hm, hrows⟩ := MultiDelete_reported w w1 ids did pre post id pro hparse hdid hpre
      hpro done ref rest ex fs hsplit hfaults
    rw [hm]
    exact ⟨rfl, hrows⟩
  · intro hnf
    exact cleanup_without_report w openID id param pro hnf hpro

theorem cleanup_returns_store_reports_witness :
    ("P" ∉ reportingWorld.objects
      ∧ (Delete reportingWorld 1).1 = some (.Collaborator "object already absent")
      ∧ (Delete reportingWorld 1).2.rows = reportingWorld.rows)
    ∧ ("P" ∉ goneWorld.objects
      ∧ (Delete goneWorld 1).1 = none
      ∧ (Delete goneWorld 1).2.rows = goneWorld.rows.filter (fun r => r.ID ≠ 1)) :=
  ⟨⟨by decide,
    ((cleanup_returns_store_reports reportingWorld "me" 1 sampleReq sampleRecord
      (by decide)).1 [] "P" ["A"] (.Collaborator "object already absent") []
      (by decide) (by decide)).1,
    ((cleanup_returns_store_reports reportingWorld "me" 1 sampleReq sampleRecord
      (by decide)).1 [] "P" ["A"] (.Collaborator "object already absent") []
      (by decide) (by decide)).2.1⟩,
   ⟨by decide,
    ((cleanup_returns_store_reports goneWorld "me" 1 sampleReq sampleRecord
      (by decide)).2.2.2 (by decide)).1.1,
    ((cleanup_returns_store_reports goneWorld "me" 1 sampleReq sampleRecord
      (by decide)).2.2.2 (by decide)).1.2.1⟩⟩

/-- C15 fails as stated: record 1 references the objects `P` and `A`, which
are already absent from the object store, and the store reports the absence
on the first deletion.  `Delete`, `Update` and `MultiDelete` fail with that
report and leave the record as it was: no row is removed or updated. -/
theorem cleanup_fails_on_reported_absence :
    "P" ∉ reportingWorld.objects ∧ "A" ∉ reportingWorld.objects
    ∧ (Delete reportingWorld 1).1 = some (.Collaborator "object already absent")
    ∧ (Delete reportingWorld 1).2.rows = reportingWorld.rows
    ∧ reportingWorld.since (Delete reportingWorld 1).2 =
        [⟨.repoGet 1, none⟩, ⟨.objDelete "P", some (.Collaborator "object already absent")⟩]
    ∧ (Update reportingWorld "me" 1 sampleReq).1 = some (.Collaborator "object already absent")
    ∧ (Update reportingWorld "me" 1 sampleReq).2.rows = reportingWorld.rows
    ∧ reportingWorld.since (Update reportingWorld "me" 1 sampleReq).2 =
        [⟨.repoGet 1, none⟩, ⟨.objDelete "A", some (.Collaborator "object already absent")⟩]
    ∧ (MultiDelete reportingWorld "1").1 = some (.Collaborator "object already absent")
    ∧ (MultiDelete reportingWorld "1").2.rows = reportingWorld.rows := by
  decide

end Lpms

namespace Lpms

/-! ## Listing scope -/

theorem mem_scopedRows (w : World) (params : ReserveFilterParam) (isAdmin : Bool)
    (user : String) (r : Reserve) :
    r ∈ scopedRows w params isAdmin user ↔
      r ∈ w.rows ∧ params r = true ∧ (isAdmin = true ∨ r.CreateBy = user) := by
  unfold scopedRows inScope
  rw [List.mem_filter, (List.perm_insertionSort createdBefore w.rows).mem_iff]
  simp

theorem repoList_noFaults (w : World) (pageInfo : PageInfo) (params : ReserveFilterParam)
    (isAdmin : Bool) (user : String) (h : w.injected = none) :
    repoList w pageInfo params isAdmin user =
      (.ok (((scopedRows w params isAdmin user).length : Nat),
          ((scopedRows w params isAdmin user).drop pageInfo.Offset).take pageInfo.Limit),
       w.record (.repoList isAdmin user) none) := by
  unfold repoList scopedRows
  rw [h]

theorem userRepoGet_cases (directory : List (String × UserInfo)) (w : World) (user : String) :
    (∃ ex, userRepoGet directory w user = (.error ex, w.record (.userGet user) (some ex))) ∨
    (∃ entry, directory.find? (fun entry => entry.1 = user) = some entry ∧
      w.injected = none ∧
      userRepoGet directory w user = (.ok entry.2, w.record (.userGet user) none)) := by
  unfold userRepoGet
  cases hi : w.injected with
  | some ex => exact Or.inl ⟨ex, rfl⟩
  | none =>
    cases hf : directory.find? (fun entry => entry.1 = user) with
    | none => exact Or.inl ⟨_, rfl⟩
    | some entry => exact Or.inr ⟨entry, rfl, rfl, rfl⟩

theorem repoList_log (w : World) (pageInfo : PageInfo) (params : ReserveFilterParam)
    (isAdmin : Bool) (user : String) :
    ∃ e, (repoList w pageInfo params isAdmin user).2 = w.record (.repoList isAdmin user) e := by
  unfold repoList
  cases w.injected with
  | some ex => exact ⟨_, rfl⟩
  | none => exact ⟨_, rfl⟩

theorem ListRecords_log (directory : List (String × UserInfo)) (w : World) (user : String)
    (params : ReserveFilterParam) (pageInfo : PageInfo) :
    (∃ ex, w.since (ListRecords (userRepoGet directory) repoList w user params pageInfo).2 =
        [⟨.userGet user, some ex⟩]) ∨
    (∃ isAdmin e,
      w.since (ListRecords (userRepoGet directory) repoList w user params pageInfo).2 =
        [⟨.userGet user, none⟩, ⟨.repoList isAdmin user, e⟩]) := by
  unfold ListRecords
  rcases userRepoGet_cases directory w user with ⟨ex, hg⟩ | ⟨entry, -, -, hg⟩
  · rw [hg]
    exact Or.inl ⟨ex, by simp [World.since]⟩
  · rw [hg]
    obtain ⟨e, he⟩ := repoList_log (w.record (.userGet user) none) pageInfo params
      entry.2.IsAdmin user
    refine Or.inr ⟨entry.2.IsAdmin, e, ?_⟩
    have : (match repoList (w.record (.userGet user) none) pageInfo params entry.2.IsAdmin
              user with
          | (Except.error ex, w2) => ((Except.error ex : Except Exception DataPagination), w2)
          | (Except.ok (count, projects), w2) =>
            (Except.ok (NewDataPagination count (projects.map ListReserveProResp.ofReserve)
              pageInfo), w2)).2 =
        (repoList (w.record (.userGet user) none) pageInfo params entry.2.IsAdmin user).2 := by
      rcases repoList (w.record (.userGet user) none) pageInfo params entry.2.IsAdmin user with
        ⟨⟨ex⟩ | ⟨count, projects⟩, w2⟩ <;> rfl
    simp only [] at this ⊢
    rw [this, he]
    simp [World.since]

end Lpms

namespace Lpms

/-- C16: `List` looks the caller up in the user directory exactly once per
call; if that lookup fails it returns the lookup error without calling the
listing query, whatever the collaborators are.  With the listing query
modelled from the spec, the IsAdmin flag of that lookup decides the scope:
for a non-admin caller every listed row is a record owned by the caller,
while for an admin caller the records of every owner are listed (all that
pass the filter, when the page is large enough to hold them). -/
theorem ListRecords_scoped_by_admin_flag (directory : List (String × UserInfo)) (w : World)
    (user : String) (params : ReserveFilterParam) (pageInfo : PageInfo) :
    (∀ (get : World → String → Except Exception UserInfo × World)
        (list : World → PageInfo → ReserveFilterParam → Bool → String →
          Except Exception (Int × List Reserve) × World)
        (ex : Exception) (w1 : World), get w user = (.error ex, w1) →
        ListRecords get list w user params pageInfo = (.error ex, w1))
    ∧ ((w.since (ListRecords (userRepoGet directory) repoList w user params
          pageInfo).2).filter (fun ev => ev.call.isUserGet)).length = 1
    ∧ (∀ entry, directory.find? (fun entry => entry.1 = user) = some entry → w.noFaults →
        ∃ page, (ListRecords (userRepoGet directory) repoList w user params pageInfo).1 =
            .ok page ∧
          page.Data =
            (((scopedRows w params entry.2.IsAdmin user).drop pageInfo.Offset).take
              pageInfo.Limit).map ListReserveProResp.ofReserve ∧
          (entry.2.IsAdmin = false →
            ∀ e ∈ page.Data, ∃ r ∈ w.rows, r.CreateBy = user ∧
              e = ListReserveProResp.ofReserve r) ∧
          (entry.2.IsAdmin = true → pageInfo.Offset = 0 → w.rows.length ≤ pageInfo.Limit →
            ∀ r ∈ w.rows, params r = true → ListReserveProResp.ofReserve r ∈ page.Data)) := by
  refine ⟨?_, ?_, ?_⟩
  · intro get list ex w1 hget
    unfold ListRecords
    rw [hget]
  · rcases ListRecords_log directory w user params pageInfo with ⟨ex, h⟩ | ⟨a, e, h⟩ <;>
      rw [h] <;> simp [Call.isUserGet]
  · intro entry hentry hnf
    have hget : userRepoGet directory w user = (.ok entry.2, w.record (.userGet user) none) := by
      unfold userRepoGet
      rw [World.noFaults_injected w hnf, hentry]
    have hlist := repoList_noFaults (w.record (.userGet user) none) pageInfo params
      entry.2.IsAdmin user
      (World.noFaults_injected _ (World.noFaults_record w (.userGet user) none hnf))
    have hscope : scopedRows (w.record (.userGet user) none) params entry.2.IsAdmin user =
        scopedRows w params entry.2.IsAdmin user := rfl
    rw [hscope] at hlist
    refine ⟨NewDataPagination ((scopedRows w params entry.2.IsAdmin user).length : Nat)
      ((((scopedRows w params entry.2.IsAdmin user).drop pageInfo.Offset).take
        pageInfo.Limit).map ListReserveProResp.ofReserve) pageInfo,
      by unfold ListRecords; rw [hget]; simp only [hlist], rfl, ?_, ?_⟩
    · intro hadmin e he
      simp only [NewDataPagination, List.mem_map] at he
      obtain ⟨r, hr, rfl⟩ := he
      have hr' := List.mem_of_mem_drop (List.mem_of_mem_take hr)
      rw [mem_scopedRows, hadmin] at hr'
      obtain ⟨hmem, -, hown⟩ := hr'
      rcases hown with h | h
      · cases h
      · exact ⟨r, hmem, h, rfl⟩
    · intro hadmin hoff hlim r hr hp
      simp only [NewDataPagination, List.mem_map]
      refine ⟨r, ?_, rfl⟩
      have hlen : (scopedRows w params entry.2.IsAdmin user).length ≤ pageInfo.Limit := by
        unfold scopedRows
        refine le_trans (List.length_filter_le _ _) ?_
        rw [List.length_insertionSort]
        exact hlim
      rw [hoff, List.drop_zero, List.take_of_length_le hlen, mem_scopedRows]
      exact ⟨hr, hp, Or.inl hadmin⟩

end Lpms

namespace Toml

/-! ## Strings -/

theorem needsQuoting_iff (v : Bytes) :
    needsQuoting v = true ↔
      ∃ c ∈ v, c = 0x27 ∨ c = 0x08 ∨ c = 0x0C ∨ c = 0x0A ∨ c = 0x0D ∨ c = 0x09 := by
  unfold needsQuoting
  simp [List.any_eq_true]

theorem encodeQuotedString.step_append (multiline : Bool) (b : Bytes) (r : Nat) :
    encodeQuotedString.step multiline b r = b ++ encodeQuotedString.step multiline [] r := by
  unfold encodeQuotedString.step
  split_ifs <;> simp

theorem encodeQuotedString.foldl_step (multiline : Bool) (v : Bytes) :
    ∀ b : Bytes, v.foldl (encodeQuotedString.step multiline) b =
      b ++ (v.map (encodeQuotedString.step multiline [])).flatten := by
  induction v with
  | nil => intro b; simp
  | cons r rs ih =>
    intro b
    rw [List.foldl_cons, ih, encodeQuotedString.step_append]
    simp

/-- C17 (as amended): the encoder emits a string value `v` through
`encodeString`; it emits `v` as a TOML literal string (a single quote, the
bytes of `v` unchanged, a single quote) unless `v` contains a single quote, a
newline, a backspace, a form feed, a carriage return or a tab, and exactly in
that case as an escaped quoted string: between double quotes by default,
between triple double quotes under the `multiline` option. -/
theorem encodeString_literal_unless_special (fuel : Nat) (enc : Encoder) (ctx : encoderCtx)
    (b v : Bytes) (options : valueOptions) :
    encode (fuel + 1) enc b ctx (.string v) = .ok (encodeString b v ctx.options)
    ∧ (needsQuoting v = true ↔
        ∃ c ∈ v, c = 0x27 ∨ c = 0x08 ∨ c = 0x0C ∨ c = 0x0A ∨ c = 0x0D ∨ c = 0x09)
    ∧ (needsQuoting v = false → encodeString b v options = b ++ [0x27] ++ v ++ [0x27])
    ∧ (needsQuoting v = true →
        encodeString b v options = encodeQuotedString options.multiline b v
        ∧ encodeQuotedString false b v =
            b ++ [0x22] ++ (v.map (encodeQuotedString.step false [])).flatten ++ [0x22]
        ∧ encodeQuotedString true b v =
            b ++ [0x22, 0x22, 0x22, 0x0A] ++
              (v.map (encodeQuotedString.step true [])).flatten ++ [0x22, 0x22, 0x22]) := by
  refine ⟨rfl, needsQuoting_iff v, ?_, ?_⟩
  · intro h
    simp [encodeString, h, encodeLiteralString, literalQuote]
  · intro h
    refine ⟨by simp [encodeString, h], ?_, ?_⟩
    · simp [encodeQuotedString, encodeQuotedString.foldl_step]
    · simp [encodeQuotedString, encodeQuotedString.foldl_step]

/-- C17 fails as stated: the string `a<TAB>b` contains neither a newline nor
a single quote, yet it is emitted as the quoted string `"a\tb"` and not as a
literal string. -/
theorem encodeString_quotes_tab :
    (0x0A : Nat) ∉ [0x61, 0x09, 0x62] ∧ (0x27 : Nat) ∉ [0x61, 0x09, 0x62]
      ∧ encodeString [] [0x61, 0x09, 0x62] valueOptions.zero =
          [0x22, 0x61, 0x5C, 0x74, 0x62, 0x22]
      ∧ encodeString [] [0x61, 0x09, 0x62] valueOptions.zero ≠
          [0x27, 0x61, 0x09, 0x62, 0x27] := by
  decide

/-! ## Keys -/

/-- What the loop of `encodeKey` computes: it fails exactly on a key with a
newline, and otherwise raises `cannotUseLiteral` on a single quote and
`needsQuotation` on a character that a bare key cannot hold. -/
theorem encodeKey.scan_spec (k : Bytes) :
    ∀ flags : KeyFlags,
      ((0x0A : Nat) ∈ k → encodeKey.scan k flags = .error .newLineInKey)
      ∧ ((0x0A : Nat) ∉ k → ∃ out, encodeKey.scan k flags = .ok out ∧
          (out.cannotUseLiteral = true ↔ flags.cannotUseLiteral = true ∨ (0x27 : Nat) ∈ k) ∧
          (out.needsQuotation = true ↔
            flags.needsQuotation = true ∨ ∃ c ∈ k, isBareKeyChar c = false)) := by
  induction k with
  | nil =>
    intro flags
    exact ⟨fun h => (by cases h), fun _ => ⟨flags, rfl, (by simp), (by simp)⟩⟩
  | cons c rest ih =>
    intro flags
    unfold encodeKey.scan
    by_cases hbare : isBareKeyChar c = true
    · have hc : c ≠ 0x0A := by rintro rfl; revert hbare; decide
      have hq : c ≠ 0x27 := by rintro rfl; revert hbare; decide
      rw [if_pos hbare]
      obtain ⟨h1, h2⟩ := ih flags
      constructor
      · intro h
        rcases List.mem_cons.1 h with h | h
        · exact absurd h.symm hc
        · exact h1 h
      · intro h
        obtain ⟨out, ho, hl, hn⟩ := h2 (fun h' => h (List.mem_cons_of_mem c h'))
        refine ⟨out, ho, ?_, ?_⟩
        · rw [hl]; simp [Ne.symm hq]
        · rw [hn]; simp [hbare]
    · rw [if_neg hbare]
      by_cases hnl : c = 0x0A
      · rw [if_pos hnl]
        exact ⟨fun _ => rfl, fun h => absurd (by simp [hnl]) h⟩
      · rw [if_neg hnl]
        obtain ⟨h1, h2⟩ := ih (KeyFlags.mk true
          (if c = literalQuote then true else flags.cannotUseLiteral))
        constructor
        · intro h
          rcases List.mem_cons.1 h with h | h
          · exact absurd h.symm hnl
          · exact h1 h
        · intro h
          obtain ⟨out, ho, hl, hn⟩ := h2 (fun h' => h (List.mem_cons_of_mem c h'))
          refine ⟨out, ho, ?_, ?_⟩
          · rw [hl]
            by_cases hq : c = literalQuote
            · simp [hq, literalQuote]
            · have hq' : ¬ (0x27 : Nat) = c := fun e => hq (by simp [literalQuote, e])
              simp [hq, hq']
          · rw [hn]
            simp only [true_or, true_iff]
            exact Or.inr ⟨c, by simp, by simpa using hbare⟩

end Toml

namespace Toml

theorem isBareKeyChar_iff (c : Nat) :
    isBareKeyChar c = true ↔
      (0x41 ≤ c ∧ c ≤ 0x5A) ∨ (0x61 ≤ c ∧ c ≤ 0x7A) ∨ (0x30 ≤ c ∧ c ≤ 0x39) ∨
        c = 0x2D ∨ c = 0x5F := by
  unfold isBareKeyChar
  simp [or_assoc]

theorem needsQuoting_false (v : Bytes) (h : needsQuoting v = false) :
    (0x0A : Nat) ∉ v ∧ (0x27 : Nat) ∉ v := by
  have hn : ¬ needsQuoting v = true := by simp [h]
  rw [needsQuoting_iff] at hn
  exact ⟨fun hm => hn ⟨_, hm, by simp⟩, fun hm => hn ⟨_, hm, by simp⟩⟩

/-- C20: the obligations documented on the key and string helpers hold at
every call site.  `encodeString` reaches `encodeLiteralString` only for a
string without newline and without single quote.  `encodeKey` returns an
error for every key with a newline; for the other keys it takes the quoted
form when the key has a single quote, reaches `encodeLiteralString` only when
the key has none, and reaches `encodeUnquotedKey` only when every character
of the key is in A-Z, a-z, 0-9, `-` or `_`.  The four cases of the key are
exhaustive and exclude each other, so they tell which helper is called. -/
theorem helpers_called_within_their_obligations (b k v : Bytes) (options : valueOptions) :
    (needsQuoting v = false →
        encodeString b v options = encodeLiteralString b v
          ∧ (0x0A : Nat) ∉ v ∧ (0x27 : Nat) ∉ v)
    ∧ (needsQuoting v = true →
        encodeString b v options = encodeQuotedString options.multiline b v)
    ∧ ((0x0A : Nat) ∈ k → encodeKey b k = .error .newLineInKey)
    ∧ ((0x0A : Nat) ∉ k → (0x27 : Nat) ∈ k →
        encodeKey b k = .ok (encodeQuotedString false b k))
    ∧ ((0x0A : Nat) ∉ k → (0x27 : Nat) ∉ k → (∃ c ∈ k, isBareKeyChar c = false) →
        encodeKey b k = .ok (encodeLiteralString b k))
    ∧ ((∀ c ∈ k, isBareKeyChar c = true) →
        encodeKey b k = .ok (encodeUnquotedKey b k)
          ∧ ∀ c ∈ k, (0x41 ≤ c ∧ c ≤ 0x5A) ∨ (0x61 ≤ c ∧ c ≤ 0x7A) ∨ (0x30 ≤ c ∧ c ≤ 0x39) ∨
              c = 0x2D ∨ c = 0x5F) := by
  obtain ⟨h1, h2⟩ := encodeKey.scan_spec k (KeyFlags.mk false false)
  refine ⟨?_, ?_, ?_, ?_, ?_, ?_⟩
  · intro h
    exact ⟨by simp [encodeString, h], needsQuoting_false v h⟩
  · intro h
    simp [encodeString, h]
  · intro h
    unfold encodeKey
    rw [h1 h]
  · intro hnl hq
    obtain ⟨out, ho, hl, _⟩ := h2 hnl
    have hc : out.cannotUseLiteral = true := hl.2 (Or.inr hq)
    unfold encodeKey
    rw [ho]
    simp [hc]
  · intro hnl hq hbare
    obtain ⟨out, ho, hl, hn⟩ := h2 hnl
    have hc : out.cannotUseLiteral = false := by
      cases hcl : out.cannotUseLiteral with
      | false => rfl
      | true =>
        rcases hl.1 hcl with h | h
        · cases h
        · exact absurd h hq
    have hnq : out.needsQuotation = true := hn.2 (Or.inr hbare)
    unfold encodeKey
    rw [ho]
    simp [hc, hnq]
  · intro hall
    have hnl : (0x0A : Nat) ∉ k := fun h => by
      have := hall _ h
      revert this
      decide
    have hq : (0x27 : Nat) ∉ k := fun h => by
      have := hall _ h
      revert this
      decide
    obtain ⟨out, ho, hl, hn⟩ := h2 hnl
    have hc : out.cannotUseLiteral = false := by
      cases hcl : out.cannotUseLiteral with
      | false => rfl
      | true =>
        rcases hl.1 hcl with h | h
        · cases h
        · exact absurd h hq
    have hnq : out.needsQuotation = false := by
      cases hcn : out.needsQuotation with
      | false => rfl
      | true =>
        rcases hn.1 hcn with h | ⟨c, hm, hb⟩
        · cases h
        · rw [hall c hm] at hb
          cases hb
    refine ⟨?_, fun c hm => (isBareKeyChar_iff c).1 (hall c hm)⟩
    unfold encodeKey
    rw [ho]
    simp [hc, hnq]

end Toml

namespace Toml

/-! ## The option `omitempty` -/

/-- What `encodeKv` does for an entry that `omitempty` leaves out: it returns
the buffer as it received it. -/
theorem encodeKv_omitted (encode : Encode) (enc : Encoder) (b : Bytes) (ctx : encoderCtx)
    (options : valueOptions) (v : Val) (hkey : ctx.hasKey = true)
    (homit : (ctx.options.omitempty || options.omitempty) = true)
    (hempty : isEmptyValue v = true) :
    encodeKv encode enc b ctx options v = .ok b := by
  unfold encodeKv
  simp [hkey, homit, hempty]

/-- C18 fails in the code: for the struct `{A: 1}` whose field `B`, an empty
string, is tagged `omitempty`, the regular table is written as `a = 1`
followed by two newlines, and the same struct without the field `B` as
`a = 1` followed by one; as an inline table it is written `{a = 1, }`, and
`{, a = 1}` when the empty field comes first, where the struct without the
field gives `{a = 1}`.  The value of the entry is left out but not the
separator that the table writes around it. -/
theorem omitempty_entry_leaves_separator (fuel : Nat) :
    NewEncoder.Encode (fuel + 2) false (some emptyEntryStruct)
        = ⟨none, some (ascii "a = 1\n\n")⟩
    ∧ NewEncoder.Encode (fuel + 2) false (some removedEntryStruct)
        = ⟨none, some (ascii "a = 1\n")⟩
    ∧ inlineEncoder.Encode (fuel + 3) false (some (.struct [(plainField "t", emptyEntryStruct)]))
        = ⟨none, some (ascii "t = \x7ba = 1, \x7d\n")⟩
    ∧ inlineEncoder.Encode (fuel + 3) false (some (.struct [(plainField "t", emptyFirstStruct)]))
        = ⟨none, some (ascii "t = \x7b, a = 1\x7d\n")⟩
    ∧ inlineEncoder.Encode (fuel + 3) false
          (some (.struct [(plainField "t", removedEntryStruct)]))
        = ⟨none, some (ascii "t = \x7ba = 1\x7d\n")⟩
    ∧ NewEncoder.Encode (fuel + 2) false (some emptyEntryStruct)
        ≠ NewEncoder.Encode (fuel + 2) false (some removedEntryStruct)
    ∧ inlineEncoder.Encode (fuel + 3) false (some (.struct [(plainField "t", emptyEntryStruct)]))
        ≠ inlineEncoder.Encode (fuel + 3) false
            (some (.struct [(plainField "t", removedEntryStruct)])) := by
  refine ⟨rfl, rfl, rfl, rfl, rfl, ?_, ?_⟩
  · show (⟨none, some (ascii "a = 1\n\n")⟩ : Outcome) ≠ ⟨none, some (ascii "a = 1\n")⟩
    decide
  · show (⟨none, some (ascii "t = \x7ba = 1, \x7d\n")⟩ : Outcome)
      ≠ ⟨none, some (ascii "t = \x7ba = 1\x7d\n")⟩
    decide

end Toml

namespace Toml

/-! ## Nil values -/

/-- C19 (as amended): given a nil interface, `Encode` returns an error and
writes nothing; so it does given a nil pointer (or any other value) whose
type implements `encoding.TextMarshaler`, which cannot be a root element.
Given any other nil pointer, `Encode` does what it does for the zero value of
the type the pointer points to: a nil pointer to an integer, a boolean, a
string or a slice is written as `0`, `false`, `''` or `[]` without error, a
nil pointer to a struct as the table of its zero fields, and a nil pointer to
an interface is an error with nothing written. -/
theorem Encode_nil_interface_fails_nil_pointer_is_zero (enc : Encoder) (fuel : Nat)
    (writeFails : Bool) (elem : Ty) (under : Val) (text : Except Err Bytes) :
    enc.Encode fuel writeFails none = ⟨some .cannotEncodeNilInterface, none⟩
    ∧ enc.Encode (fuel + 1) writeFails (some (.marshaler (.nilPtr elem) text))
        = ⟨some .textMarshalerAtRoot, none⟩
    ∧ enc.Encode (fuel + 1) writeFails (some (.marshaler under text))
        = ⟨some .textMarshalerAtRoot, none⟩
    ∧ enc.Encode (fuel + 1) writeFails (some (.nilPtr elem))
        = enc.Encode fuel writeFails (some elem.zero)
    ∧ enc.Encode (fuel + 2) false (some (.nilPtr .int)) = ⟨none, some (ascii "0")⟩
    ∧ enc.Encode (fuel + 2) false (some (.nilPtr .uint)) = ⟨none, some (ascii "0")⟩
    ∧ enc.Encode (fuel + 2) false (some (.nilPtr .bool)) = ⟨none, some (ascii "false")⟩
    ∧ enc.Encode (fuel + 2) false (some (.nilPtr .string)) = ⟨none, some (ascii "''")⟩
    ∧ enc.Encode (fuel + 2) false (some (.nilPtr (.slice elem))) = ⟨none, some (ascii "[]")⟩
    ∧ enc.Encode (fuel + 3) false (some (.nilPtr (.ptr .int))) = ⟨none, some (ascii "0")⟩
    ∧ NewEncoder.Encode (fuel + 3) false (some (.nilPtr (.struct [(plainField "A", .int)])))
        = ⟨none, some (ascii "A = 0\n")⟩
    ∧ enc.Encode (fuel + 2) writeFails (some (.nilPtr .interface))
        = ⟨some .nilInterfaceNotSupported, none⟩
    ∧ enc.Encode (fuel + 3) writeFails (some (.nilPtr (.ptr .time)))
        = ⟨some .textMarshalerAtRoot, none⟩ :=
  ⟨rfl, rfl, rfl, rfl, rfl, rfl, rfl, rfl, rfl, rfl, rfl, rfl, rfl⟩

/-- C19 fails as stated: given a nil `*int`, `Encode` returns no error and
writes `0`; given a nil pointer to `struct{A int}`, it writes `A = 0`. -/
theorem Encode_nil_pointer_succeeds :
    NewEncoder.Encode 2 false (some (.nilPtr .int)) = ⟨none, some (ascii "0")⟩
    ∧ NewEncoder.Encode 3 false (some (.nilPtr (.struct [(plainField "A", .int)])))
        = ⟨none, some (ascii "A = 0\n")⟩ := by
  decide

end Toml

namespace Lpms

/-! ## The empty-list guard -/

theorem parseIDs_error (pieces : List String) :
    ∀ ex, parseIDs pieces = .error ex → ∃ err, ex = .ParseStringToInt64Error err := by
  induction pieces with
  | nil => intro ex h; simp [parseIDs] at h
  | cons p ps ih =>
    intro ex h
    unfold parseIDs at h
    cases hp : ParseUint p with
    | error err =>
      rw [hp] at h
      cases h
      exact ⟨err, rfl⟩
    | ok n =>
      rw [hp] at h
      cases hps : parseIDs ps with
      | error ex1 =>
        rw [hps] at h
        have hh : ex1 = ex := by cases h; rfl
        exact ih ex (hh ▸ hps)
      | ok rest => rw [hps] at h; cases h

theorem MultiDelete_guard_free (w : World) (ids : String) :
    MultiDelete w ids =
      match parseIDs (Split ids) with
      | .error ex => (some ex, w)
      | .ok did =>
        match MultiDelete.release w did with
        | (some ex, w1) => (some ex, w1)
        | (none, w1) => repoMultiDelete w1 did := by
  unfold MultiDelete
  simp only [if_neg (Split_length_ne_zero ids)]

theorem MultiSubmission_guard_free
    (repo : World → List Int → FieldMap → Option Exception × World)
    (w : World) (openID ids : String) :
    MultiSubmission repo w openID ids =
      match parseIDs (Split ids) with
      | .error ex => (some ex, w)
      | .ok did => repo w did [("update_by", .str openID), ("status", .status .EarlyPlan)] := by
  unfold MultiSubmission
  simp only [if_neg (Split_length_ne_zero ids)]

/-- An error that `MultiDelete` returns after the parse is the outcome of the
last collaborator call it made. -/
theorem MultiDelete_error_of_call (w : World) (ids : String) (did : List Int) (ex : Exception)
    (hparse : parseIDs (Split ids) = .ok did) (hex : (MultiDelete w ids).1 = some ex) :
    ∃ evs c, (MultiDelete w ids).2.log = w.log ++ evs ∧ evs.getLast? = some ⟨c, some ex⟩ := by
  rw [MultiDelete_of_parse w ids did hparse] at hex ⊢
  obtain ⟨-, evs, hlog, -, hlast⟩ := MultiDelete.release_trace did w
  cases hrel : MultiDelete.release w did with
  | mk r w1 =>
    rw [hrel] at hlog hlast
    cases r with
    | some ex1 =>
      rw [hrel] at hex
      simp only [] at hex ⊢
      obtain ⟨c, hc⟩ := hlast ex1 rfl
      cases hex
      exact ⟨evs, c, hlog, hc⟩
    | none =>
      rw [hrel] at hex
      simp only [] at hex ⊢
      rcases repoMultiDelete_cases w1 did with ⟨ex1, hm, -⟩ | ⟨hm, -⟩
      · rw [hm] at hex ⊢
        cases hex
        refine ⟨evs ++ [⟨.repoMultiDelete did, some ex⟩], .repoMultiDelete did, ?_, ?_⟩
        · simp only [World.record_log]
          rw [show w1.log = w.log ++ evs from hlog, List.append_assoc]
        · simp
      · rw [hm] at hex
        cases hex

/-- C21: the empty-list guard of the bulk operations never fires.  For every
ids string, the empty one included, the split on `,` has at least one
element, so `MultiDelete` and `MultiSubmission` are the same functions with
the guard removed.  Every rejection of the input is the parse error
`ExceptionParseStringToInt64Error`, returned in the world of the call; every
other error they return is the one that a collaborator call returned, so the
guard's error `ExceptionInvalidRequestParameters` never comes from them. -/
theorem empty_list_guard_is_dead
    (repo : World → List Int → FieldMap → Option Exception × World)
    (w : World) (openID ids : String) :
    (Split ids).length ≠ 0
    ∧ Split "" = [""]
    ∧ MultiDelete w "" = (some (.ParseStringToInt64Error .syntaxErr), w)
    ∧ MultiSubmission repo w openID "" = (some (.ParseStringToInt64Error .syntaxErr), w)
    ∧ MultiDelete w ids =
        (match parseIDs (Split ids) with
         | .error ex => (some ex, w)
         | .ok did =>
           match MultiDelete.release w did with
           | (some ex, w1) => (some ex, w1)
           | (none, w1) => repoMultiDelete w1 did)
    ∧ MultiSubmission repo w openID ids =
        (match parseIDs (Split ids) with
         | .error ex => (some ex, w)
         | .ok did => repo w did [("update_by", .str openID), ("status", .status .EarlyPlan)])
    ∧ (∀ ex, parseIDs (Split ids) = .error ex →
        (∃ err, ex = .ParseStringToInt64Error err) ∧ ex ≠ .InvalidRequestParameters
          ∧ MultiDelete w ids = (some ex, w)
          ∧ MultiSubmission repo w openID ids = (some ex, w))
    ∧ (∀ ex, (MultiDelete w ids).1 = some ex →
        (∃ err, ex = .ParseStringToInt64Error err ∧ MultiDelete w ids = (some ex, w))
        ∨ (∃ evs c, (MultiDelete w ids).2.log = w.log ++ evs
              ∧ evs.getLast? = some ⟨c, some ex⟩))
    ∧ (∀ ex, (MultiSubmission repo w openID ids).1 = some ex →
        (∃ err, ex = .ParseStringToInt64Error err
            ∧ MultiSubmission repo w openID ids = (some ex, w))
        ∨ (∃ did, parseIDs (Split ids) = .ok did
              ∧ (repo w did [("update_by", .str openID), ("status", .status .EarlyPlan)]).1
                  = some ex))
    ∧ MultiDelete w ids ≠ (some .InvalidRequestParameters, w) := by
  have hD := MultiDelete_guard_free w ids
  have hS := MultiSubmission_guard_free repo w openID ids
  have hempty : parseIDs (Split "") = .error (.ParseStringToInt64Error .syntaxErr) := by decide
  have hmain : ∀ ex, (MultiDelete w ids).1 = some ex →
      (∃ err, ex = .ParseStringToInt64Error err ∧ MultiDelete w ids = (some ex, w))
      ∨ (∃ evs c, (MultiDelete w ids).2.log = w.log ++ evs
            ∧ evs.getLast? = some ⟨c, some ex⟩) := by
    intro ex hex
    cases hp : parseIDs (Split ids) with
    | error ex1 =>
      have hres : MultiDelete w ids = (some ex1, w) := by rw [hD, hp]
      rw [hres] at hex
      cases hex
      obtain ⟨err, herr⟩ := parseIDs_error _ _ hp
      exact Or.inl ⟨err, herr, hres⟩
    | ok did => exact Or.inr (MultiDelete_error_of_call w ids did ex hp hex)
  refine ⟨Split_length_ne_zero ids, by decide, ?_, ?_, hD, hS, ?_, hmain, ?_, ?_⟩
  · rw [MultiDelete_guard_free, hempty]
  · rw [MultiSubmission_guard_free, hempty]
  · intro ex hp
    obtain ⟨err, herr⟩ := parseIDs_error _ _ hp
    refine ⟨⟨err, herr⟩, ?_, ?_, ?_⟩
    · rw [herr]; intro h; cases h
    · rw [hD, hp]
    · rw [hS, hp]
  · intro ex hex
    cases hp : parseIDs (Split ids) with
    | error ex1 =>
      have hres : MultiSubmission repo w openID ids = (some ex1, w) := by rw [hS, hp]
      rw [hres] at hex
      cases hex
      obtain ⟨err, herr⟩ := parseIDs_error _ _ hp
      exact Or.inl ⟨err, herr, hres⟩
    | ok did =>
      refine Or.inr ⟨did, rfl, ?_⟩
      rw [MultiSubmission_of_parse repo w openID ids did hp] at hex
      exact hex
  · intro hres
    rcases hmain .InvalidRequestParameters (by rw [hres]) with ⟨err, herr, -⟩ | ⟨evs, c, hlog, hlast⟩
    · cases herr
    · rw [hres] at hlog
      have hnil : evs = [] := by
        have := congrArg List.length hlog
        simpa using this
      rw [hnil] at hlast
      simp at hlast

end Lpms

namespace Lpms

/-! ## The identifiers handed to persistence -/

theorem ParseUint.loop_value (cs : List Char) :
    ∀ (n m : Nat), n < 2 ^ 64 → ParseUint.loop cs n = .ok m →
      m = cs.foldl (fun a c => a * 10 + (c.toNat - '0'.toNat)) n ∧ m < 2 ^ 64 := by
  induction cs with
  | nil =>
    intro n m hn h
    simp only [ParseUint.loop] at h
    cases h
    exact ⟨rfl, hn⟩
  | cons c cs ih =>
    intro n m _ h
    unfold ParseUint.loop at h
    by_cases hdig : '0' ≤ c ∧ c ≤ '9'
    · rw [if_pos hdig] at h
      by_cases h1 : n ≥ (2 ^ 64 - 1) / 10 + 1
      · rw [if_pos h1] at h; cases h
      · rw [if_neg h1] at h
        by_cases h2 : n * 10 + (c.toNat - '0'.toNat) > 2 ^ IntSize - 1
        · rw [if_pos h2] at h; cases h
        · rw [if_neg h2] at h
          have hlt : n * 10 + (c.toNat - '0'.toNat) < 2 ^ 64 := by
            unfold IntSize at h2
            omega
          exact ih _ m hlt h
    · rw [if_neg hdig] at h
      cases h

/-- An accepted piece parses to its decimal value, which is below 2^64. -/
theorem ParseUint_value (s : String) (n : Nat) (h : ParseUint s = .ok n) :
    n = decimalValue s ∧ n < 2 ^ 64 := by
  unfold ParseUint at h
  by_cases he : s = ""
  · rw [if_pos he] at h; cases h
  · rw [if_neg he] at h
    exact ParseUint.loop_value s.toList 0 n (by norm_num) h

/-- The ids of an accepted list: piece by piece, the `int64` conversion of
the decimal value. -/
theorem parseIDs_value (pieces : List String) :
    ∀ did, parseIDs pieces = .ok did →
      did = pieces.map (fun s => toInt64 (decimalValue s))
        ∧ ∀ s ∈ pieces, isUnsignedDecimal s ∧ decimalValue s < 2 ^ 64 := by
  induction pieces with
  | nil =>
    intro did h
    simp only [parseIDs] at h
    cases h
    exact ⟨rfl, fun s hs => by cases hs⟩
  | cons p ps ih =>
    intro did h
    unfold parseIDs at h
    cases hp : ParseUint p with
    | error err => rw [hp] at h; cases h
    | ok n =>
      rw [hp] at h
      cases hps : parseIDs ps with
      | error ex => rw [hps] at h; cases h
      | ok rest =>
        rw [hps] at h
        obtain ⟨hrest, hall⟩ := ih rest hps
        obtain ⟨hn, hlt⟩ := ParseUint_value p n hp
        have hdid : did = toInt64 n :: rest := by cases h; rfl
        refine ⟨?_, ?_⟩
        · rw [hdid, hn, hrest]; rfl
        · intro s hs
          rcases List.mem_cons.1 hs with rfl | hs'
          · exact ⟨ParseUint_ok_decimal _ n hp, hn ▸ hlt⟩
          · exact hall s hs'

theorem toInt64_small (n : Nat) (h : n < 2 ^ 63) : toInt64 n = (n : Int) := by
  unfold toInt64
  have hmod : n % 2 ^ 64 = n := Nat.mod_eq_of_lt (by omega)
  rw [hmod, if_pos h]

theorem toInt64_large (n : Nat) (h1 : 2 ^ 63 ≤ n) (h2 : n < 2 ^ 64) :
    toInt64 n = (n : Int) - 2 ^ 64 ∧ toInt64 n < 0 := by
  unfold toInt64
  have hmod : n % 2 ^ 64 = n := Nat.mod_eq_of_lt h2
  rw [hmod, if_neg (by omega)]
  refine ⟨rfl, ?_⟩
  have : (n : Int) < 2 ^ 64 := by exact_mod_cast h2
  omega

/-- C22 fails in the code: the ids string `9223372036854775808` (2^63) is
accepted, and the identifier handed to persistence is -9223372036854775808,
negative and different from the decimal value of the element.  In general
the identifiers of an accepted list are, in order and one for one, the
`int64` conversions of the decimal values of its elements, each below 2^64:
a value below 2^63 is handed over unchanged, a value from 2^63 on as the
value minus 2^64. -/
theorem bulk_ids_wrap_from_two_pow_63
    (repo : World → List Int → FieldMap → Option Exception × World)
    (w : World) (openID : String) :
    decimalValue "9223372036854775808" = 2 ^ 63
    ∧ parseIDs (Split "9223372036854775808") = .ok [-9223372036854775808]
    ∧ MultiSubmission repo w openID "9223372036854775808" =
        repo w [-9223372036854775808] [("update_by", .str openID), ("status", .status .EarlyPlan)]
    ∧ MultiDelete w "9223372036854775808" =
        (match MultiDelete.release w [-9223372036854775808] with
         | (some ex, w1) => (some ex, w1)
         | (none, w1) => repoMultiDelete w1 [-9223372036854775808])
    ∧ (MultiDelete sampleWorld "9223372036854775808").2.log =
        [⟨.repoGet (-9223372036854775808), some (.RecordNotFound (-9223372036854775808))⟩]
    ∧ (∀ ids did, parseIDs (Split ids) = .ok did →
        did = (Split ids).map (fun s => toInt64 (decimalValue s))
          ∧ ∀ s ∈ Split ids, isUnsignedDecimal s ∧ decimalValue s < 2 ^ 64)
    ∧ (∀ n : Nat, n < 2 ^ 63 → toInt64 n = (n : Int))
    ∧ (∀ n : Nat, 2 ^ 63 ≤ n → n < 2 ^ 64 → toInt64 n = (n : Int) - 2 ^ 64 ∧ toInt64 n < 0) := by
  have hparse : parseIDs (Split "9223372036854775808") = .ok [-9223372036854775808] := by
    decide
  refine ⟨by decide, hparse, MultiSubmission_of_parse repo w openID _ _ hparse,
    MultiDelete_of_parse w _ _ hparse, by decide,
    fun ids did h => parseIDs_value (Split ids) did h, toInt64_small, toInt64_large⟩

end Lpms

namespace Toml

/-! ## Quoted strings -/

theorem hextable_length : hextable.length = 16 := by decide

/-- The bytes that the loop of `encodeQuotedString` copies unchanged. -/
theorem encodeQuotedString.step_raw (r : Nat)
    (hr : ¬ (r ≤ 0x1F ∨ r = 0x7F ∨ r = 0x5C ∨ r = 0x22)) :
    encodeQuotedString.step false [] r = [r] := by
  unfold encodeQuotedString.step
  have h1 : r ≠ 0x5C := by omega
  have h2 : r ≠ 0x22 := by omega
  have h3 : r ≠ 0x08 := by omega
  have h4 : r ≠ 0x0C := by omega
  have h5 : r ≠ 0x0A := by omega
  have h6 : r ≠ 0x0D := by omega
  have h7 : r ≠ 0x09 := by omega
  have h8 : ¬ ((0x00 ≤ r ∧ r ≤ 0x08) ∨ (0x0A ≤ r ∧ r ≤ 0x1F) ∨ r = 0x7F) := by omega
  rw [if_neg h1, if_neg h2, if_neg h3, if_neg h4, if_neg h5, if_neg h6, if_neg h7, if_neg h8]
  rfl

/-- The bytes that the loop of `encodeQuotedString` writes as `\u00XX`: the
two lookups in `hextable` are within its bounds. -/
theorem encodeQuotedString.step_hex (multiline : Bool) (b : Bytes) (r : Nat)
    (h1 : r ≠ 0x5C) (h2 : r ≠ 0x22) (h3 : r ≠ 0x08) (h4 : r ≠ 0x0C) (h5 : r ≠ 0x0A)
    (h6 : r ≠ 0x0D) (h7 : r ≠ 0x09)
    (hr : (0x00 ≤ r ∧ r ≤ 0x08) ∨ (0x0A ≤ r ∧ r ≤ 0x1F) ∨ r = 0x7F) :
    ∃ (hi : r / 16 < hextable.length) (lo : r % 16 < hextable.length),
      encodeQuotedString.step multiline b r =
        b ++ [0x5C, 0x75, 0x30, 0x30] ++ [hextable.get ⟨r / 16, hi⟩] ++
          [hextable.get ⟨r % 16, lo⟩] := by
  have hi : r / 16 < hextable.length := by rw [hextable_length]; omega
  have lo : r % 16 < hextable.length := by rw [hextable_length]; omega
  refine ⟨hi, lo, ?_⟩
  unfold encodeQuotedString.step
  rw [if_neg h1, if_neg h2, if_neg h3, if_neg h4, if_neg h5, if_neg h6, if_neg h7, if_pos hr]
  simp [List.getD_eq_getElem?_getD, List.getElem?_eq_getElem hi, List.getElem?_eq_getElem lo]

/-- Decoding what the loop wrote for one byte gives the byte back. -/
theorem unescape_step (r : Nat) (tail : Bytes) :
    unescape (encodeQuotedString.step false [] r ++ tail) =
      (unescape tail).map (fun out => r :: out) := by
  by_cases hr : r ≤ 0x1F ∨ r = 0x7F ∨ r = 0x5C ∨ r = 0x22
  · have hle : r ≤ 0x7F := by omega
    interval_cases r <;>
      first
        | rfl
        | (exfalso; omega)
        | (simp only [encodeQuotedString.step]; rw [unescape.eq_def]; simp)
  · rw [encodeQuotedString.step_raw r hr]
    have h1 : r ≠ 0x5C := by omega
    have h9 : ¬ (r = 0x22 ∨ r ≤ 0x1F ∨ r = 0x7F) := by omega
    show unescape (r :: tail) = _
    rw [unescape.eq_def]
    simp only [if_neg h1, if_neg h9]

theorem unescape_body (v : Bytes) :
    unescape (v.map (encodeQuotedString.step false [])).flatten = some v := by
  induction v with
  | nil => rfl
  | cons r rs ih =>
    rw [List.map_cons, List.flatten_cons, unescape_step, ih]
    rfl

theorem encodeQuotedString.step_no_control (r c : Nat)
    (hc : c ∈ encodeQuotedString.step false [] r) : ¬ (c ≤ 0x1F ∨ c = 0x7F) := by
  by_cases hr : r ≤ 0x1F ∨ r = 0x7F ∨ r = 0x5C ∨ r = 0x22
  · have hle : r ≤ 0x7F := by omega
    interval_cases r <;> first | (exfalso; omega) | (revert c; decide)
  · rw [encodeQuotedString.step_raw r hr] at hc
    simp at hc
    subst hc
    omega

end Toml

namespace Toml

/-- C23: for every byte string `v`, the non-multiline output of
`encodeQuotedString` is a double quote, a body and a double quote.  The body
holds no byte in 0x00-0x1F and no 0x7F.  Decoding it escape by escape
succeeds and gives back exactly `v`; the decoding fails on a double quote and
on a backslash that is not part of an escape, so the body holds none.  Where
the loop looks a digit up in `hextable`, both indices are within its bounds
(as they are for every byte). -/
theorem encodeQuotedString_body_decodes_back (b v : Bytes) :
    encodeQuotedString false b v =
        b ++ [0x22] ++ (v.map (encodeQuotedString.step false [])).flatten ++ [0x22]
    ∧ (∀ c ∈ (v.map (encodeQuotedString.step false [])).flatten, ¬ (c ≤ 0x1F ∨ c = 0x7F))
    ∧ unescape (v.map (encodeQuotedString.step false [])).flatten = some v
    ∧ unescape [0x22] = none ∧ unescape [0x5C] = none ∧ unescape [0x5C, 0x61] = none
    ∧ (∀ r ∈ v, r ≠ 0x5C → r ≠ 0x22 → r ≠ 0x08 → r ≠ 0x0C → r ≠ 0x0A → r ≠ 0x0D → r ≠ 0x09 →
        ((0x00 ≤ r ∧ r ≤ 0x08) ∨ (0x0A ≤ r ∧ r ≤ 0x1F) ∨ r = 0x7F) →
        ∃ (hi : r / 16 < hextable.length) (lo : r % 16 < hextable.length),
          encodeQuotedString.step false [] r =
            [0x5C, 0x75, 0x30, 0x30, hextable.get ⟨r / 16, hi⟩, hextable.get ⟨r % 16, lo⟩])
    ∧ (∀ r : Nat, r < 256 → r / 16 < hextable.length ∧ r % 16 < hextable.length) := by
  refine ⟨?_, ?_, unescape_body v, by decide, by decide, by decide, ?_, ?_⟩
  · simp [encodeQuotedString, encodeQuotedString.foldl_step]
  · intro c hc
    obtain ⟨l, hl, hcl⟩ := List.mem_flatten.1 hc
    obtain ⟨r, -, rfl⟩ := List.mem_map.1 hl
    exact encodeQuotedString.step_no_control r c hcl
  · intro r _ h1 h2 h3 h4 h5 h6 h7 hr
    obtain ⟨hi, lo, hstep⟩ := encodeQuotedString.step_hex false [] r h1 h2 h3 h4 h5 h6 h7 hr
    exact ⟨hi, lo, by simpa using hstep⟩
  · intro r hr
    rw [hextable_length]
    omega

end Toml
